import Mathlib

/-!
# VC1401 assembler and emulator: a shallow embedding

The C++ sources (`Errors.cpp`, `SymTab.cpp`, `Instruction.cpp`, `Assembler.cpp`,
`Emulator.h`) are translated function by function.

Conventions of the embedding:

* a C++ `int` is an `Int` in the range of a 32-bit two's complement `int`.  `std::stoi`
  performs the range check the library performs (it throws `out_of_range`); the sums
  `a_loc + 1`, `a_loc + size` and `machineOpcode * 10000 + operandAddr` are reduced into
  that range modulo 2^32 (`wrapInt`), which is what the compiled program computes when a
  sum leaves the range;
* a `std::string` is a `String`, processed through its list of characters;
* the static members of `Errors` are an explicit `Errors` value threaded through every
  function that records an error;
* `FileAccess` is the list of lines that successive `GetNextLine` calls deliver;
* what the assembler prints (the translation on `cout`, the messages on `cerr`) is not part
  of the state; the characters `READ` takes from `cin` and the integers `WRITE` sends to
  `cout` are;
* the loop of `runProgram` need not end: it is run for a given number of iterations
  (`fuel`) and yields `none` when it is still running then.
-/

namespace VC1401

/-! ## Errors.cpp -/

/-- The static members of class `Errors`. -/
structure Errors where
  m_ErrorMsgs : List String
  m_WasErrorMessages : Bool
deriving DecidableEq, Repr

/-- The state after `Errors::InitErrorReporting`. -/
def Errors.InitErrorReporting : Errors :=
  { m_ErrorMsgs := [], m_WasErrorMessages := false }

/-- The function `Errors::RecordError`: push the message and raise the flag. -/
def Errors.RecordError (e : Errors) (a_emsg : String) : Errors :=
  { m_ErrorMsgs := e.m_ErrorMsgs ++ [a_emsg], m_WasErrorMessages := true }

/-- The function `Errors::WasThereErrors`. -/
def Errors.WasThereErrors (e : Errors) : Bool :=
  e.m_WasErrorMessages

/-! ## Library functions used by the sources -/

/-- The C locale `isspace`: space, `\t`, `\n`, `\v`, `\f`, `\r`. -/
def isspace (c : Char) : Bool :=
  c == ' ' || c == '\t' || c == '\n' || c == Char.ofNat 11 || c == Char.ofNat 12 || c == '\r'

/-- The C locale `isdigit`. -/
def isdigit (c : Char) : Bool :=
  decide (48 ≤ c.toNat) && decide (c.toNat ≤ 57)

/-- The value of a run of decimal digits, most significant first. -/
def digitsValue (ds : List Char) : Nat :=
  ds.foldl (fun acc c => acc * 10 + (c.toNat - 48)) 0

/-- The two cases of `stoi` after white space: an optional sign, then the digits. -/
def stoiSigned : List Char → Bool × List Char
  | '-' :: r => (true, r)
  | '+' :: r => (false, r)
  | cs => (false, cs)

/-- The function `std::stoi(str)` in base 10: skip leading white space, read an optional sign
and the longest run of digits, ignore what follows.  `none` stands for the two exceptions:
`invalid_argument` (no digit) and `out_of_range` (the value does not fit a 32-bit `int`). -/
def stoi (str : String) : Option Int :=
  let sd := stoiSigned (str.data.dropWhile isspace)
  let digits := sd.2.takeWhile isdigit
  if digits.isEmpty then none
  else
    let v : Int := if sd.1 then -(digitsValue digits : Int) else (digitsValue digits : Int)
    if -2147483648 ≤ v ∧ v ≤ 2147483647 then some v else none

/-- The value an `int` holds when it is assigned a sum whose exact value is `x`: `x` itself
when it lies in `[-2147483648, 2147483647]`, and otherwise the number of that range that
differs from `x` by a multiple of 2^32. -/
def wrapInt (x : Int) : Int :=
  (x + 2147483648) % 4294967296 - 2147483648

/-- The call `transform(s.begin(), s.end(), s.begin(), ::toupper)`. -/
def toUpperStr (s : String) : String :=
  String.mk (s.data.map Char.toUpper)

/-- The comparison `a > b` of two `std::string`s: the first character in which they differ
decides, and of a string and a proper initial part of it the longer one is the greater. -/
def stringGreater : List Char → List Char → Bool
  | [], _ => false
  | _ :: _, [] => true
  | a :: as, b :: bs => if b < a then true else if a < b then false else stringGreater as bs

/-- The state of an `istringstream`: the characters not yet consumed and the fail bit. -/
structure IStream where
  rest : List Char
  failed : Bool
deriving DecidableEq, Repr

/-- The extraction `iss >> tok` into a string that is still empty: skip white space, then
read up to the next white space.  With nothing left to read the extraction fails, the
string stays empty and every later extraction fails as well. -/
def IStream.extract (s : IStream) : Bool × String × IStream :=
  if s.failed then (false, "", s)
  else
    let r := s.rest.dropWhile isspace
    if r.isEmpty then (false, "", { rest := [], failed := true })
    else
      (true, String.mk (r.takeWhile (fun c => !isspace c)),
        { rest := r.dropWhile (fun c => !isspace c), failed := false })

/-! ## SymTab.h, SymTab.cpp -/

/-- The class `SymbolTable`.  The `std::map` member is an association list with at most one
entry for a key once it is built by `mapSet`; the order of its entries is never observed by
the sources, which only call `find`, `at` and `operator[]`. -/
structure SymbolTable where
  m_symbolTable : List (String × Int)
  m_orderedSymbols : List (String × Int)
deriving DecidableEq, Repr

/-- The constant `SymbolTable::multiplyDefinedSymbol`. -/
def SymbolTable.multiplyDefinedSymbol : Int := -999

/-- The constant `SymbolTable::m_INVALIDSYMBOL`. -/
def SymbolTable.m_INVALIDSYMBOL : Int := -998

/-- The default-constructed table. -/
def SymbolTable.empty : SymbolTable :=
  { m_symbolTable := [], m_orderedSymbols := [] }

/-- The lookup `m.find(k)` of a `std::map`, `none` for `m.end()`. -/
def mapFind (m : List (String × Int)) (k : String) : Option Int :=
  m.lookup k

/-- The assignment `m[k] = v` of a `std::map`: overwrite the entry of `k`, or insert one. -/
def mapSet : List (String × Int) → String → Int → List (String × Int)
  | [], k, v => [(k, v)]
  | (k1, v1) :: m, k, v => if k1 = k then (k1, v) :: m else (k1, v1) :: mapSet m k v

/-- The loop of `AddSymbol` over `m_orderedSymbols`: overwrite the location of the first
entry named `a_symbol`, then `break`. -/
def markOrdered : List (String × Int) → String → Int → List (String × Int)
  | [], _, _ => []
  | (n, l) :: rest, a_symbol, v =>
    if n = a_symbol then (n, v) :: rest else (n, l) :: markOrdered rest a_symbol v

/-- The function `SymbolTable::AddSymbol`. -/
def SymbolTable.AddSymbol (t : SymbolTable) (a_symbol : String) (a_loc : Int) (e : Errors) :
    SymbolTable × Errors :=
  if (mapFind t.m_symbolTable a_symbol).isSome then
    ({ m_symbolTable := mapSet t.m_symbolTable a_symbol SymbolTable.multiplyDefinedSymbol,
       m_orderedSymbols :=
         markOrdered t.m_orderedSymbols a_symbol SymbolTable.multiplyDefinedSymbol },
     e.RecordError ("Symbol '" ++ a_symbol ++ "' is multiply defined."))
  else
    ({ m_symbolTable := mapSet t.m_symbolTable a_symbol a_loc,
       m_orderedSymbols := t.m_orderedSymbols ++ [(a_symbol, a_loc)] }, e)

/-- The inner loop `for (j = i + 1; j < size; j++)` of `DisplaySymbolTable` for one `i`:
`x` is `sortedSymbols[i]`, `done` holds the entries between `i` and `j`, and the list
argument the entries from `j` on.  When `sortedSymbols[i].first > sortedSymbols[j].first`
the two entries are exchanged.  The result is `sortedSymbols[i]` and the entries after it
when the loop ends. -/
def displayInner (x : String × Int) (done : List (String × Int)) :
    List (String × Int) → (String × Int) × List (String × Int)
  | [] => (x, done)
  | y :: rest =>
    if stringGreater x.1.data y.1.data then displayInner y (done ++ [x]) rest
    else displayInner x (done ++ [y]) rest

/-- The outer loop `for (i = 0; i < size; i++)` of `DisplaySymbolTable` on the entries from
`i` on, `n` of them: the entries before `i` are not touched any more. -/
def displayOuter : Nat → List (String × Int) → List (String × Int)
  | 0, l => l
  | _ + 1, [] => []
  | n + 1, x :: rest => (displayInner x [] rest).1 :: displayOuter n (displayInner x [] rest).2

/-- The printing loop of `DisplaySymbolTable` from index `i` on: a line holds the index, the
symbol, the location and whether " (Multiply Defined)" is printed after it. -/
def displayRows : Nat → List (String × Int) → List (Nat × String × Int × Bool)
  | _, [] => []
  | i, x :: rest =>
    (i, x.1, x.2, decide (x.2 = SymbolTable.multiplyDefinedSymbol)) :: displayRows (i + 1) rest

/-- The function `SymbolTable::DisplaySymbolTable`: the lines it prints between the header
and the closing rule. -/
def SymbolTable.DisplaySymbolTable (t : SymbolTable) : List (Nat × String × Int × Bool) :=
  displayRows 0 (displayOuter t.m_orderedSymbols.length t.m_orderedSymbols)

/-- The function `SymbolTable::GetSymbolTable`. -/
def SymbolTable.GetSymbolTable (t : SymbolTable) : List (String × Int) :=
  t.m_orderedSymbols

/-- The function `SymbolTable::LookupSymbol`.  The method is `const`: the table is not a
result.  The second component is the reference parameter `a_loc` after the call. -/
def SymbolTable.LookupSymbol (t : SymbolTable) (a_symbol : String) (a_loc : Int) (e : Errors) :
    Bool × Int × Errors :=
  match mapFind t.m_symbolTable a_symbol with
  | some v =>
    if v = SymbolTable.multiplyDefinedSymbol then
      (false, a_loc, e.RecordError ("Symbol '" ++ a_symbol ++ "' is multiply defined."))
    else (true, v, e)
  | none => (false, a_loc, e.RecordError ("Symbol '" ++ a_symbol ++ "' is undefined."))

/-! ## Instruction.h, Instruction.cpp -/

/-- The enumeration `Instruction::InstructionType`. -/
inductive InstructionType where
  | ST_Invalid
  | ST_MachineLanguage
  | ST_AssemblerInstr
  | ST_Comment
  | ST_End
deriving DecidableEq, Repr

open InstructionType

/-- The data members of class `Instruction`. -/
structure Instruction where
  m_Label : String
  m_OpCode : String
  m_Operand : String
  m_instruction : String
  m_NumOpCode : Int
  m_type : InstructionType
  m_IsNumericOperand : Bool
  m_OperandNumValue : Int
deriving DecidableEq, Repr

/-- The constructor `Instruction::Instruction`. -/
def Instruction.ctor : Instruction :=
  { m_Label := "", m_OpCode := "", m_Operand := "", m_instruction := "", m_NumOpCode := 0,
    m_type := ST_Invalid, m_IsNumericOperand := false, m_OperandNumValue := 0 }

/-- The characters `trim` removes: `" \t\r\n"`. -/
def isTrimChar (c : Char) : Bool :=
  c == ' ' || c == '\t' || c == '\r' || c == '\n'

/-- The static helper `trim`: the substring from the first to the last character outside
`" \t\r\n"`, empty when there is none. -/
def trim (str : List Char) : List Char :=
  ((str.dropWhile isTrimChar).reverse.dropWhile isTrimChar).reverse

/-- The vector `opcodes` of `ParseInstruction`. -/
def opcodes : List String :=
  ["READ", "LOAD", "STORE", "WRITE", "BP", "HALT", "ORG", "DC", "DS", "END"]

/-- The type chosen from the upper-cased opcode token, the same chain of comparisons in
both branches of `ParseInstruction`. -/
def opcodeType (op : String) : InstructionType :=
  if op = "END" then ST_End
  else if op = "ORG" ∨ op = "DC" ∨ op = "DS" then ST_AssemblerInstr
  else ST_MachineLanguage

/-- The `try { m_OperandNumValue = stoi(m_Operand); m_IsNumericOperand = true; } catch ...`
block: the flag and the value afterwards. -/
def numericOperand (operand : String) : Bool × Int :=
  match stoi operand with
  | some v => (true, v)
  | none => (false, 0)

/-- The function `Instruction::ParseInstruction`.  Every member is reset first, so the result
does not depend on the previous contents of the object; the returned type is `m_type` of the
resulting object. -/
def ParseInstruction (a_buff : String) (e : Errors) : Instruction × Errors :=
  let line := trim (a_buff.data.takeWhile (fun c => c != ';'))
  if line.isEmpty then
    ({ Instruction.ctor with m_instruction := a_buff, m_type := ST_Comment }, e)
  else
    let r1 := IStream.extract { rest := line, failed := false }
    let firstToken := r1.2.1
    let firstTokenUpper := toUpperStr firstToken
    if firstTokenUpper ∈ opcodes then
      let r2 := r1.2.2.extract
      if r2.1 then
        ({ m_Label := "", m_OpCode := firstTokenUpper, m_Operand := r2.2.1,
           m_instruction := a_buff, m_NumOpCode := 0, m_type := opcodeType firstTokenUpper,
           m_IsNumericOperand := (numericOperand r2.2.1).1,
           m_OperandNumValue := (numericOperand r2.2.1).2 }, e)
      else
        ({ m_Label := "", m_OpCode := firstTokenUpper, m_Operand := "",
           m_instruction := a_buff, m_NumOpCode := 0, m_type := opcodeType firstTokenUpper,
           m_IsNumericOperand := false, m_OperandNumValue := 0 }, e)
    else
      let r2 := r1.2.2.extract
      if !r2.1 then
        ({ m_Label := firstToken, m_OpCode := "", m_Operand := "", m_instruction := a_buff,
           m_NumOpCode := 0, m_type := ST_Invalid, m_IsNumericOperand := false,
           m_OperandNumValue := 0 },
         e.RecordError ("Missing opcode after label: " ++ firstToken))
      else
        let secondTokenUpper := toUpperStr r2.2.1
        let r3 := r2.2.2.extract
        if r3.1 then
          ({ m_Label := firstToken, m_OpCode := secondTokenUpper, m_Operand := r3.2.1,
             m_instruction := a_buff, m_NumOpCode := 0, m_type := opcodeType secondTokenUpper,
             m_IsNumericOperand := (numericOperand r3.2.1).1,
             m_OperandNumValue := (numericOperand r3.2.1).2 }, e)
        else
          ({ m_Label := firstToken, m_OpCode := secondTokenUpper, m_Operand := "",
             m_instruction := a_buff, m_NumOpCode := 0, m_type := opcodeType secondTokenUpper,
             m_IsNumericOperand := false, m_OperandNumValue := 0 }, e)

/-- The function `Instruction::LocationNextInstruction`. -/
def Instruction.LocationNextInstruction (i : Instruction) (a_loc : Int) (e : Errors) :
    Int × Errors :=
  if i.m_type = ST_MachineLanguage then (wrapInt (a_loc + 1), e)
  else if i.m_type = ST_AssemblerInstr then
    if i.m_OpCode = "DC" then (wrapInt (a_loc + 1), e)
    else if i.m_OpCode = "DS" then
      match stoi i.m_Operand with
      | some size => (wrapInt (a_loc + size), e)
      | none =>
        (wrapInt (a_loc + 1),
          e.RecordError ("Invalid size for DS at location: " ++ toString a_loc))
    else if i.m_OpCode = "ORG" then
      match stoi i.m_Operand with
      | some newLoc => (newLoc, e)
      | none =>
        (wrapInt (a_loc + 1),
          e.RecordError ("Invalid operand for ORG at location: " ++ toString a_loc))
    else (a_loc, e)
  else (a_loc, e)

/-- The accessor `Instruction::GetLabel`. -/
def Instruction.GetLabel (i : Instruction) : String := i.m_Label

/-- The accessor `Instruction::isLabel`. -/
def Instruction.isLabel (i : Instruction) : Bool := !decide (i.m_Label = "")

/-- The accessor `Instruction::GetOpCode`. -/
def Instruction.GetOpCode (i : Instruction) : String := i.m_OpCode

/-- The accessor `Instruction::GetOperand`. -/
def Instruction.GetOperand (i : Instruction) : String := i.m_Operand

/-- The accessor `Instruction::IsNumericOperand`. -/
def Instruction.IsNumericOperand (i : Instruction) : Bool := i.m_IsNumericOperand

/-- The accessor `Instruction::GetOperandNumValue`. -/
def Instruction.GetOperandNumValue (i : Instruction) : Int := i.m_OperandNumValue

/-! ## Emulator.h -/

/-- The data members of class `emulator`.  The array `m_memory[MEMSZ]` is a map from
locations to words; the sources guard or derive every index so that only the cells
`0 .. MEMSZ - 1` are ever read or written. -/
structure emulator where
  m_memory : Int → Int
  m_accum : Int

/-- The constant `emulator::MEMSZ`. -/
def emulator.MEMSZ : Int := 10000

/-- The constructor `emulator::emulator`: memory and accumulator are zeroed. -/
def emulator.ctor : emulator :=
  { m_memory := fun _ => 0, m_accum := 0 }

/-- The function `emulator::insertMemory`. -/
def emulator.insertMemory (em : emulator) (a_location a_contents : Int) : Bool × emulator :=
  if 0 ≤ a_location ∧ a_location < emulator.MEMSZ then
    (true, { em with m_memory := fun i => if i = a_location then a_contents else em.m_memory i })
  else (false, em)

/-- The stream `cin` as `runProgram` reads it: the characters not yet consumed and the
fail bit, which the program never clears. -/
structure InputStream where
  rest : List Char
  failed : Bool
deriving DecidableEq, Repr

/-- The extraction `cin >> x` for an `int` currently holding `old`: the value of `x`
afterwards and the stream afterwards.  A stream that has failed leaves `x` as it is.
Otherwise white space is skipped; at the end of the input the extraction fails and leaves
`x` as it is; an optional sign and the longest run of digits are read, and the extraction
fails with 0 in `x` when there is no digit, and with the nearest bound of `int` in `x` when
the number does not fit.  What a failed extraction has consumed is not observed, since
every later extraction does nothing. -/
def InputStream.extractInt (s : InputStream) (old : Int) : Int × InputStream :=
  if s.failed then (old, s)
  else
    let r := s.rest.dropWhile isspace
    if r.isEmpty then (old, { rest := [], failed := true })
    else
      let sd := stoiSigned r
      let digits := sd.2.takeWhile isdigit
      if digits.isEmpty then (0, { rest := sd.2, failed := true })
      else
        let v : Int := if sd.1 then -(digitsValue digits : Int) else (digitsValue digits : Int)
        if v < -2147483648 then
          (-2147483648, { rest := sd.2.dropWhile isdigit, failed := true })
        else if 2147483647 < v then
          (2147483647, { rest := sd.2.dropWhile isdigit, failed := true })
        else (v, { rest := sd.2.dropWhile isdigit, failed := false })

/-- The state of the loop of `runProgram`: the local `loc`, the emulator, `cin`, and the
integers written to `cout` by `WRITE`, oldest first. -/
structure RunState where
  loc : Int
  em : emulator
  input : InputStream
  output : List Int

/-- The outcome of one iteration of the loop of `runProgram`: the loop goes on in a new
state, or `runProgram` returns a Boolean. -/
inductive StepResult where
  | running (s : RunState)
  | returned (result : Bool) (s : RunState)

/-- One iteration of the `while (true)` loop of `emulator::runProgram`.  The operators `/`
and `%` of C++ truncate towards zero: `Int.tdiv` and `Int.tmod`. -/
def runStep (s : RunState) : StepResult :=
  if s.loc < 0 ∨ s.loc ≥ emulator.MEMSZ then StepResult.returned false s
  else
    let contents := s.em.m_memory s.loc
    let opcode := contents.tdiv 10000
    let address := contents.tmod 10000
    if opcode = 5 then
      StepResult.running
        { s with em := { s.em with m_accum := s.em.m_memory address }, loc := s.loc + 1 }
    else if opcode = 6 then
      StepResult.running
        { s with em := { s.em with m_memory :=
                           fun i => if i = address then s.em.m_accum else s.em.m_memory i },
                 loc := s.loc + 1 }
    else if opcode = 7 then
      StepResult.running
        { s with em := { s.em with m_memory :=
                           fun i => if i = address
                                    then (s.input.extractInt (s.em.m_memory address)).1
                                    else s.em.m_memory i },
                 input := (s.input.extractInt (s.em.m_memory address)).2,
                 loc := s.loc + 1 }
    else if opcode = 8 then
      StepResult.running
        { s with output := s.output ++ [s.em.m_memory address], loc := s.loc + 1 }
    else if opcode = 12 then
      if s.em.m_accum > 0 then StepResult.running { s with loc := address }
      else StepResult.running { s with loc := s.loc + 1 }
    else if opcode = 13 then StepResult.returned true s
    else StepResult.returned false s

/-- The loop of `runProgram`, cut off after `fuel` iterations: `none` when it is still
running then. -/
def runLoop : Nat → RunState → Option (Bool × RunState)
  | 0, _ => none
  | fuel + 1, s =>
    match runStep s with
    | StepResult.running s2 => runLoop fuel s2
    | StepResult.returned result s2 => some (result, s2)

/-- The function `emulator::runProgram`: the loop started at location 100. -/
def emulator.runProgram (fuel : Nat) (em : emulator) (input : InputStream) :
    Option (Bool × RunState) :=
  runLoop fuel { loc := 100, em := em, input := input, output := [] }

/-- The state in which the loop of `runProgram`, started in `s`, begins its iteration
number `n` (counted from 0); `none` when the loop has returned before. -/
def stateAt : Nat → RunState → Option RunState
  | 0, s => some s
  | n + 1, s =>
    match runStep s with
    | StepResult.running s2 => stateAt n s2
    | StepResult.returned _ _ => none

/-! ## Assembler.h, Assembler.cpp -/

/-- The struct `IntermediateInstruction`. -/
structure IntermediateInstruction where
  type : InstructionType
  label : String
  opcode : String
  operand : String
  location : Int
  originalLine : String
deriving DecidableEq, Repr

/-- The data members of class `Assembler`, except `m_facc`: the lines it delivers are an
argument of `PassI`. -/
structure Assembler where
  m_symtab : SymbolTable
  m_inst : Instruction
  m_emul : emulator
  m_intermediate : List IntermediateInstruction

/-- The constructor `Assembler::Assembler`. -/
def Assembler.ctor : Assembler :=
  { m_symtab := SymbolTable.empty, m_inst := Instruction.ctor, m_emul := emulator.ctor,
    m_intermediate := [] }

/-- The state of the `while (true)` loop of `PassI`: the local `loc`, the assembler and the
error log. -/
structure PassIState where
  loc : Int
  asm : Assembler
  errs : Errors

/-- The body of the loop of `Assembler::PassI` once `GetNextLine` has delivered `line`.  The
Boolean is `true` when the loop goes on (`continue`, or the end of the body) and `false` on
`break`. -/
def PassIBody (line : String) (s : PassIState) : Bool × PassIState :=
  let p := ParseInstruction line s.errs
  let inst := p.1
  let instType := inst.m_type
  let interm : IntermediateInstruction :=
    { type := instType, label := if inst.isLabel then inst.GetLabel else "",
      opcode := inst.GetOpCode, operand := inst.GetOperand, location := s.loc,
      originalLine := line }
  let a1 : Assembler :=
    { s.asm with m_inst := inst, m_intermediate := s.asm.m_intermediate ++ [interm] }
  if instType = ST_Invalid then (true, { loc := s.loc, asm := a1, errs := p.2 })
  else if instType = ST_End then (false, { loc := s.loc, asm := a1, errs := p.2 })
  else if instType = ST_Comment then (true, { loc := s.loc, asm := a1, errs := p.2 })
  else if instType = ST_AssemblerInstr then
    let q := if inst.isLabel then a1.m_symtab.AddSymbol inst.GetLabel s.loc p.2
             else (a1.m_symtab, p.2)
    let a2 : Assembler := { a1 with m_symtab := q.1 }
    if inst.GetOpCode = "ORG" then
      match stoi inst.GetOperand with
      | some v => (true, { loc := v, asm := a2, errs := q.2 })
      | none =>
        (true, { loc := s.loc, asm := a2,
                 errs := q.2.RecordError "Invalid operand for ORG directive." })
    else if inst.GetOpCode = "DC" ∨ inst.GetOpCode = "DS" then
      let n := inst.LocationNextInstruction s.loc q.2
      (true, { loc := n.1, asm := a2, errs := n.2 })
    else
      (true, { loc := s.loc, asm := a2,
               errs := q.2.RecordError ("Unknown assembler instruction: " ++ inst.GetOpCode) })
  else if instType = ST_MachineLanguage then
    let q := if inst.isLabel then a1.m_symtab.AddSymbol inst.GetLabel s.loc p.2
             else (a1.m_symtab, p.2)
    let n := inst.LocationNextInstruction s.loc q.2
    (true, { loc := n.1, asm := { a1 with m_symtab := q.1 }, errs := n.2 })
  else (true, { loc := s.loc, asm := a1, errs := p.2 })

/-- The loop of `Assembler::PassI` over the lines still to be delivered: when `GetNextLine`
fails the missing `END` is recorded and the loop is left. -/
def PassILoop : List String → PassIState → PassIState
  | [], s => { s with errs := s.errs.RecordError "Missing END directive." }
  | line :: rest, s =>
    if (PassIBody line s).1 then PassILoop rest (PassIBody line s).2 else (PassIBody line s).2

/-- The function `Assembler::PassI` on the lines delivered by `m_facc`. -/
def PassI (lines : List String) (a : Assembler) (e : Errors) : Assembler × Errors :=
  ((PassILoop lines { loc := 0, asm := a, errs := e }).asm,
   (PassILoop lines { loc := 0, asm := a, errs := e }).errs)

/-- The table `opcodeMap` of `PassII`. -/
def opcodeMap : List (String × Int) :=
  [("READ", 7), ("LOAD", 5), ("STORE", 6), ("WRITE", 8), ("BP", 12), ("HALT", 13)]

/-- The body of the `for` loop of `Assembler::PassII` for one record: the emulator and the
error log afterwards.  The symbol table is only read. -/
def PassIIBody (symtab : SymbolTable) (interm : IntermediateInstruction)
    (s : emulator × Errors) : emulator × Errors :=
  if interm.type = ST_Invalid then s
  else if interm.type = ST_End then s
  else if interm.type = ST_Comment then s
  else if interm.type = ST_AssemblerInstr then
    if interm.opcode = "ORG" then s
    else if interm.opcode = "DC" then
      match stoi interm.operand with
      | some value => ((s.1.insertMemory interm.location value).2, s.2)
      | none => (s.1, s.2.RecordError "Invalid operand for DC directive.")
    else s
  else if interm.type = ST_MachineLanguage then
    match opcodeMap.lookup interm.opcode with
    | some machineOpcode =>
      let r : Bool × Int × Errors :=
        if interm.operand ≠ "" then symtab.LookupSymbol interm.operand 0 s.2
        else (true, 0, s.2)
      let e1 := if interm.operand ≠ "" ∧ r.1 = false
                then r.2.2.RecordError ("Undefined symbol: " ++ interm.operand) else r.2.2
      let operandAddr := r.2.1
      let machineCode := wrapInt (machineOpcode * 10000 + operandAddr)
      ((s.1.insertMemory interm.location machineCode).2, e1)
    | none => (s.1, s.2.RecordError ("Unknown opcode: " ++ interm.opcode))
  else s

/-- The `for` loop of `Assembler::PassII` over the records `recs`, in order. -/
def PassIILoop (symtab : SymbolTable) (recs : List IntermediateInstruction)
    (s : emulator × Errors) : emulator × Errors :=
  recs.foldl (fun s r => PassIIBody symtab r s) s

/-- The function `Assembler::PassII`: the loop over `m_intermediate`. -/
def PassII (a : Assembler) (e : Errors) : Assembler × Errors :=
  ({ a with m_emul := (PassIILoop a.m_symtab a.m_intermediate (a.m_emul, e)).1 },
   (PassIILoop a.m_symtab a.m_intermediate (a.m_emul, e)).2)

/-- Pass I followed by Pass II on a freshly constructed assembler (empty symbol table, zeroed
emulator) with a freshly initialised error log. -/
def assemble (lines : List String) : Assembler × Errors :=
  PassII (PassI lines Assembler.ctor Errors.InitErrorReporting).1
    (PassI lines Assembler.ctor Errors.InitErrorReporting).2

/-- The outcome of `Assembler::RunProgramInEmulator`: `ran` is the value `runProgram`
returned, or `none` when the emulator was not run because of recorded errors. -/
structure RunOutcome where
  ran : Option Bool
  asm : Assembler
  input : InputStream
  output : List Int

/-- The function `Assembler::RunProgramInEmulator`; `none` when the emulator is still
running after `fuel` iterations. -/
def Assembler.RunProgramInEmulator (fuel : Nat) (a : Assembler) (e : Errors)
    (input : InputStream) : Option RunOutcome :=
  if !e.WasThereErrors then
    match a.m_emul.runProgram fuel input with
    | some r =>
      some { ran := some r.1, asm := { a with m_emul := r.2.em }, input := r.2.input,
             output := r.2.output }
    | none => none
  else some { ran := none, asm := a, input := input, output := [] }

/-! ## Sequences of calls, used to state the properties -/

/-- The calls `AddSymbol(x.1, x.2)` for the entries `x` of `calls`, in order. -/
def addSymbols (calls : List (String × Int)) (s : SymbolTable × Errors) : SymbolTable × Errors :=
  calls.foldl (fun s x => s.1.AddSymbol x.1 x.2 s.2) s

/-- The error log after `k` successive calls `LookupSymbol(a_symbol, a_loc)` on the same
table, the reference `a_loc` being carried from one call to the next. -/
def lookupTimes (t : SymbolTable) (a_symbol : String) : Nat → Int → Errors → Errors
  | 0, _, e => e
  | k + 1, a_loc, e =>
    lookupTimes t a_symbol k (t.LookupSymbol a_symbol a_loc e).2.1
      (t.LookupSymbol a_symbol a_loc e).2.2

/-- The lookup structure and the ordered list hold the same entries, in the order in which
this embedding keeps them, and each name once. -/
def tablesAgree (t : SymbolTable) : Prop :=
  t.m_symbolTable = t.m_orderedSymbols ∧ (t.m_orderedSymbols.map Prod.fst).Nodup

/-- The names of a sequence of `AddSymbol` calls in the order of their first call. -/
def firstNames (calls : List (String × Int)) : List String :=
  calls.foldl (fun acc c => if c.1 ∈ acc then acc else acc ++ [c.1]) []

/-- The records for which Pass II calls `insertMemory`: a `DC` whose operand `stoi` reads,
and a machine instruction whose opcode is in `opcodeMap`. -/
def writesMemory (r : IntermediateInstruction) : Prop :=
  (r.type = ST_AssemblerInstr ∧ r.opcode = "DC" ∧ (stoi r.operand).isSome = true) ∨
  (r.type = ST_MachineLanguage ∧ (opcodeMap.lookup r.opcode).isSome = true)

/-- The memory of the loop that never ends: 1 in cell 0, `LOAD 0` at 100, `BP 100` at 101. -/
def loopMemory : Int → Int :=
  fun i => if i = 0 then 1 else if i = 100 then 50000 else if i = 101 then 120100 else 0

/-- The record `interm` that the body of the loop of `PassI` pushes for `line`. -/
def PassIRecord (line : String) (s : PassIState) : IntermediateInstruction :=
  { type := (ParseInstruction line s.errs).1.m_type,
    label := if (ParseInstruction line s.errs).1.isLabel
             then (ParseInstruction line s.errs).1.GetLabel else "",
    opcode := (ParseInstruction line s.errs).1.GetOpCode,
    operand := (ParseInstruction line s.errs).1.GetOperand,
    location := s.loc,
    originalLine := line }

/-- The location counter of Pass I once the record `r` has been handled, read off the
record: the summary of `PassIBody` that `PassIBody_loc` establishes. -/
def locAfter (r : IntermediateInstruction) : Int :=
  if r.type = ST_MachineLanguage then wrapInt (r.location + 1)
  else if r.type = ST_AssemblerInstr then
    if r.opcode = "ORG" then (stoi r.operand).getD r.location
    else if r.opcode = "DC" then wrapInt (r.location + 1)
    else if r.opcode = "DS" then wrapInt (r.location + (stoi r.operand).getD 1)
    else r.location
  else r.location

/-- The records for which Pass I calls `AddSymbol`: assembler and machine instructions that
carry a label. -/
def registersLabel (r : IntermediateInstruction) : Bool :=
  (decide (r.type = ST_AssemblerInstr) || decide (r.type = ST_MachineLanguage))
    && !decide (r.label = "")

/-- The `AddSymbol` calls of Pass I for a list of records, in order. -/
def labelCalls (recs : List IntermediateInstruction) : List (String × Int) :=
  (recs.filter registersLabel).map (fun r => (r.label, r.location))

/-- The log `e2` continues the log `e`: the messages of `e` are an initial part of those of
`e2`, and the flag, once raised, is still raised. -/
def Errors.grows (e e2 : Errors) : Prop :=
  e.m_ErrorMsgs <+: e2.m_ErrorMsgs ∧ (e.m_WasErrorMessages = true → e2.m_WasErrorMessages = true)

/-- The text of a line that `ParseInstruction` keeps: what stands before the first `;`. -/
def stripComment (a_buff : String) : List Char :=
  a_buff.data.takeWhile (fun c => c != ';')

/-- The whitespace-separated tokens of a text, as the specification words them: the
non-empty pieces between white-space characters, in order. -/
def tokens (text : List Char) : List String :=
  ((text.splitOnP isspace).filter (fun t => !t.isEmpty)).map String.mk

/-- The tokens an `istringstream` still holds. -/
def IStream.tokens (s : IStream) : List String :=
  if s.failed then [] else VC1401.tokens s.rest

/-- Whether `ParseInstruction` classifies a line as `ST_End`. -/
def isEndLine (line : String) : Bool :=
  decide ((ParseInstruction line Errors.InitErrorReporting).1.m_type = ST_End)

/-! ## The symbol table -/

theorem mapFind_mapSet_self (m : List (String × Int)) (k : String) (v : Int) :
    mapFind (mapSet m k v) k = some v := by
  induction m with
  | nil => simp [mapSet, mapFind, List.lookup]
  | cons x m ih =>
    obtain ⟨k1, v1⟩ := x
    by_cases h : k1 = k
    · subst h
      simp [mapSet, mapFind, List.lookup]
    · have h2 : (k == k1) = false := by simpa using fun h3 => h h3.symm
      simp only [mapFind] at ih
      simp [mapSet, mapFind, List.lookup, h, h2, ih]

theorem mapFind_mapSet_ne (m : List (String × Int)) (k k2 : String) (v : Int) (hne : k2 ≠ k) :
    mapFind (mapSet m k v) k2 = mapFind m k2 := by
  induction m with
  | nil =>
    have h2 : (k2 == k) = false := by simpa using hne
    simp [mapSet, mapFind, List.lookup, h2]
  | cons x m ih =>
    obtain ⟨k1, v1⟩ := x
    simp only [mapFind] at ih
    by_cases h : k1 = k
    · subst h
      have h2 : (k2 == k1) = false := by simpa using hne
      simp [mapSet, mapFind, List.lookup, h2]
    · by_cases h3 : k2 = k1
      · subst h3
        simp [mapSet, mapFind, List.lookup, h]
      · have h4 : (k2 == k1) = false := by simpa using h3
        simp [mapSet, mapFind, List.lookup, h, h4, ih]

theorem find_AddSymbol_ne (t : SymbolTable) (n n2 : String) (l : Int) (e : Errors)
    (hne : n2 ≠ n) :
    mapFind (t.AddSymbol n l e).1.m_symbolTable n2 = mapFind t.m_symbolTable n2 := by
  unfold SymbolTable.AddSymbol
  split <;> simp [mapFind_mapSet_ne _ _ _ _ hne]

theorem find_AddSymbol_present (t : SymbolTable) (n : String) (l v : Int) (e : Errors)
    (h : mapFind t.m_symbolTable n = some v) :
    mapFind (t.AddSymbol n l e).1.m_symbolTable n = some SymbolTable.multiplyDefinedSymbol := by
  simp [SymbolTable.AddSymbol, h, mapFind_mapSet_self]

theorem find_AddSymbol_absent (t : SymbolTable) (n : String) (l : Int) (e : Errors)
    (h : mapFind t.m_symbolTable n = none) :
    mapFind (t.AddSymbol n l e).1.m_symbolTable n = some l := by
  simp [SymbolTable.AddSymbol, h, mapFind_mapSet_self]

theorem find_AddSymbol_isSome (t : SymbolTable) (n : String) (l : Int) (e : Errors) :
    ∃ v, mapFind (t.AddSymbol n l e).1.m_symbolTable n = some v := by
  cases h : mapFind t.m_symbolTable n with
  | none => exact ⟨l, find_AddSymbol_absent t n l e h⟩
  | some v => exact ⟨_, find_AddSymbol_present t n l v e h⟩

theorem addSymbols_cons (x : String × Int) (calls : List (String × Int))
    (s : SymbolTable × Errors) :
    addSymbols (x :: calls) s = addSymbols calls (s.1.AddSymbol x.1 x.2 s.2) := rfl

theorem addSymbols_append (xs ys : List (String × Int)) (s : SymbolTable × Errors) :
    addSymbols (xs ++ ys) s = addSymbols ys (addSymbols xs s) := by
  simp [addSymbols, List.foldl_append]

/-- Calls on other names leave the entry of `n` as it is. -/
theorem find_addSymbols_not_mem (calls : List (String × Int)) (n : String) :
    ∀ s : SymbolTable × Errors, n ∉ calls.map Prod.fst →
      mapFind (addSymbols calls s).1.m_symbolTable n = mapFind s.1.m_symbolTable n := by
  induction calls with
  | nil => intro s _; rfl
  | cons x calls ih =>
    intro s hn
    simp only [List.map_cons, List.mem_cons, not_or] at hn
    rw [addSymbols_cons, ih _ hn.2, find_AddSymbol_ne _ _ _ _ _ hn.1]

/-- A name marked multiply defined stays marked. -/
theorem find_addSymbols_marked (calls : List (String × Int)) (n : String) :
    ∀ s : SymbolTable × Errors,
      mapFind s.1.m_symbolTable n = some SymbolTable.multiplyDefinedSymbol →
      mapFind (addSymbols calls s).1.m_symbolTable n
        = some SymbolTable.multiplyDefinedSymbol := by
  induction calls with
  | nil => intro s h; exact h
  | cons x calls ih =>
    intro s h
    rw [addSymbols_cons]
    apply ih
    by_cases hx : x.1 = n
    · rw [hx]; exact find_AddSymbol_present _ _ _ _ _ h
    · rw [find_AddSymbol_ne _ _ _ _ _ (fun h2 => hx h2.symm)]; exact h

/-- A name already present is marked by one more call on it. -/
theorem find_addSymbols_present (calls : List (String × Int)) (n : String) :
    ∀ (s : SymbolTable × Errors) (v : Int), mapFind s.1.m_symbolTable n = some v →
      1 ≤ (calls.map Prod.fst).count n →
      mapFind (addSymbols calls s).1.m_symbolTable n
        = some SymbolTable.multiplyDefinedSymbol := by
  induction calls with
  | nil => intro s v _ hc; simp at hc
  | cons x calls ih =>
    intro s v h hc
    rw [addSymbols_cons]
    by_cases hx : x.1 = n
    · apply find_addSymbols_marked
      rw [hx]; exact find_AddSymbol_present _ _ _ _ _ h
    · apply ih _ v
      · rw [find_AddSymbol_ne _ _ _ _ _ (fun h2 => hx h2.symm)]; exact h
      · simpa [List.count_cons, hx] using hc

/-- Two calls on a name mark it, whatever the table was. -/
theorem find_addSymbols_twice (calls : List (String × Int)) (n : String) :
    ∀ s : SymbolTable × Errors, 2 ≤ (calls.map Prod.fst).count n →
      mapFind (addSymbols calls s).1.m_symbolTable n
        = some SymbolTable.multiplyDefinedSymbol := by
  induction calls with
  | nil => intro s hc; simp at hc
  | cons x calls ih =>
    intro s hc
    rw [addSymbols_cons]
    by_cases hx : x.1 = n
    · obtain ⟨v, hv⟩ := find_AddSymbol_isSome s.1 x.1 x.2 s.2
      rw [← hx]
      apply find_addSymbols_present _ _ _ v hv
      rw [← hx] at hc
      simp only [List.map_cons, List.count_cons, beq_self_eq_true, if_true] at hc
      omega
    · apply ih
      simpa [List.count_cons, hx] using hc

theorem LookupSymbol_of_find_none (t : SymbolTable) (n : String) (l : Int) (e : Errors)
    (h : mapFind t.m_symbolTable n = none) :
    t.LookupSymbol n l e = (false, l, e.RecordError ("Symbol '" ++ n ++ "' is undefined.")) := by
  simp [SymbolTable.LookupSymbol, h]

theorem LookupSymbol_of_find_marked (t : SymbolTable) (n : String) (l : Int) (e : Errors)
    (h : mapFind t.m_symbolTable n = some SymbolTable.multiplyDefinedSymbol) :
    t.LookupSymbol n l e
      = (false, l, e.RecordError ("Symbol '" ++ n ++ "' is multiply defined.")) := by
  simp [SymbolTable.LookupSymbol, h]

theorem LookupSymbol_of_find_some (t : SymbolTable) (n : String) (l v : Int) (e : Errors)
    (h : mapFind t.m_symbolTable n = some v) (hv : v ≠ SymbolTable.multiplyDefinedSymbol) :
    t.LookupSymbol n l e = (true, v, e) := by
  simp [SymbolTable.LookupSymbol, h, hv]

/-- A failed lookup keeps the reference and appends one message. -/
theorem LookupSymbol_failed (t : SymbolTable) (n : String) (l : Int) (e : Errors)
    (h : (t.LookupSymbol n l e).1 = false) :
    (t.LookupSymbol n l e).2.1 = l ∧
      ∃ msg, (t.LookupSymbol n l e).2.2 = e.RecordError msg := by
  unfold SymbolTable.LookupSymbol at h ⊢
  split at h
  · split at h
    · rename_i v heq hv
      simp [heq, hv]
    · simp at h
  · rename_i heq
    simp [heq]

/-- Whether a lookup succeeds depends on the table and the name only. -/
theorem LookupSymbol_fst_indep (t : SymbolTable) (n : String) (l l2 : Int) (e e2 : Errors) :
    (t.LookupSymbol n l e).1 = (t.LookupSymbol n l2 e2).1 := by
  unfold SymbolTable.LookupSymbol
  cases mapFind t.m_symbolTable n with
  | none => rfl
  | some v => by_cases hv : v = SymbolTable.multiplyDefinedSymbol <;> simp [hv]

theorem lookupTimes_failed_length (t : SymbolTable) (n : String) (k : Nat) :
    ∀ (l : Int) (e : Errors), (t.LookupSymbol n l e).1 = false →
      (lookupTimes t n k l e).m_ErrorMsgs.length = e.m_ErrorMsgs.length + k := by
  induction k with
  | zero => intro l e _; rfl
  | succ k ih =>
    intro l e h
    obtain ⟨_, msg, hmsg⟩ := LookupSymbol_failed t n l e h
    have h2 : (t.LookupSymbol n (t.LookupSymbol n l e).2.1 (t.LookupSymbol n l e).2.2).1
        = false := by
      rw [← h]; exact LookupSymbol_fst_indep _ _ _ _ _ _
    simp only [lookupTimes]
    rw [ih _ _ h2, hmsg]
    simp [Errors.RecordError]
    omega

/-- C4: `insertMemory(location, value)` returns `true` exactly when
`0 <= location < 10000`; on success the cell at `location` holds `value` while every other
cell and the accumulator are as before; on failure the emulator is unchanged.  So the calls
`insert(-1, 7)` and `insert(10000, 7)` fail and `insert(9999, 7)` succeeds. -/
theorem insertMemory_in_range_iff (em : emulator) (location value : Int) :
    ((em.insertMemory location value).1 = true ↔ 0 ≤ location ∧ location < 10000) ∧
    ((em.insertMemory location value).1 = true →
      (em.insertMemory location value).2.m_memory location = value ∧
      (∀ j, j ≠ location → (em.insertMemory location value).2.m_memory j = em.m_memory j) ∧
      (em.insertMemory location value).2.m_accum = em.m_accum) ∧
    ((em.insertMemory location value).1 = false → (em.insertMemory location value).2 = em) ∧
    (em.insertMemory (-1) 7).1 = false ∧
    (em.insertMemory 10000 7).1 = false ∧
    (em.insertMemory 9999 7).1 = true := by
  refine ⟨?_, ?_, ?_, ?_, ?_, ?_⟩
  · unfold emulator.insertMemory emulator.MEMSZ
    split <;> simp_all
  · unfold emulator.insertMemory emulator.MEMSZ
    split
    · intro _
      refine ⟨by simp, ?_, rfl⟩
      intro j hj
      simp [hj]
    · simp
  · unfold emulator.insertMemory emulator.MEMSZ
    split <;> simp
  · simp [emulator.insertMemory, emulator.MEMSZ]
  · simp [emulator.insertMemory, emulator.MEMSZ]
  · simp [emulator.insertMemory, emulator.MEMSZ]

/-- C5: once `AddSymbol` has been called at least twice on a name, in any sequence of
`AddSymbol` calls on any table, `LookupSymbol` on that name fails: it returns `false`, keeps
the caller's location and reports the name as multiply defined. -/
theorem lookup_fails_after_two_adds (t : SymbolTable) (e : Errors) (name : String)
    (calls : List (String × Int)) (htwice : 2 ≤ (calls.map Prod.fst).count name)
    (a_loc : Int) (e2 : Errors) :
    (addSymbols calls (t, e)).1.LookupSymbol name a_loc e2
      = (false, a_loc, e2.RecordError ("Symbol '" ++ name ++ "' is multiply defined.")) :=
  LookupSymbol_of_find_marked _ _ _ _ (find_addSymbols_twice calls name (t, e) htwice)

/-- An instance of C5: `X` is added at 1 and at 3, `Y` in between and `X` a third time. -/
theorem lookup_fails_after_two_adds_witness :
    2 ≤ ([("X", (1 : Int)), ("Y", 2), ("X", 3), ("X", 4)].map Prod.fst).count "X" ∧
    (addSymbols [("X", 1), ("Y", 2), ("X", 3), ("X", 4)]
        (SymbolTable.empty, Errors.InitErrorReporting)).1.LookupSymbol "X" 0
        Errors.InitErrorReporting
      = (false, 0,
          Errors.InitErrorReporting.RecordError ("Symbol '" ++ "X" ++ "' is multiply defined.")) :=
  ⟨by decide,
   lookup_fails_after_two_adds SymbolTable.empty Errors.InitErrorReporting "X"
     [("X", 1), ("Y", 2), ("X", 3), ("X", 4)] (by decide) 0 Errors.InitErrorReporting⟩

/-- C6 fails at the location -999, the value of `multiplyDefinedSymbol`: after the single call
`AddSymbol("X", -999)` on the empty table, `LookupSymbol("X")` returns `false` and reports
the symbol as multiply defined. -/
theorem lookup_after_add_at_sentinel :
    mapFind SymbolTable.empty.m_symbolTable "X" = none ∧
    (SymbolTable.empty.AddSymbol "X" (-999) Errors.InitErrorReporting).2
      = Errors.InitErrorReporting ∧
    (SymbolTable.empty.AddSymbol "X" (-999) Errors.InitErrorReporting).1.LookupSymbol "X" 0
        Errors.InitErrorReporting
      = (false, 0, { m_ErrorMsgs := ["Symbol 'X' is multiply defined."],
                     m_WasErrorMessages := true }) := by
  decide

/-- C6, amended: for a name not yet in the table and a location other than -999, after
`AddSymbol(name, loc)` and any further `AddSymbol` calls on other names, `LookupSymbol(name)`
returns `true` with the location `loc` and leaves the error log as it was. -/
theorem lookup_after_fresh_add (t : SymbolTable) (e : Errors) (name : String) (loc : Int)
    (calls : List (String × Int)) (a_loc : Int) (e2 : Errors)
    (hnew : mapFind t.m_symbolTable name = none)
    (hloc : loc ≠ SymbolTable.multiplyDefinedSymbol)
    (hother : name ∉ calls.map Prod.fst) :
    (addSymbols calls (t.AddSymbol name loc e)).1.LookupSymbol name a_loc e2
      = (true, loc, e2) := by
  apply LookupSymbol_of_find_some _ _ _ _ _ _ hloc
  rw [find_addSymbols_not_mem calls name _ hother]
  exact find_AddSymbol_absent t name loc e hnew

/-- An instance of the amended C6: `X` added at 7 to a table holding `A`, then `B` added. -/
theorem lookup_after_fresh_add_witness :
    mapFind (SymbolTable.empty.AddSymbol "A" 0 Errors.InitErrorReporting).1.m_symbolTable "X"
      = none ∧
    (7 : Int) ≠ SymbolTable.multiplyDefinedSymbol ∧
    "X" ∉ [("B", (9 : Int))].map Prod.fst ∧
    (addSymbols [("B", 9)]
        ((SymbolTable.empty.AddSymbol "A" 0 Errors.InitErrorReporting).1.AddSymbol "X" 7
          Errors.InitErrorReporting)).1.LookupSymbol "X" 0 Errors.InitErrorReporting
      = (true, 7, Errors.InitErrorReporting) :=
  ⟨by decide, by decide, by decide,
   lookup_after_fresh_add (SymbolTable.empty.AddSymbol "A" 0 Errors.InitErrorReporting).1
     Errors.InitErrorReporting "X" 7 [("B", 9)] 0 Errors.InitErrorReporting
     (by decide) (by decide) (by decide)⟩

/-- C7: on a table built from the empty one by `AddSymbol` calls none of which names `name`,
`LookupSymbol(name)` returns `false`, keeps the caller's location and appends the message
that the symbol is undefined; the method is `const`, the table is no result of it.  Every
lookup that returns `false` keeps the location and appends exactly one message, and `k`
failed lookups of one name make the log `k` messages longer. -/
theorem lookup_never_added_fails (calls : List (String × Int)) (e0 : Errors) (name : String)
    (hnever : name ∉ calls.map Prod.fst) :
    (∀ (a_loc : Int) (e : Errors),
      (addSymbols calls (SymbolTable.empty, e0)).1.LookupSymbol name a_loc e
        = (false, a_loc, e.RecordError ("Symbol '" ++ name ++ "' is undefined."))) ∧
    (∀ (t : SymbolTable) (n : String) (a_loc : Int) (e : Errors),
      (t.LookupSymbol n a_loc e).1 = false →
        (t.LookupSymbol n a_loc e).2.1 = a_loc ∧
        ∃ msg, (t.LookupSymbol n a_loc e).2.2.m_ErrorMsgs = e.m_ErrorMsgs ++ [msg]) ∧
    (∀ (t : SymbolTable) (n : String) (k : Nat) (a_loc : Int) (e : Errors),
      (t.LookupSymbol n a_loc e).1 = false →
        (lookupTimes t n k a_loc e).m_ErrorMsgs.length = e.m_ErrorMsgs.length + k) := by
  refine ⟨?_, ?_, ?_⟩
  · intro a_loc e
    apply LookupSymbol_of_find_none
    rw [find_addSymbols_not_mem calls name _ hnever]
    rfl
  · intro t n a_loc e h
    obtain ⟨h1, msg, h2⟩ := LookupSymbol_failed t n a_loc e h
    exact ⟨h1, msg, by rw [h2]; rfl⟩
  · intro t n k a_loc e h
    exact lookupTimes_failed_length t n k a_loc e h

/-- An instance of C7: `X` was never added to a table holding `A` and `B`; three lookups of
it leave three messages. -/
theorem lookup_never_added_fails_witness :
    "X" ∉ [("A", (0 : Int)), ("B", 1)].map Prod.fst ∧
    (addSymbols [("A", 0), ("B", 1)] (SymbolTable.empty, Errors.InitErrorReporting)).1.LookupSymbol
        "X" 5 Errors.InitErrorReporting
      = (false, 5, Errors.InitErrorReporting.RecordError ("Symbol '" ++ "X" ++ "' is undefined.")) ∧
    (lookupTimes SymbolTable.empty "X" 3 5 Errors.InitErrorReporting).m_ErrorMsgs.length
      = Errors.InitErrorReporting.m_ErrorMsgs.length + 3 :=
  ⟨by decide,
   (lookup_never_added_fails [("A", 0), ("B", 1)] Errors.InitErrorReporting "X"
     (by decide)).1 5 Errors.InitErrorReporting,
   (lookup_never_added_fails [("A", 0), ("B", 1)] Errors.InitErrorReporting "X"
     (by decide)).2.2 SymbolTable.empty "X" 3 5 Errors.InitErrorReporting (by decide)⟩

/-! ## Pass I -/

theorem PassIBody_intermediate (line : String) (s : PassIState) :
    (PassIBody line s).2.asm.m_intermediate
      = s.asm.m_intermediate ++ [PassIRecord line s] := by
  unfold PassIBody PassIRecord
  simp only []
  split_ifs <;> first | rfl | (split <;> rfl)

theorem PassIRecord_location (line : String) (s : PassIState) :
    (PassIRecord line s).location = s.loc := rfl

theorem PassIBody_loc (line : String) (s : PassIState) :
    (PassIBody line s).2.loc = locAfter (PassIRecord line s) := by
  unfold PassIBody locAfter PassIRecord Instruction.LocationNextInstruction
  simp only [Instruction.GetOpCode, Instruction.GetOperand]
  cases ht : (ParseInstruction line s.errs).1.m_type
  · simp
  · simp
  · by_cases h1 : (ParseInstruction line s.errs).1.m_OpCode = "ORG"
    · cases h2 : stoi (ParseInstruction line s.errs).1.m_Operand <;> simp [h1, h2]
    · by_cases h3 : (ParseInstruction line s.errs).1.m_OpCode = "DC"
      · simp [h1, h3]
      · by_cases h4 : (ParseInstruction line s.errs).1.m_OpCode = "DS"
        · cases h2 : stoi (ParseInstruction line s.errs).1.m_Operand <;> simp [h1, h3, h4, h2]
        · simp [h1, h3, h4]
  · simp
  · simp

theorem AddSymbol_fst_indep (t : SymbolTable) (n : String) (l : Int) (e e2 : Errors) :
    (t.AddSymbol n l e).1 = (t.AddSymbol n l e2).1 := by
  unfold SymbolTable.AddSymbol
  split <;> rfl

theorem addSymbols_fst_indep (calls : List (String × Int)) :
    ∀ (t : SymbolTable) (e e2 : Errors),
      (addSymbols calls (t, e)).1 = (addSymbols calls (t, e2)).1 := by
  induction calls with
  | nil => intro t e e2; rfl
  | cons x calls ih =>
    intro t e e2
    rw [addSymbols_cons, addSymbols_cons]
    have h := AddSymbol_fst_indep t x.1 x.2 e e2
    calc (addSymbols calls (t.AddSymbol x.1 x.2 e)).1
        = (addSymbols calls ((t.AddSymbol x.1 x.2 e).1, (t.AddSymbol x.1 x.2 e).2)).1 := rfl
      _ = (addSymbols calls ((t.AddSymbol x.1 x.2 e2).1, (t.AddSymbol x.1 x.2 e2).2)).1 := by
          rw [h]; exact ih _ _ _
      _ = (addSymbols calls (t.AddSymbol x.1 x.2 e2)).1 := rfl

theorem labelCalls_append (xs ys : List IntermediateInstruction) :
    labelCalls (xs ++ ys) = labelCalls xs ++ labelCalls ys := by
  simp [labelCalls]

/-- The symbol table after the body: the `AddSymbol` call of the pushed record, if any. -/
theorem PassIBody_symtab (line : String) (s : PassIState) (e : Errors) :
    (PassIBody line s).2.asm.m_symtab
      = (addSymbols (labelCalls [PassIRecord line s]) (s.asm.m_symtab, e)).1 := by
  unfold PassIBody
  simp only [labelCalls, List.filter, registersLabel, PassIRecord, Instruction.isLabel,
    Instruction.GetLabel, Instruction.GetOpCode, Instruction.GetOperand, addSymbols]
  cases ht : (ParseInstruction line s.errs).1.m_type
  · simp
  · by_cases hlab : (ParseInstruction line s.errs).1.m_Label = ""
    · simp [hlab]
    · simp [hlab]
      exact AddSymbol_fst_indep _ _ _ _ _
  · by_cases hlab : (ParseInstruction line s.errs).1.m_Label = ""
    · by_cases h1 : (ParseInstruction line s.errs).1.m_OpCode = "ORG"
      · cases h2 : stoi (ParseInstruction line s.errs).1.m_Operand <;> simp [hlab, h1, h2]
      · by_cases h3 : (ParseInstruction line s.errs).1.m_OpCode = "DC" ∨
            (ParseInstruction line s.errs).1.m_OpCode = "DS"
        · simp [hlab, h1, h3]
        · simp [hlab, h1, h3]
    · by_cases h1 : (ParseInstruction line s.errs).1.m_OpCode = "ORG"
      · cases h2 : stoi (ParseInstruction line s.errs).1.m_Operand <;> simp [hlab, h1, h2] <;>
          exact AddSymbol_fst_indep _ _ _ _ _
      · by_cases h3 : (ParseInstruction line s.errs).1.m_OpCode = "DC" ∨
            (ParseInstruction line s.errs).1.m_OpCode = "DS"
        · simp [hlab, h1, h3]
          exact AddSymbol_fst_indep _ _ _ _ _
        · simp [hlab, h1, h3]
          exact AddSymbol_fst_indep _ _ _ _ _
  · simp
  · simp

/-- Induction over the loop of `PassI`. -/
theorem PassILoop_induct (P : PassIState → Prop)
    (hbody : ∀ line s, P s → P (PassIBody line s).2)
    (hend : ∀ s : PassIState,
      P s → P { s with errs := s.errs.RecordError "Missing END directive." }) :
    ∀ (lines : List String) (s : PassIState), P s → P (PassILoop lines s) := by
  intro lines
  induction lines with
  | nil => intro s hs; exact hend s hs
  | cons line rest ih =>
    intro s hs
    unfold PassILoop
    split_ifs
    · exact ih _ (hbody line s hs)
    · exact hbody line s hs

theorem wrapInt_of_fits (x : Int) (h : -2147483648 ≤ x ∧ x ≤ 2147483647) :
    wrapInt x = x := by
  unfold wrapInt
  omega

theorem wrapInt_range (x : Int) : -2147483648 ≤ wrapInt x ∧ wrapInt x ≤ 2147483647 := by
  unfold wrapInt
  omega

theorem stoi_range (str : String) (v : Int) (h : stoi str = some v) :
    -2147483648 ≤ v ∧ v ≤ 2147483647 := by
  unfold stoi at h
  simp only [] at h
  split_ifs at h
  all_goals (rw [← Option.some.inj h]; assumption)

theorem locAfter_range (r : IntermediateInstruction)
    (h : -2147483648 ≤ r.location ∧ r.location ≤ 2147483647) :
    -2147483648 ≤ locAfter r ∧ locAfter r ≤ 2147483647 := by
  unfold locAfter
  split_ifs
  · exact wrapInt_range _
  · cases hv : stoi r.operand with
    | none => simpa using h
    | some v => simpa using stoi_range _ _ hv
  · exact wrapInt_range _
  · exact wrapInt_range _
  · exact h
  · exact h

/-- Every record of Pass I is followed by a record at `locAfter` of it, and the first
record is at 0. -/
theorem PassI_chain (lines : List String) (e : Errors) :
    List.Chain' (fun x y => y.location = locAfter x)
        (PassI lines Assembler.ctor e).1.m_intermediate ∧
      ∀ r ∈ (PassI lines Assembler.ctor e).1.m_intermediate.head?, r.location = 0 := by
  have key := PassILoop_induct
    (fun s => List.Chain' (fun x y => y.location = locAfter x) s.asm.m_intermediate ∧
      (∀ x ∈ s.asm.m_intermediate.getLast?, s.loc = locAfter x) ∧
      (s.asm.m_intermediate = [] → s.loc = 0) ∧
      (∀ r ∈ s.asm.m_intermediate.head?, r.location = 0))
    (by
      intro line s ⟨h1, h2, h3, h4⟩
      rw [PassIBody_intermediate, PassIBody_loc]
      refine ⟨?_, ?_, ?_, ?_⟩
      · rw [List.chain'_append]
        refine ⟨h1, List.chain'_singleton _, ?_⟩
        intro x hx y hy
        simp only [List.head?_cons, Option.mem_def, Option.some.injEq] at hy
        subst hy
        rw [PassIRecord_location]
        exact h2 x hx
      · intro x hx
        rw [List.getLast?_concat] at hx
        simp only [Option.mem_def, Option.some.injEq] at hx
        rw [hx]
      · intro h
        simp at h
      · intro r hr
        cases hrecs : s.asm.m_intermediate with
        | nil =>
          rw [hrecs] at hr
          simp only [List.nil_append, List.head?_cons, Option.mem_def, Option.some.injEq] at hr
          subst hr
          rw [PassIRecord_location]
          exact h3 hrecs
        | cons x xs =>
          rw [hrecs] at hr h4
          simp only [List.cons_append, List.head?_cons, Option.mem_def, Option.some.injEq] at hr h4
          exact h4 r hr)
    (by intro s h; exact h)
    lines { loc := 0, asm := Assembler.ctor, errs := e }
    (by simp [Assembler.ctor])
  exact ⟨key.1, key.2.2.2⟩

/-- The relation of a chain holds between the entries at `i` and `i + 1`. -/
theorem chain_getElem {α : Type} (R : α → α → Prop) :
    ∀ (l : List α), List.Chain' R l →
      ∀ (i : Nat) (a b : α), l[i]? = some a → l[i + 1]? = some b → R a b := by
  intro l
  induction l with
  | nil => intro _ i a b h; simp at h
  | cons x l ih =>
    intro hc i a b ha hb
    cases i with
    | zero =>
      simp only [List.getElem?_cons_zero, Option.some.injEq] at ha
      simp only [List.getElem?_cons_succ] at hb
      cases l with
      | nil => simp at hb
      | cons y l =>
        simp only [List.getElem?_cons_zero, Option.some.injEq] at hb
        subst ha hb
        exact (List.chain'_cons.1 hc).1
    | succ i =>
      simp only [List.getElem?_cons_succ] at ha hb
      exact ih (List.Chain'.tail hc) i a b ha hb

/-- The location counter of Pass I and the locations of its records stay in the range of
`int`. -/
theorem PassI_locations_range (lines : List String) (e : Errors) :
    ∀ r ∈ (PassI lines Assembler.ctor e).1.m_intermediate,
      -2147483648 ≤ r.location ∧ r.location ≤ 2147483647 := by
  have key := PassILoop_induct
    (fun s => (-2147483648 ≤ s.loc ∧ s.loc ≤ 2147483647) ∧
      ∀ r ∈ s.asm.m_intermediate, -2147483648 ≤ r.location ∧ r.location ≤ 2147483647)
    (by
      intro line s ⟨h1, h2⟩
      rw [PassIBody_intermediate, PassIBody_loc]
      refine ⟨locAfter_range _ (by rw [PassIRecord_location]; exact h1), ?_⟩
      intro r hr
      rw [List.mem_append, List.mem_singleton] at hr
      rcases hr with hr | hr
      · exact h2 r hr
      · rw [hr, PassIRecord_location]; exact h1)
    (by intro s h; exact h)
    lines { loc := 0, asm := Assembler.ctor, errs := e }
    (by simp [Assembler.ctor])
  exact key.2

/-- C8 fails when a sum leaves the range of `int` and when a `DS` size does not fit an
`int`.  The program `DS 2147483647`, `DS 2147483647`, `HALT`, `END` has no `ORG` and its
records are at 0, 2147483647, -2, -1: the third is not at 2147483647 + 2147483647.  In
`DS 99999999999`, `HALT`, `END` the record after the `DS` is at 1 and not at 99999999999. -/
theorem PassI_locations_wrap_at_large_DS :
    ((PassI ["DS 2147483647", "DS 2147483647", "HALT", "END"] Assembler.ctor
        Errors.InitErrorReporting).1.m_intermediate.map (fun r => (r.opcode, r.location)))
      = [("DS", 0), ("DS", 2147483647), ("HALT", -2), ("END", -1)] ∧
    ((PassI ["DS 99999999999", "HALT", "END"] Assembler.ctor
        Errors.InitErrorReporting).1.m_intermediate.map
        (fun r => (r.opcode, r.operand, r.location)))
      = [("DS", "99999999999", 0), ("HALT", "", 1), ("END", "", 2)] := by
  decide

/-- C8, amended: the first record of Pass I is at location 0, every location is in the range
of `int`, and for consecutive records `a`, `b` the location of `b` is the `int` sum
`a.location + 1` when `a` is a machine instruction, a `DC` or a `DS` whose operand `stoi`
rejects, the `int` sum `a.location + k` when `a` is a `DS` whose operand `stoi` reads as
`k`, and `a.location` when `a` is a comment or an invalid line.  An `int` sum is the exact
sum whenever that lies in the range of `int`, and is reduced modulo 2^32 otherwise.  This
holds for every program, so for every program without `ORG`. -/
theorem PassI_locations_advance (lines : List String) (e : Errors) :
    (∀ r, (PassI lines Assembler.ctor e).1.m_intermediate[0]? = some r → r.location = 0) ∧
    (∀ r ∈ (PassI lines Assembler.ctor e).1.m_intermediate,
      -2147483648 ≤ r.location ∧ r.location ≤ 2147483647) ∧
    ∀ (i : Nat) (a b : IntermediateInstruction),
      (PassI lines Assembler.ctor e).1.m_intermediate[i]? = some a →
      (PassI lines Assembler.ctor e).1.m_intermediate[i + 1]? = some b →
        ((a.type = ST_MachineLanguage ∨ (a.type = ST_AssemblerInstr ∧ a.opcode = "DC")) →
          b.location = wrapInt (a.location + 1) ∧
          (a.location + 1 ≤ 2147483647 → b.location = a.location + 1)) ∧
        (a.type = ST_AssemblerInstr → a.opcode = "DS" →
          ∀ k, stoi a.operand = some k →
            b.location = wrapInt (a.location + k) ∧
            (-2147483648 ≤ a.location + k ∧ a.location + k ≤ 2147483647 →
              b.location = a.location + k)) ∧
        (a.type = ST_AssemblerInstr → a.opcode = "DS" → stoi a.operand = none →
          b.location = wrapInt (a.location + 1) ∧
          (a.location + 1 ≤ 2147483647 → b.location = a.location + 1)) ∧
        ((a.type = ST_Comment ∨ a.type = ST_Invalid) → b.location = a.location) := by
  obtain ⟨hchain, hhead⟩ := PassI_chain lines e
  refine ⟨?_, PassI_locations_range lines e, ?_⟩
  · intro r hr
    apply hhead
    rw [List.head?_eq_getElem?]
    exact hr
  · intro i a b ha hb
    have hab : b.location = locAfter a := chain_getElem _ _ hchain i a b ha hb
    have hrange := PassI_locations_range lines e a (List.getElem?_mem ha)
    have hone : b.location = wrapInt (a.location + 1) →
        b.location = wrapInt (a.location + 1) ∧
        (a.location + 1 ≤ 2147483647 → b.location = a.location + 1) := by
      intro h
      refine ⟨h, fun hfit => ?_⟩
      rw [h]
      exact wrapInt_of_fits _ (by omega)
    refine ⟨?_, ?_, ?_, ?_⟩
    · rintro (h | ⟨h1, h2⟩)
      · apply hone; rw [hab]; simp [locAfter, h]
      · apply hone; rw [hab]; simp [locAfter, h1, h2]
    · intro h1 h2 k hk
      have h : b.location = wrapInt (a.location + k) := by
        rw [hab]; simp [locAfter, h1, h2, hk]
      refine ⟨h, fun hfit => ?_⟩
      rw [h]
      exact wrapInt_of_fits _ hfit
    · intro h1 h2 hk
      apply hone; rw [hab]; simp [locAfter, h1, h2, hk]
    · rintro (h | h)
      · rw [hab]; simp [locAfter, h]
      · rw [hab]; simp [locAfter, h]

/-- An instance of the amended C8: in the program `A DS 3`, `B DC 1`, a comment, `HALT`,
`END` the record after the `DS 3` at 0 is at 3. -/
theorem PassI_locations_advance_witness :
    ((PassI ["A DS 3", "B DC 1", "; c", "HALT", "END"] Assembler.ctor
        Errors.InitErrorReporting).1.m_intermediate.map (fun r => r.location))
      = [0, 3, 4, 4, 5] ∧
    ∀ k, stoi "3" = some k →
      (-2147483648 ≤ (0 : Int) + k ∧ (0 : Int) + k ≤ 2147483647 → (3 : Int) = 0 + k) :=
  ⟨by decide, fun k hk =>
    (((PassI_locations_advance ["A DS 3", "B DC 1", "; c", "HALT", "END"]
        Errors.InitErrorReporting).2.2 0
      { type := ST_AssemblerInstr, label := "A", opcode := "DS", operand := "3", location := 0,
        originalLine := "A DS 3" }
      { type := ST_AssemblerInstr, label := "B", opcode := "DC", operand := "1", location := 3,
        originalLine := "B DC 1" }
      (by decide) (by decide)).2.1 rfl rfl k hk).2⟩

/-- C9 fails for a `DS` with a negative size: the program `DC 1`, `DS -5`, `HALT`, `END` has
no `ORG` and its records are at 0, 1, -4, -3. -/
theorem PassI_locations_decrease_at_negative_DS :
    ((PassI ["DC 1", "DS -5", "HALT", "END"] Assembler.ctor
        Errors.InitErrorReporting).1.m_intermediate.map (fun r => (r.opcode, r.location)))
      = [("DC", 0), ("DS", 1), ("HALT", -4), ("END", -3)] ∧
    ¬ List.Sorted (fun x y : Int => x ≤ y)
      ((PassI ["DC 1", "DS -5", "HALT", "END"] Assembler.ctor
        Errors.InitErrorReporting).1.m_intermediate.map (fun r => r.location)) := by
  decide

/-- C9, amended: for a program without `ORG` in which every `DS` size that `stoi` reads is
non-negative and no sum of the location counter leaves the range of `int` (the counter is
below 2147483647 at every record that advances it by 1, and the counter plus the size is at
most 2147483647 at every `DS` whose size `stoi` reads), the locations of the records of
Pass I, in source order, are non-decreasing. -/
theorem PassI_locations_nondecreasing (lines : List String) (e : Errors)
    (hnoorg : ∀ r ∈ (PassI lines Assembler.ctor e).1.m_intermediate,
      ¬ (r.type = ST_AssemblerInstr ∧ r.opcode = "ORG"))
    (hsize : ∀ r ∈ (PassI lines Assembler.ctor e).1.m_intermediate,
      r.type = ST_AssemblerInstr → r.opcode = "DS" → ∀ k, stoi r.operand = some k →
        0 ≤ k ∧ r.location + k ≤ 2147483647)
    (hone : ∀ r ∈ (PassI lines Assembler.ctor e).1.m_intermediate,
      (r.type = ST_MachineLanguage ∨
        (r.type = ST_AssemblerInstr ∧
          (r.opcode = "DC" ∨ (r.opcode = "DS" ∧ stoi r.operand = none)))) →
        r.location < 2147483647) :
    List.Sorted (fun x y : Int => x ≤ y)
      ((PassI lines Assembler.ctor e).1.m_intermediate.map (fun r => r.location)) := by
  obtain ⟨hchain, _⟩ := PassI_chain lines e
  unfold List.Sorted
  rw [← List.chain'_iff_pairwise, List.chain'_map]
  refine List.Chain'.imp ?_ (List.Chain'.iff_mem.1 hchain)
  rintro a b ⟨ha, _, hab⟩
  have hrange := PassI_locations_range lines e a ha
  rw [hab]
  unfold locAfter
  split_ifs with h1 h2 h3 h4 h5
  · have := hone a ha (Or.inl h1)
    rw [wrapInt_of_fits _ (by omega)]
    omega
  · exact absurd ⟨h2, h3⟩ (hnoorg a ha)
  · have := hone a ha (Or.inr ⟨h2, Or.inl h4⟩)
    rw [wrapInt_of_fits _ (by omega)]
    omega
  · cases hk : stoi a.operand with
    | none =>
      have := hone a ha (Or.inr ⟨h2, Or.inr ⟨h5, hk⟩⟩)
      simp only [Option.getD_none]
      rw [wrapInt_of_fits _ (by omega)]
      omega
    | some k =>
      have := hsize a ha h2 h5 k hk
      simp only [Option.getD_some]
      rw [wrapInt_of_fits _ (by omega)]
      omega
  · exact le_refl _
  · exact le_refl _

/-- An instance of the amended C9: `A DS 3`, `B DC 1`, a comment, `HALT`, `END`. -/
theorem PassI_locations_nondecreasing_witness :
    List.Sorted (fun x y : Int => x ≤ y)
      ((PassI ["A DS 3", "B DC 1", "; c", "HALT", "END"] Assembler.ctor
        Errors.InitErrorReporting).1.m_intermediate.map (fun r => r.location)) :=
  PassI_locations_nondecreasing ["A DS 3", "B DC 1", "; c", "HALT", "END"]
    Errors.InitErrorReporting (by decide) (by decide) (by decide)

/-! ## The error log during Pass I -/

theorem Errors.grows_refl (e : Errors) : e.grows e :=
  ⟨List.prefix_refl _, id⟩

theorem Errors.grows_trans {e e2 e3 : Errors} (h : e.grows e2) (h2 : e2.grows e3) :
    e.grows e3 :=
  ⟨h.1.trans h2.1, fun hf => h2.2 (h.2 hf)⟩

theorem Errors.grows_RecordError (e : Errors) (msg : String) : e.grows (e.RecordError msg) :=
  ⟨List.prefix_append _ _, fun _ => rfl⟩

theorem ParseInstruction_grows (line : String) (e : Errors) :
    e.grows (ParseInstruction line e).2 := by
  unfold ParseInstruction
  simp only []
  split_ifs <;> first | exact Errors.grows_refl _ | exact Errors.grows_RecordError _ _

theorem AddSymbol_grows (t : SymbolTable) (n : String) (l : Int) (e : Errors) :
    e.grows (t.AddSymbol n l e).2 := by
  unfold SymbolTable.AddSymbol
  split_ifs <;> first | exact Errors.grows_refl _ | exact Errors.grows_RecordError _ _

theorem LocationNextInstruction_grows (i : Instruction) (l : Int) (e : Errors) :
    e.grows (i.LocationNextInstruction l e).2 := by
  unfold Instruction.LocationNextInstruction
  split_ifs <;> first
    | exact Errors.grows_refl _
    | (split <;> first | exact Errors.grows_refl _ | exact Errors.grows_RecordError _ _)

theorem PassIBody_grows (line : String) (s : PassIState) :
    s.errs.grows (PassIBody line s).2.errs := by
  have hp := ParseInstruction_grows line s.errs
  refine Errors.grows_trans hp ?_
  unfold PassIBody
  simp only [Instruction.isLabel, Instruction.GetLabel, Instruction.GetOpCode,
    Instruction.GetOperand]
  cases ht : (ParseInstruction line s.errs).1.m_type
  · simp [Errors.grows_refl]
  · by_cases hlab : (ParseInstruction line s.errs).1.m_Label = ""
    · simp [hlab]
      exact LocationNextInstruction_grows _ _ _
    · simp [hlab]
      exact Errors.grows_trans (AddSymbol_grows _ _ _ _) (LocationNextInstruction_grows _ _ _)
  · by_cases hlab : (ParseInstruction line s.errs).1.m_Label = ""
    · by_cases h1 : (ParseInstruction line s.errs).1.m_OpCode = "ORG"
      · cases h2 : stoi (ParseInstruction line s.errs).1.m_Operand <;> simp [hlab, h1, h2]
        · exact Errors.grows_RecordError _ _
        · exact Errors.grows_refl _
      · by_cases h3 : (ParseInstruction line s.errs).1.m_OpCode = "DC" ∨
            (ParseInstruction line s.errs).1.m_OpCode = "DS"
        · simp [hlab, h1, h3]
          exact LocationNextInstruction_grows _ _ _
        · simp [hlab, h1, h3]
          exact Errors.grows_RecordError _ _
    · by_cases h1 : (ParseInstruction line s.errs).1.m_OpCode = "ORG"
      · cases h2 : stoi (ParseInstruction line s.errs).1.m_Operand <;> simp [hlab, h1, h2]
        · exact Errors.grows_trans (AddSymbol_grows _ _ _ _) (Errors.grows_RecordError _ _)
        · exact AddSymbol_grows _ _ _ _
      · by_cases h3 : (ParseInstruction line s.errs).1.m_OpCode = "DC" ∨
            (ParseInstruction line s.errs).1.m_OpCode = "DS"
        · simp [hlab, h1, h3]
          exact Errors.grows_trans (AddSymbol_grows _ _ _ _) (LocationNextInstruction_grows _ _ _)
        · simp [hlab, h1, h3]
          exact Errors.grows_trans (AddSymbol_grows _ _ _ _) (Errors.grows_RecordError _ _)
  · simp [Errors.grows_refl]
  · simp [Errors.grows_refl]
/-- The body of the loop on an `ORG` line: the counter afterwards and the error recorded. -/
theorem PassIBody_ORG (line : String) (s : PassIState)
    (ht : (PassIRecord line s).type = ST_AssemblerInstr)
    (hop : (PassIRecord line s).opcode = "ORG") :
    (∀ n, stoi (PassIRecord line s).operand = some n → (PassIBody line s).2.loc = n) ∧
    (stoi (PassIRecord line s).operand = none →
      (PassIBody line s).2.loc = s.loc ∧
      (PassIBody line s).2.errs.m_ErrorMsgs.getLast? = some "Invalid operand for ORG directive." ∧
      (PassIBody line s).2.errs.m_WasErrorMessages = true) := by
  simp only [PassIRecord, Instruction.GetOpCode, Instruction.GetOperand] at ht hop ⊢
  unfold PassIBody
  simp only [Instruction.GetOpCode, Instruction.GetOperand]
  refine ⟨?_, ?_⟩
  · intro n hn
    simp [ht, hop, hn]
  · intro hn
    simp [ht, hop, hn, Errors.RecordError]

/-- An `ORG` record whose operand `stoi` rejects has its error in the log after Pass I. -/
theorem PassI_ORG_error (lines : List String) (e : Errors) :
    ∀ a ∈ (PassI lines Assembler.ctor e).1.m_intermediate,
      a.type = ST_AssemblerInstr → a.opcode = "ORG" → stoi a.operand = none →
        "Invalid operand for ORG directive." ∈ (PassI lines Assembler.ctor e).2.m_ErrorMsgs ∧
        (PassI lines Assembler.ctor e).2.m_WasErrorMessages = true := by
  have key := PassILoop_induct
    (fun s => ∀ a ∈ s.asm.m_intermediate,
      a.type = ST_AssemblerInstr → a.opcode = "ORG" → stoi a.operand = none →
        "Invalid operand for ORG directive." ∈ s.errs.m_ErrorMsgs ∧
        s.errs.m_WasErrorMessages = true)
    (by
      intro line s hs a ha ht hop hn
      rw [PassIBody_intermediate, List.mem_append, List.mem_singleton] at ha
      rcases ha with ha | ha
      · obtain ⟨h1, h2⟩ := hs a ha ht hop hn
        have hg := PassIBody_grows line s
        exact ⟨hg.1.subset h1, hg.2 h2⟩
      · subst ha
        obtain ⟨h1, h2, h3⟩ := (PassIBody_ORG line s ht hop).2 hn
        exact ⟨List.mem_of_mem_getLast? h2, h3⟩)
    (by
      intro s hs a ha ht hop hn
      obtain ⟨h1, h2⟩ := hs a ha ht hop hn
      have hg := Errors.grows_RecordError s.errs "Missing END directive."
      exact ⟨hg.1.subset h1, hg.2 h2⟩)
    lines { loc := 0, asm := Assembler.ctor, errs := e }
    (by simp [Assembler.ctor])
  exact key

/-- C10 fails for an operand that starts with digits and goes on with other characters:
in the program `ORG 12abc`, `HALT`, `END` the operand `12abc` is no number, yet `stoi` reads
it as 12, the record after the `ORG` is at 12 and not at 0, and no error is recorded. -/
theorem PassI_ORG_reads_leading_digits :
    ((PassI ["ORG 12abc", "HALT", "END"] Assembler.ctor
        Errors.InitErrorReporting).1.m_intermediate.map
        (fun r => (r.opcode, r.operand, r.location)))
      = [("ORG", "12abc", 0), ("HALT", "", 12), ("END", "", 13)] ∧
    (PassI ["ORG 12abc", "HALT", "END"] Assembler.ctor Errors.InitErrorReporting).2
      = { m_ErrorMsgs := [], m_WasErrorMessages := false } := by
  decide

/-- C10, amended: in Pass I an `ORG` line whose operand `stoi` reads as `n` (an optional sign
and the leading decimal digits, whatever follows them, within the range of `int`) sets the
location counter to `n`, so the next record is at `n`; an `ORG` line whose operand `stoi`
rejects (missing, not starting with a digit after the sign, or out of range) leaves the
counter as it was, so the next record is at the location of the `ORG` record, and records
the error "Invalid operand for ORG directive.". -/
theorem PassI_ORG_sets_counter (lines : List String) (e : Errors) :
    (∀ (line : String) (s : PassIState),
      (PassIRecord line s).type = ST_AssemblerInstr → (PassIRecord line s).opcode = "ORG" →
        (∀ n, stoi (PassIRecord line s).operand = some n → (PassIBody line s).2.loc = n) ∧
        (stoi (PassIRecord line s).operand = none →
          (PassIBody line s).2.loc = s.loc ∧
          (PassIBody line s).2.errs.m_ErrorMsgs.getLast?
            = some "Invalid operand for ORG directive." ∧
          (PassIBody line s).2.errs.m_WasErrorMessages = true)) ∧
    (∀ (i : Nat) (a b : IntermediateInstruction),
      (PassI lines Assembler.ctor e).1.m_intermediate[i]? = some a →
      (PassI lines Assembler.ctor e).1.m_intermediate[i + 1]? = some b →
      a.type = ST_AssemblerInstr → a.opcode = "ORG" →
        (∀ n, stoi a.operand = some n → b.location = n) ∧
        (stoi a.operand = none → b.location = a.location)) ∧
    (∀ a ∈ (PassI lines Assembler.ctor e).1.m_intermediate,
      a.type = ST_AssemblerInstr → a.opcode = "ORG" → stoi a.operand = none →
        "Invalid operand for ORG directive." ∈ (PassI lines Assembler.ctor e).2.m_ErrorMsgs ∧
        (PassI lines Assembler.ctor e).2.WasThereErrors = true) := by
  refine ⟨fun line s ht hop => PassIBody_ORG line s ht hop, ?_, PassI_ORG_error lines e⟩
  intro i a b ha hb ht hop
  have hab : b.location = locAfter a :=
    chain_getElem _ _ (PassI_chain lines e).1 i a b ha hb
  refine ⟨?_, ?_⟩
  · intro n hn
    rw [hab]; simp [locAfter, ht, hop, hn]
  · intro hn
    rw [hab]; simp [locAfter, ht, hop, hn]

/-- An instance of the amended C10: `ORG 50` puts the next record at 50, `ORG x` leaves the one after it
at 51 and is reported. -/
theorem PassI_ORG_sets_counter_witness :
    ((PassI ["ORG 50", "A DC 1", "ORG x", "HALT", "END"] Assembler.ctor
        Errors.InitErrorReporting).1.m_intermediate.map (fun r => r.location))
      = [0, 50, 51, 51, 52] ∧
    (∀ n, stoi "50" = some n → (50 : Int) = n) ∧
    (stoi "x" = none → (51 : Int) = 51) ∧
    "Invalid operand for ORG directive." ∈
      (PassI ["ORG 50", "A DC 1", "ORG x", "HALT", "END"] Assembler.ctor
        Errors.InitErrorReporting).2.m_ErrorMsgs :=
  ⟨by decide,
   ((PassI_ORG_sets_counter ["ORG 50", "A DC 1", "ORG x", "HALT", "END"]
      Errors.InitErrorReporting).2.1 0
      { type := ST_AssemblerInstr, label := "", opcode := "ORG", operand := "50", location := 0,
        originalLine := "ORG 50" }
      { type := ST_AssemblerInstr, label := "A", opcode := "DC", operand := "1", location := 50,
        originalLine := "A DC 1" }
      (by decide) (by decide) rfl rfl).1,
   ((PassI_ORG_sets_counter ["ORG 50", "A DC 1", "ORG x", "HALT", "END"]
      Errors.InitErrorReporting).2.1 2
      { type := ST_AssemblerInstr, label := "", opcode := "ORG", operand := "x", location := 51,
        originalLine := "ORG x" }
      { type := ST_MachineLanguage, label := "", opcode := "HALT", operand := "", location := 51,
        originalLine := "HALT" }
      (by decide) (by decide) rfl rfl).2,
   ((PassI_ORG_sets_counter ["ORG 50", "A DC 1", "ORG x", "HALT", "END"]
      Errors.InitErrorReporting).2.2
      { type := ST_AssemblerInstr, label := "", opcode := "ORG", operand := "x", location := 51,
        originalLine := "ORG x" }
      (by decide) rfl rfl (by decide)).1⟩

/-! ## Pass II -/

theorem PassIILoop_concat (symtab : SymbolTable) (pre : List IntermediateInstruction)
    (r : IntermediateInstruction) (s : emulator × Errors) :
    PassIILoop symtab (pre ++ [r]) s = PassIIBody symtab r (PassIILoop symtab pre s) := by
  simp [PassIILoop, List.foldl_append]

theorem opcodeMap_codes (c : Int) (hc : c ∈ opcodeMap.map Prod.snd) :
    c = 7 ∨ c = 5 ∨ c = 6 ∨ c = 8 ∨ c = 12 ∨ c = 13 := by
  simpa [opcodeMap] using hc

theorem opcodeMap_lookup_mem (n : String) (c : Int) (h : opcodeMap.lookup n = some c) :
    c ∈ opcodeMap.map Prod.snd := by
  have hmem : ∀ l : List (String × Int), l.lookup n = some c → c ∈ l.map Prod.snd := by
    intro l
    induction l with
    | nil => intro h; simp at h
    | cons x l ih =>
      intro h
      rw [List.lookup_cons] at h
      cases hx : n == x.1 with
      | true =>
        rw [hx] at h
        simp only [Option.some.injEq] at h
        simp [← h]
      | false =>
        rw [hx] at h
        exact List.mem_cons_of_mem _ (ih h)
  exact hmem _ h

theorem opcodeMap_lookup_pos (n : String) (c : Int) (h : opcodeMap.lookup n = some c) :
    5 ≤ c ∧ c ≤ 13 := by
  rcases opcodeMap_codes c (opcodeMap_lookup_mem n c h) with h | h | h | h | h | h <;> omega

/-- The body of the loop of Pass II on a machine instruction whose opcode is in the table and
which has no operand. -/
theorem PassIIBody_machine_no_operand (symtab : SymbolTable) (r : IntermediateInstruction)
    (s : emulator × Errors) (code : Int) (htype : r.type = ST_MachineLanguage)
    (hcode : opcodeMap.lookup r.opcode = some code) (hop : r.operand = "") :
    PassIIBody symtab r s = ((s.1.insertMemory r.location (code * 10000 + 0)).2, s.2) := by
  have hfit : wrapInt (code * 10000 + 0) = code * 10000 + 0 :=
    wrapInt_of_fits _ (by have := opcodeMap_lookup_pos _ _ hcode; omega)
  rw [← hfit]
  unfold PassIIBody
  simp [htype, hcode, hop]

/-- The body of the loop of Pass II on a machine instruction whose opcode is in the table and
whose operand the symbol table resolves. -/
theorem PassIIBody_machine_resolved (symtab : SymbolTable) (r : IntermediateInstruction)
    (s : emulator × Errors) (code address : Int) (htype : r.type = ST_MachineLanguage)
    (hcode : opcodeMap.lookup r.opcode = some code) (hop : r.operand ≠ "")
    (hres : symtab.LookupSymbol r.operand 0 s.2 = (true, address, s.2)) :
    PassIIBody symtab r s
      = ((s.1.insertMemory r.location (wrapInt (code * 10000 + address))).2, s.2) := by
  unfold PassIIBody
  simp [htype, hcode, hop, hres]

/-- The same when the sum `code * 10000 + address` lies in the range of `int`. -/
theorem PassIIBody_machine_resolved_fits (symtab : SymbolTable) (r : IntermediateInstruction)
    (s : emulator × Errors) (code address : Int) (htype : r.type = ST_MachineLanguage)
    (hcode : opcodeMap.lookup r.opcode = some code) (hop : r.operand ≠ "")
    (hres : symtab.LookupSymbol r.operand 0 s.2 = (true, address, s.2))
    (hfit : -2147483648 ≤ code * 10000 + address ∧ code * 10000 + address ≤ 2147483647) :
    PassIIBody symtab r s = ((s.1.insertMemory r.location (code * 10000 + address)).2, s.2) := by
  rw [PassIIBody_machine_resolved symtab r s code address htype hcode hop hres,
    wrapInt_of_fits _ hfit]

theorem insertMemory_same (em : emulator) (l v : Int) (h : 0 ≤ l ∧ l < 10000) :
    (em.insertMemory l v).2.m_memory l = v := by
  simp [emulator.insertMemory, emulator.MEMSZ, h]

theorem insertMemory_other (em : emulator) (l v j : Int) (h : j ≠ l) :
    (em.insertMemory l v).2.m_memory j = em.m_memory j := by
  unfold emulator.insertMemory
  split <;> simp [h]

/-- The body of the loop of Pass II changes no cell other than the one at the location of
the record. -/
theorem PassIIBody_frame (symtab : SymbolTable) (r : IntermediateInstruction)
    (s : emulator × Errors) (j : Int) (hj : j ≠ r.location) :
    (PassIIBody symtab r s).1.m_memory j = s.1.m_memory j := by
  unfold PassIIBody
  simp only []
  split_ifs <;> first
    | rfl
    | (split <;> first | rfl | exact insertMemory_other _ _ _ _ hj)

/-- A witness table: `X` at 5. -/
theorem lookup_X_at_5 (e : Errors) :
    (SymbolTable.empty.AddSymbol "X" 5 Errors.InitErrorReporting).1.LookupSymbol "X" 0 e
      = (true, 5, e) :=
  LookupSymbol_of_find_some _ _ _ _ _ (by decide) (by decide)

/-- C2 fails when the sum leaves the range of `int`: in this program `X` is at 2147483647,
the `LOAD X` at location 100 has the code 5, and the cell 100 holds -2147433649 after
Pass II, not 5 * 10000 + 2147483647; no error is recorded. -/
theorem PassII_word_wraps_at_large_address :
    (assemble ["ORG 2147483647", "X ORG 100", "LOAD X", "END"]).1.m_symtab.m_orderedSymbols
      = [("X", 2147483647)] ∧
    ((assemble ["ORG 2147483647", "X ORG 100", "LOAD X", "END"]).1.m_intermediate.map
        (fun r => (r.opcode, r.operand, r.location)))
      = [("ORG", "2147483647", 0), ("ORG", "100", 2147483647), ("LOAD", "X", 100),
         ("END", "", 101)] ∧
    (assemble ["ORG 2147483647", "X ORG 100", "LOAD X", "END"]).1.m_emul.m_memory 100
      = -2147433649 ∧
    (assemble ["ORG 2147483647", "X ORG 100", "LOAD X", "END"]).2.m_ErrorMsgs = [] := by
  decide

/-- C2, amended: once Pass II has handled, after any records `pre`, a machine instruction
`r` whose opcode has the code `code` in the table and whose location is in `[0, 10000)`,
the cell at that location holds the `int` sum `code * 10000 + address`, where `address` is
0 for a record without operand and the location `LookupSymbol` returns for the operand
otherwise, and no other cell has changed.  The `int` sum is `code * 10000 + address` itself
when `address` is at most `2147483647 - code * 10000` (so for every address in
`[0, 10000)`), and `code * 10000 + address - 4294967296` for the larger addresses.  So a
`LOAD` whose operand resolves to 5 leaves 50005 and a `HALT` without operand leaves 130000,
whatever the other records are. -/
theorem PassII_writes_machine_word (symtab : SymbolTable) (pre : List IntermediateInstruction)
    (r : IntermediateInstruction) (s0 : emulator × Errors) (code : Int)
    (htype : r.type = ST_MachineLanguage) (hcode : opcodeMap.lookup r.opcode = some code)
    (hloc : 0 ≤ r.location ∧ r.location < 10000) :
    (r.operand = "" →
      (PassIILoop symtab (pre ++ [r]) s0).1.m_memory r.location = code * 10000 + 0) ∧
    (∀ address : Int, r.operand ≠ "" →
      (∀ e, symtab.LookupSymbol r.operand 0 e = (true, address, e)) →
      (PassIILoop symtab (pre ++ [r]) s0).1.m_memory r.location
        = wrapInt (code * 10000 + address) ∧
      (-2147483648 ≤ address ∧ address ≤ 2147483647 - code * 10000 →
        (PassIILoop symtab (pre ++ [r]) s0).1.m_memory r.location = code * 10000 + address) ∧
      (2147483647 - code * 10000 < address ∧ address ≤ 2147483647 →
        (PassIILoop symtab (pre ++ [r]) s0).1.m_memory r.location
          = code * 10000 + address - 4294967296)) ∧
    (∀ j, j ≠ r.location →
      (PassIILoop symtab (pre ++ [r]) s0).1.m_memory j
        = (PassIILoop symtab pre s0).1.m_memory j) ∧
    (r.opcode = "LOAD" → r.operand ≠ "" →
      (∀ e, symtab.LookupSymbol r.operand 0 e = (true, 5, e)) →
      (PassIILoop symtab (pre ++ [r]) s0).1.m_memory r.location = 50005) ∧
    (r.opcode = "HALT" → r.operand = "" →
      (PassIILoop symtab (pre ++ [r]) s0).1.m_memory r.location = 130000) := by
  have hpos := opcodeMap_lookup_pos _ _ hcode
  have h0 : r.operand = "" →
      (PassIILoop symtab (pre ++ [r]) s0).1.m_memory r.location = code * 10000 + 0 := by
    intro hop
    rw [PassIILoop_concat, PassIIBody_machine_no_operand symtab r _ code htype hcode hop]
    exact insertMemory_same _ _ _ hloc
  have hw : ∀ address : Int, r.operand ≠ "" →
      (∀ e, symtab.LookupSymbol r.operand 0 e = (true, address, e)) →
      (PassIILoop symtab (pre ++ [r]) s0).1.m_memory r.location
        = wrapInt (code * 10000 + address) := by
    intro address hop hres
    rw [PassIILoop_concat,
      PassIIBody_machine_resolved symtab r _ code address htype hcode hop (hres _)]
    exact insertMemory_same _ _ _ hloc
  have h1 : ∀ address : Int, r.operand ≠ "" →
      (∀ e, symtab.LookupSymbol r.operand 0 e = (true, address, e)) →
      (PassIILoop symtab (pre ++ [r]) s0).1.m_memory r.location
        = wrapInt (code * 10000 + address) ∧
      (-2147483648 ≤ address ∧ address ≤ 2147483647 - code * 10000 →
        (PassIILoop symtab (pre ++ [r]) s0).1.m_memory r.location = code * 10000 + address) ∧
      (2147483647 - code * 10000 < address ∧ address ≤ 2147483647 →
        (PassIILoop symtab (pre ++ [r]) s0).1.m_memory r.location
          = code * 10000 + address - 4294967296) := by
    intro address hop hres
    refine ⟨hw address hop hres, ?_, ?_⟩
    · intro hfit
      rw [hw address hop hres]
      exact wrapInt_of_fits _ (by omega)
    · intro hbig
      rw [hw address hop hres]
      unfold wrapInt
      omega
  refine ⟨h0, h1, ?_, ?_, ?_⟩
  · intro j hj
    rw [PassIILoop_concat]
    exact PassIIBody_frame symtab r _ j hj
  · intro hload hop hres
    have hc : code = 5 := by
      rw [hload] at hcode
      have : opcodeMap.lookup "LOAD" = some 5 := by decide
      rw [this] at hcode
      exact (Option.some.inj hcode).symm
    rw [((h1 5 hop hres).2.1 (by omega)), hc]
    rfl
  · intro hhalt hop
    have hc : code = 13 := by
      rw [hhalt] at hcode
      have : opcodeMap.lookup "HALT" = some 13 := by decide
      rw [this] at hcode
      exact (Option.some.inj hcode).symm
    rw [h0 hop, hc]
    rfl

/-- An instance of the amended C2: after an unrelated `DC`, a `LOAD X` at location 7 with
`X` at 5. -/
theorem PassII_writes_machine_word_witness :
    (PassIILoop (SymbolTable.empty.AddSymbol "X" 5 Errors.InitErrorReporting).1
        ([{ type := ST_AssemblerInstr, label := "", opcode := "DC", operand := "9",
            location := 7, originalLine := "DC 9" }] ++
         [{ type := ST_MachineLanguage, label := "", opcode := "LOAD", operand := "X",
            location := 7, originalLine := "LOAD X" }])
        (emulator.ctor, Errors.InitErrorReporting)).1.m_memory 7 = 50005 :=
  (PassII_writes_machine_word (SymbolTable.empty.AddSymbol "X" 5 Errors.InitErrorReporting).1
    [{ type := ST_AssemblerInstr, label := "", opcode := "DC", operand := "9",
       location := 7, originalLine := "DC 9" }]
    { type := ST_MachineLanguage, label := "", opcode := "LOAD", operand := "X",
      location := 7, originalLine := "LOAD X" }
    (emulator.ctor, Errors.InitErrorReporting) 5 rfl (by decide) (by decide)).2.2.2.1
    rfl (by decide) lookup_X_at_5

/-- C1: assembling `A DC 5`, `B LOAD A`, `C HALT`, `END` with a fresh assembler gives the
symbol table `A = 0`, `B = 1`, `C = 2` (in the map and in the ordered list), the memory
words 5, 50000 and 130000 at 0, 1 and 2, and an empty error log with the flag down. -/
theorem assemble_example :
    (assemble ["A DC 5", "B LOAD A", "C HALT", "END"]).1.m_symtab
      = { m_symbolTable := [("A", 0), ("B", 1), ("C", 2)],
          m_orderedSymbols := [("A", 0), ("B", 1), ("C", 2)] } ∧
    (assemble ["A DC 5", "B LOAD A", "C HALT", "END"]).1.m_emul.m_memory 0 = 5 ∧
    (assemble ["A DC 5", "B LOAD A", "C HALT", "END"]).1.m_emul.m_memory 1 = 50000 ∧
    (assemble ["A DC 5", "B LOAD A", "C HALT", "END"]).1.m_emul.m_memory 2 = 130000 ∧
    (assemble ["A DC 5", "B LOAD A", "C HALT", "END"]).2
      = { m_ErrorMsgs := [], m_WasErrorMessages := false } ∧
    (assemble ["A DC 5", "B LOAD A", "C HALT", "END"]).2.WasThereErrors = false := by
  decide

/-! ## Symbols defined in Pass I and used in Pass II -/

/-- One call on a name absent so far, and none later: the map holds its location. -/
theorem find_addSymbols_once (calls : List (String × Int)) (n : String) (a : Int) :
    ∀ s : SymbolTable × Errors, mapFind s.1.m_symbolTable n = none →
      (calls.filter (fun c => decide (c.1 = n))).map Prod.snd = [a] →
      mapFind (addSymbols calls s).1.m_symbolTable n = some a := by
  induction calls with
  | nil => intro s _ h; simp at h
  | cons x calls ih =>
    intro s hnone h
    rw [addSymbols_cons]
    by_cases hx : x.1 = n
    · simp only [List.filter_cons, hx, decide_True, if_true, List.map_cons, List.cons.injEq,
        List.map_eq_nil_iff, List.filter_eq_nil_iff, decide_eq_true_eq] at h
      have hrest : n ∉ calls.map Prod.fst := by
        intro hmem
        obtain ⟨c, hc, hcn⟩ := List.mem_map.1 hmem
        exact h.2 c hc hcn
      rw [find_addSymbols_not_mem calls n _ hrest, ← hx, ← h.1]
      apply find_AddSymbol_absent
      rw [hx]; exact hnone
    · apply ih
      · rw [find_AddSymbol_ne _ _ _ _ _ (fun h2 => hx h2.symm)]; exact hnone
      · simpa [List.filter_cons, hx] using h

/-- The symbol table after Pass I is the result of the `AddSymbol` calls for its records. -/
theorem PassI_symtab (lines : List String) (e : Errors) :
    (PassI lines Assembler.ctor e).1.m_symtab
      = (addSymbols (labelCalls (PassI lines Assembler.ctor e).1.m_intermediate)
          (SymbolTable.empty, Errors.InitErrorReporting)).1 := by
  have key := PassILoop_induct
    (fun s => s.asm.m_symtab
      = (addSymbols (labelCalls s.asm.m_intermediate)
          (SymbolTable.empty, Errors.InitErrorReporting)).1)
    (by
      intro line s hs
      rw [PassIBody_intermediate, labelCalls_append, addSymbols_append,
        PassIBody_symtab line s
          (addSymbols (labelCalls s.asm.m_intermediate)
            (SymbolTable.empty, Errors.InitErrorReporting)).2, hs])
    (by intro s hs; exact hs)
    lines { loc := 0, asm := Assembler.ctor, errs := e }
    (by simp [Assembler.ctor, labelCalls, addSymbols])
  exact key

/-- The `AddSymbol` calls of Pass I on the name `L`, by location. -/
theorem labelCalls_filter (recs : List IntermediateInstruction) (L : String) :
    ((labelCalls recs).filter (fun c => decide (c.1 = L))).map Prod.snd
      = (recs.filter (fun r => registersLabel r && decide (r.label = L))).map
          (fun r => r.location) := by
  induction recs with
  | nil => rfl
  | cons r recs ih =>
    simp only [labelCalls] at ih ⊢
    by_cases h1 : registersLabel r = true
    · by_cases h2 : r.label = L
      · simp [List.filter_cons, h1, h2] at ih ⊢
        exact ih
      · simp [List.filter_cons, h1, h2] at ih ⊢
        exact ih
    · simp [List.filter_cons, h1] at ih ⊢
      exact ih

/-- C3: let the label `L` be registered by exactly one record of Pass I (an assembler or
machine instruction carrying it), at a location `a` in `[0, 10000)`.  Then for every machine
instruction record `r` of Pass I, at any index `i` before or after the defining record, with
a table opcode of code `c` and the operand `L`, Pass II handles `r` by the single call
`insertMemory(r.location, c * 10000 + a)` and logs nothing; with `r.location` in
`[0, 10000)` the cell at `r.location` then holds `c * 10000 + a`. -/
theorem forward_references_resolve (lines : List String) (e : Errors) (L : String) (a : Int)
    (hdef : ((PassI lines Assembler.ctor e).1.m_intermediate.filter
        (fun r => registersLabel r && decide (r.label = L))).map (fun r => r.location) = [a])
    (ha : 0 ≤ a ∧ a < 10000) :
    ∀ (i : Nat) (r : IntermediateInstruction) (c : Int),
      (PassI lines Assembler.ctor e).1.m_intermediate[i]? = some r →
      r.type = ST_MachineLanguage → opcodeMap.lookup r.opcode = some c → r.operand = L →
      ∀ s0 : emulator × Errors,
        PassIILoop (PassI lines Assembler.ctor e).1.m_symtab
            ((PassI lines Assembler.ctor e).1.m_intermediate.take (i + 1)) s0
          = (((PassIILoop (PassI lines Assembler.ctor e).1.m_symtab
                ((PassI lines Assembler.ctor e).1.m_intermediate.take i) s0).1.insertMemory
                r.location (c * 10000 + a)).2,
             (PassIILoop (PassI lines Assembler.ctor e).1.m_symtab
                ((PassI lines Assembler.ctor e).1.m_intermediate.take i) s0).2) ∧
        (0 ≤ r.location ∧ r.location < 10000 →
          (PassIILoop (PassI lines Assembler.ctor e).1.m_symtab
            ((PassI lines Assembler.ctor e).1.m_intermediate.take (i + 1)) s0).1.m_memory
              r.location = c * 10000 + a) := by
  intro i r c hr htype hcode hop s0
  have hL : L ≠ "" := by
    cases hf : (PassI lines Assembler.ctor e).1.m_intermediate.filter
        (fun r => registersLabel r && decide (r.label = L)) with
    | nil => rw [hf] at hdef; simp at hdef
    | cons x xs =>
      have hx : x ∈ (PassI lines Assembler.ctor e).1.m_intermediate.filter
          (fun r => registersLabel r && decide (r.label = L)) := by
        rw [hf]; exact List.mem_cons_self _ _
      have hx2 := (List.mem_filter.1 hx).2
      simp only [registersLabel, Bool.and_eq_true, Bool.or_eq_true, decide_eq_true_eq,
        Bool.not_eq_true', decide_eq_false_iff_not] at hx2
      intro hempty
      exact hx2.1.2 (hx2.2.trans hempty)
  have hfind : mapFind (PassI lines Assembler.ctor e).1.m_symtab.m_symbolTable L = some a := by
    rw [PassI_symtab]
    apply find_addSymbols_once
    · rfl
    · rw [labelCalls_filter]
      exact hdef
  have hne : a ≠ SymbolTable.multiplyDefinedSymbol := by
    unfold SymbolTable.multiplyDefinedSymbol
    omega
  have hlook : ∀ e2, (PassI lines Assembler.ctor e).1.m_symtab.LookupSymbol r.operand 0 e2
      = (true, a, e2) := by
    intro e2
    rw [hop]
    exact LookupSymbol_of_find_some _ _ _ _ _ hfind hne
  have hstep : PassIILoop (PassI lines Assembler.ctor e).1.m_symtab
      ((PassI lines Assembler.ctor e).1.m_intermediate.take (i + 1)) s0
        = (((PassIILoop (PassI lines Assembler.ctor e).1.m_symtab
              ((PassI lines Assembler.ctor e).1.m_intermediate.take i) s0).1.insertMemory
              r.location (c * 10000 + a)).2,
           (PassIILoop (PassI lines Assembler.ctor e).1.m_symtab
              ((PassI lines Assembler.ctor e).1.m_intermediate.take i) s0).2) := by
    rw [List.take_succ, hr, Option.toList_some, PassIILoop_concat]
    exact PassIIBody_machine_resolved_fits _ r _ c a htype hcode (by rw [hop]; exact hL)
      (hlook _) (by have := opcodeMap_lookup_pos _ _ hcode; omega)
  refine ⟨hstep, ?_⟩
  intro hloc
  rw [hstep]
  exact insertMemory_same _ _ _ hloc

/-- An instance of C3 with a forward reference: in `LOAD X`, `HALT`, `X DC 7`, `END` the
label `X` is defined at 2, after its use at 0, and the `LOAD` is encoded as 50002. -/
theorem forward_references_resolve_witness :
    ((PassI ["LOAD X", "HALT", "X DC 7", "END"] Assembler.ctor
        Errors.InitErrorReporting).1.m_intermediate.filter
        (fun r => registersLabel r && decide (r.label = "X"))).map (fun r => r.location)
      = [2] ∧
    (PassIILoop
        (PassI ["LOAD X", "HALT", "X DC 7", "END"] Assembler.ctor
          Errors.InitErrorReporting).1.m_symtab
        ((PassI ["LOAD X", "HALT", "X DC 7", "END"] Assembler.ctor
          Errors.InitErrorReporting).1.m_intermediate.take (0 + 1))
        (emulator.ctor, Errors.InitErrorReporting)).1.m_memory 0 = 5 * 10000 + 2 :=
  ⟨by decide,
   (forward_references_resolve ["LOAD X", "HALT", "X DC 7", "END"] Errors.InitErrorReporting
      "X" 2 (by decide) (by decide) 0
      { type := ST_MachineLanguage, label := "", opcode := "LOAD", operand := "X",
        location := 0, originalLine := "LOAD X" }
      5 (by decide) rfl (by decide) rfl (emulator.ctor, Errors.InitErrorReporting)).2
      (by decide)⟩

/-! ## `DS` in Pass I -/

/-- A line that is not invalid is parsed without recording an error. -/
theorem ParseInstruction_errs (line : String) (e : Errors)
    (h : (ParseInstruction line e).1.m_type ≠ ST_Invalid) : (ParseInstruction line e).2 = e := by
  unfold ParseInstruction at h ⊢
  simp only [] at h ⊢
  split_ifs at h ⊢ <;> first | rfl | exact absurd rfl h

/-- The body of the loop on a `DS` line: the counter afterwards and the error log. -/
theorem PassIBody_DS (line : String) (s : PassIState)
    (ht : (PassIRecord line s).type = ST_AssemblerInstr)
    (hop : (PassIRecord line s).opcode = "DS") :
    (∀ k, stoi (PassIRecord line s).operand = some k →
      (PassIBody line s).2.loc = wrapInt (s.loc + k) ∧
      (PassIBody line s).2.errs
        = (if (PassIRecord line s).label = "" then s.errs
           else (s.asm.m_symtab.AddSymbol (PassIRecord line s).label s.loc s.errs).2)) ∧
    (stoi (PassIRecord line s).operand = none →
      (PassIBody line s).2.loc = wrapInt (s.loc + 1) ∧
      (PassIBody line s).2.errs
        = (if (PassIRecord line s).label = "" then s.errs
           else (s.asm.m_symtab.AddSymbol (PassIRecord line s).label s.loc s.errs).2).RecordError
            ("Invalid size for DS at location: " ++ toString s.loc)) := by
  have hp : (ParseInstruction line s.errs).2 = s.errs := by
    apply ParseInstruction_errs
    simp only [PassIRecord] at ht
    rw [ht]; decide
  simp only [PassIRecord, Instruction.GetOpCode, Instruction.GetOperand, Instruction.isLabel,
    Instruction.GetLabel] at ht hop ⊢
  unfold PassIBody Instruction.LocationNextInstruction
  simp only [Instruction.GetOpCode, Instruction.GetOperand, Instruction.isLabel,
    Instruction.GetLabel]
  by_cases hlab : (ParseInstruction line s.errs).1.m_Label = ""
  · refine ⟨?_, ?_⟩
    · intro k hk
      simp [ht, hop, hk, hlab, hp]
    · intro hk
      simp [ht, hop, hk, hlab, hp]
  · refine ⟨?_, ?_⟩
    · intro k hk
      simp [ht, hop, hk, hlab, hp]
    · intro hk
      simp [ht, hop, hk, hlab, hp]

/-- An error that the body records for a kind of record is in the log after Pass I. -/
theorem PassI_record_error (cond : IntermediateInstruction → Prop)
    (msgOf : IntermediateInstruction → String)
    (hbody : ∀ line s, cond (PassIRecord line s) →
      msgOf (PassIRecord line s) ∈ (PassIBody line s).2.errs.m_ErrorMsgs ∧
      (PassIBody line s).2.errs.m_WasErrorMessages = true)
    (lines : List String) (e : Errors) :
    ∀ a ∈ (PassI lines Assembler.ctor e).1.m_intermediate, cond a →
      msgOf a ∈ (PassI lines Assembler.ctor e).2.m_ErrorMsgs ∧
      (PassI lines Assembler.ctor e).2.m_WasErrorMessages = true := by
  have key := PassILoop_induct
    (fun s => ∀ a ∈ s.asm.m_intermediate, cond a →
      msgOf a ∈ s.errs.m_ErrorMsgs ∧ s.errs.m_WasErrorMessages = true)
    (by
      intro line s hs a ha hc
      rw [PassIBody_intermediate, List.mem_append, List.mem_singleton] at ha
      rcases ha with ha | ha
      · obtain ⟨h1, h2⟩ := hs a ha hc
        have hg := PassIBody_grows line s
        exact ⟨hg.1.subset h1, hg.2 h2⟩
      · subst ha
        exact hbody line s hc)
    (by
      intro s hs a ha hc
      obtain ⟨h1, h2⟩ := hs a ha hc
      have hg := Errors.grows_RecordError s.errs "Missing END directive."
      exact ⟨hg.1.subset h1, hg.2 h2⟩)
    lines { loc := 0, asm := Assembler.ctor, errs := e }
    (by simp [Assembler.ctor])
  exact key

/-- C11 fails for a size that starts with digits and goes on with other characters: in the
program `DS 5abc`, `HALT`, `END` the operand `5abc` is no pure decimal integer, yet `stoi`
reads it as 5, the record after the `DS` is at 5 and not at 1, and no error is recorded. -/
theorem PassI_DS_reads_leading_digits :
    ((PassI ["DS 5abc", "HALT", "END"] Assembler.ctor
        Errors.InitErrorReporting).1.m_intermediate.map
        (fun r => (r.opcode, r.operand, r.location)))
      = [("DS", "5abc", 0), ("HALT", "", 5), ("END", "", 6)] ∧
    (PassI ["DS 5abc", "HALT", "END"] Assembler.ctor Errors.InitErrorReporting).2
      = { m_ErrorMsgs := [], m_WasErrorMessages := false } := by
  decide

/-- C11, amended: in Pass I a `DS` line whose operand `stoi` rejects (missing, not starting
with a digit after an optional sign, or out of the range of `int`) moves the location
counter to the `int` sum of the counter and 1 and records the error "Invalid size for DS at
location: " followed by the location; a `DS` line whose operand `stoi` reads as `k` (an
optional sign and the leading decimal digits, whatever follows them) moves it to the `int`
sum of the counter and `k`, and the handling of the `DS` records no error: the log is the
one left by registering the label, if any.  The `int` sum is the exact sum, so the counter
advances by exactly 1 or exactly `k`, whenever the exact sum lies in the range of `int`;
otherwise it is the exact sum reduced modulo 2^32. -/
theorem PassI_DS_advances (lines : List String) (e : Errors) :
    (∀ (line : String) (s : PassIState),
      (PassIRecord line s).type = ST_AssemblerInstr → (PassIRecord line s).opcode = "DS" →
        (∀ k, stoi (PassIRecord line s).operand = some k →
          (PassIBody line s).2.loc = wrapInt (s.loc + k) ∧
          (-2147483648 ≤ s.loc + k ∧ s.loc + k ≤ 2147483647 →
            (PassIBody line s).2.loc = s.loc + k) ∧
          (PassIBody line s).2.errs
            = (if (PassIRecord line s).label = "" then s.errs
               else (s.asm.m_symtab.AddSymbol (PassIRecord line s).label s.loc s.errs).2)) ∧
        (stoi (PassIRecord line s).operand = none →
          (PassIBody line s).2.loc = wrapInt (s.loc + 1) ∧
          (-2147483648 ≤ s.loc + 1 ∧ s.loc + 1 ≤ 2147483647 →
            (PassIBody line s).2.loc = s.loc + 1) ∧
          (PassIBody line s).2.errs
            = (if (PassIRecord line s).label = "" then s.errs
               else (s.asm.m_symtab.AddSymbol (PassIRecord line s).label s.loc
                      s.errs).2).RecordError
                ("Invalid size for DS at location: " ++ toString s.loc))) ∧
    (∀ (i : Nat) (a b : IntermediateInstruction),
      (PassI lines Assembler.ctor e).1.m_intermediate[i]? = some a →
      (PassI lines Assembler.ctor e).1.m_intermediate[i + 1]? = some b →
      a.type = ST_AssemblerInstr → a.opcode = "DS" →
        (∀ k, stoi a.operand = some k →
          b.location = wrapInt (a.location + k) ∧
          (-2147483648 ≤ a.location + k ∧ a.location + k ≤ 2147483647 →
            b.location = a.location + k)) ∧
        (stoi a.operand = none →
          b.location = wrapInt (a.location + 1) ∧
          (a.location + 1 ≤ 2147483647 → b.location = a.location + 1))) ∧
    (∀ a ∈ (PassI lines Assembler.ctor e).1.m_intermediate,
      a.type = ST_AssemblerInstr → a.opcode = "DS" → stoi a.operand = none →
        ("Invalid size for DS at location: " ++ toString a.location)
          ∈ (PassI lines Assembler.ctor e).2.m_ErrorMsgs ∧
        (PassI lines Assembler.ctor e).2.WasThereErrors = true) := by
  refine ⟨?_, ?_, ?_⟩
  · intro line s ht hop
    refine ⟨?_, ?_⟩
    · intro k hk
      obtain ⟨h1, h2⟩ := (PassIBody_DS line s ht hop).1 k hk
      exact ⟨h1, fun hfit => by rw [h1]; exact wrapInt_of_fits _ hfit, h2⟩
    · intro hk
      obtain ⟨h1, h2⟩ := (PassIBody_DS line s ht hop).2 hk
      exact ⟨h1, fun hfit => by rw [h1]; exact wrapInt_of_fits _ hfit, h2⟩
  · intro i a b ha hb ht hop
    have hab : b.location = locAfter a :=
      chain_getElem _ _ (PassI_chain lines e).1 i a b ha hb
    have hrange := PassI_locations_range lines e a (List.getElem?_mem ha)
    refine ⟨?_, ?_⟩
    · intro k hk
      have h : b.location = wrapInt (a.location + k) := by
        rw [hab]; simp [locAfter, ht, hop, hk]
      exact ⟨h, fun hfit => by rw [h]; exact wrapInt_of_fits _ hfit⟩
    · intro hk
      have h : b.location = wrapInt (a.location + 1) := by
        rw [hab]; simp [locAfter, ht, hop, hk]
      exact ⟨h, fun hfit => by rw [h]; exact wrapInt_of_fits _ (by omega)⟩
  · intro a ha ht hop hk
    refine PassI_record_error
      (fun r => r.type = ST_AssemblerInstr ∧ r.opcode = "DS" ∧ stoi r.operand = none)
      (fun r => "Invalid size for DS at location: " ++ toString r.location)
      ?_ lines e a ha ⟨ht, hop, hk⟩
    intro line s ⟨h1, h2, h3⟩
    rw [((PassIBody_DS line s h1 h2).2 h3).2]
    simp [Errors.RecordError, PassIRecord_location]

/-- An instance of the amended C11: `DS 3` puts the next record at 3, `DS x` the one after
it at 4 and is reported. -/
theorem PassI_DS_advances_witness :
    ((PassI ["DS 3", "DS x", "HALT", "END"] Assembler.ctor
        Errors.InitErrorReporting).1.m_intermediate.map (fun r => r.location))
      = [0, 3, 4, 5] ∧
    (∀ k, stoi "3" = some k →
      (-2147483648 ≤ (0 : Int) + k ∧ (0 : Int) + k ≤ 2147483647 → (3 : Int) = 0 + k)) ∧
    (stoi "x" = none → ((3 : Int) + 1 ≤ 2147483647 → (4 : Int) = 3 + 1)) ∧
    ("Invalid size for DS at location: " ++ toString (3 : Int)) ∈
      (PassI ["DS 3", "DS x", "HALT", "END"] Assembler.ctor
        Errors.InitErrorReporting).2.m_ErrorMsgs :=
  ⟨by decide,
   fun k hk =>
    (((PassI_DS_advances ["DS 3", "DS x", "HALT", "END"] Errors.InitErrorReporting).2.1 0
      { type := ST_AssemblerInstr, label := "", opcode := "DS", operand := "3", location := 0,
        originalLine := "DS 3" }
      { type := ST_AssemblerInstr, label := "", opcode := "DS", operand := "x", location := 3,
        originalLine := "DS x" }
      (by decide) (by decide) rfl rfl).1 k hk).2,
   fun hk =>
    (((PassI_DS_advances ["DS 3", "DS x", "HALT", "END"] Errors.InitErrorReporting).2.1 1
      { type := ST_AssemblerInstr, label := "", opcode := "DS", operand := "x", location := 3,
        originalLine := "DS x" }
      { type := ST_MachineLanguage, label := "", opcode := "HALT", operand := "", location := 4,
        originalLine := "HALT" }
      (by decide) (by decide) rfl rfl).2 hk).2,
   ((PassI_DS_advances ["DS 3", "DS x", "HALT", "END"] Errors.InitErrorReporting).2.2
      { type := ST_AssemblerInstr, label := "", opcode := "DS", operand := "x", location := 3,
        originalLine := "DS x" }
      (by decide) rfl rfl (by decide)).1⟩

/-! ## The emulator -/

/-- C13: when the word at the entry address 100 decodes (`word / 10000`, truncating) to an
opcode other than 5, 6, 7, 8, 12 and 13, `runProgram` returns `false` in its first
iteration, whatever the input, and memory, accumulator, input and output are as before the
call. -/
theorem runProgram_illegal_opcode_at_entry (em : emulator) (input : InputStream) (fuel : Nat)
    (hop : (em.m_memory 100).tdiv 10000 ∉ [5, 6, 7, 8, 12, 13]) :
    em.runProgram (fuel + 1) input
      = some (false, { loc := 100, em := em, input := input, output := [] }) := by
  simp only [List.mem_cons, List.mem_singleton, List.not_mem_nil, or_false, not_or] at hop
  obtain ⟨h5, h6, h7, h8, h12, h13⟩ := hop
  simp [emulator.runProgram, runLoop, runStep, emulator.MEMSZ, h5, h6, h7, h8, h12, h13]

/-- An instance of C13: the word 990000 at location 100 of an otherwise zeroed memory. -/
theorem runProgram_illegal_opcode_at_entry_witness :
    (((emulator.ctor.insertMemory 100 990000).2.m_memory 100).tdiv 10000
        ∉ [5, 6, 7, 8, 12, 13]) ∧
    (emulator.ctor.insertMemory 100 990000).2.runProgram (0 + 1) { rest := [], failed := false }
      = some (false, { loc := 100, em := (emulator.ctor.insertMemory 100 990000).2,
                       input := { rest := [], failed := false }, output := [] }) :=
  ⟨by decide,
   runProgram_illegal_opcode_at_entry (emulator.ctor.insertMemory 100 990000).2
     { rest := [], failed := false } 0 (by decide)⟩

/-- C14: `RunProgramInEmulator` runs the emulator exactly when no error is recorded.  With
`WasThereErrors()` true the outcome does not depend on `runProgram` (it is there for every
`fuel`, even 0): nothing ran and the assembler, with its memory and accumulator, and the
input are untouched.  With `WasThereErrors()` false the outcome is that of `runProgram`:
its return value and its final memory, accumulator, input and output. -/
theorem RunProgramInEmulator_gate (fuel : Nat) (a : Assembler) (e : Errors)
    (input : InputStream) :
    (e.WasThereErrors = true →
      a.RunProgramInEmulator fuel e input
        = some { ran := none, asm := a, input := input, output := [] }) ∧
    (e.WasThereErrors = false →
      a.RunProgramInEmulator fuel e input
        = (a.m_emul.runProgram fuel input).map
            (fun r => { ran := some r.1, asm := { a with m_emul := r.2.em },
                        input := r.2.input, output := r.2.output })) := by
  refine ⟨?_, ?_⟩
  · intro h
    simp [Assembler.RunProgramInEmulator, h]
  · intro h
    simp only [Assembler.RunProgramInEmulator, h]
    cases a.m_emul.runProgram fuel input <;> simp

/-- C20: one iteration of `runProgram` at a location in `[0, 10000)`.  When the word there
decodes to opcode 5 (`LOAD`) the accumulator becomes `memory[address]`, memory, input and
output stay and the location grows by 1.  When it decodes to opcode 6 (`STORE`) the cell at
`address` becomes the accumulator, every other cell, the accumulator, input and output stay
and the location grows by 1.  Here `address` is `word % 10000`. -/
theorem runStep_LOAD_STORE (s : RunState) (hloc : 0 ≤ s.loc ∧ s.loc < 10000) :
    ((s.em.m_memory s.loc).tdiv 10000 = 5 →
      runStep s = StepResult.running
        { loc := s.loc + 1,
          em := { m_memory := s.em.m_memory,
                  m_accum := s.em.m_memory ((s.em.m_memory s.loc).tmod 10000) },
          input := s.input, output := s.output }) ∧
    ((s.em.m_memory s.loc).tdiv 10000 = 6 →
      runStep s = StepResult.running
        { loc := s.loc + 1,
          em := { m_memory := fun j => if j = (s.em.m_memory s.loc).tmod 10000
                                       then s.em.m_accum else s.em.m_memory j,
                  m_accum := s.em.m_accum },
          input := s.input, output := s.output }) := by
  have hb : ¬ (s.loc < 0 ∨ s.loc ≥ emulator.MEMSZ) := by
    unfold emulator.MEMSZ; omega
  refine ⟨?_, ?_⟩
  · intro h
    simp [runStep, hb, h]
  · intro h
    simp [runStep, hb, h]

/-- An instance of C20: `LOAD 7` at location 100 with 42 in cell 7. -/
theorem runStep_LOAD_STORE_witness :
    (0 ≤ (100 : Int) ∧ (100 : Int) < 10000) ∧
    runStep { loc := 100,
              em := { m_memory := fun i => if i = 100 then 50007 else if i = 7 then 42 else 0,
                      m_accum := 0 },
              input := { rest := [], failed := false }, output := [] }
      = StepResult.running
        { loc := 100 + 1,
          em := { m_memory := fun i => if i = 100 then 50007 else if i = 7 then 42 else 0,
                  m_accum := (fun i : Int => if i = 100 then (50007 : Int)
                                else if i = 7 then 42 else 0)
                             ((50007 : Int).tmod 10000) },
          input := { rest := [], failed := false }, output := [] } :=
  ⟨by decide,
   (runStep_LOAD_STORE
      { loc := 100,
        em := { m_memory := fun i => if i = 100 then 50007 else if i = 7 then 42 else 0,
                m_accum := 0 },
        input := { rest := [], failed := false }, output := [] }
      (by decide)).1 (by decide)⟩

/-! ## The `END` directive in Pass I -/

/-- The record that `ParseInstruction` fills does not depend on the error log. -/
theorem ParseInstruction_fst_indep (line : String) (e e2 : Errors) :
    (ParseInstruction line e).1 = (ParseInstruction line e2).1 := by
  unfold ParseInstruction
  simp only []
  split_ifs <;> rfl

/-- The loop of Pass I stops after a line exactly when the line is classified as `ST_End`. -/
theorem PassIBody_continues (line : String) (s : PassIState) :
    (PassIBody line s).1 = !isEndLine line := by
  have hi := ParseInstruction_fst_indep line s.errs Errors.InitErrorReporting
  unfold isEndLine
  rw [← hi]
  unfold PassIBody
  simp only [Instruction.GetOpCode, Instruction.GetOperand]
  cases ht : (ParseInstruction line s.errs).1.m_type
  · simp
  · simp
  · by_cases h1 : (ParseInstruction line s.errs).1.m_OpCode = "ORG"
    · cases h2 : stoi (ParseInstruction line s.errs).1.m_Operand <;> simp [h1, h2]
    · by_cases h3 : (ParseInstruction line s.errs).1.m_OpCode = "DC" ∨
          (ParseInstruction line s.errs).1.m_OpCode = "DS"
      · simp [h1, h3]
      · simp [h1, h3]
  · simp
  · simp

theorem PassIRecord_originalLine (line : String) (s : PassIState) :
    (PassIRecord line s).originalLine = line := rfl

theorem PassILoop_cons_continue (x : String) (rest : List String) (s : PassIState)
    (hx : isEndLine x = false) : PassILoop (x :: rest) s = PassILoop rest (PassIBody x s).2 := by
  simp [PassILoop, PassIBody_continues, hx]

theorem PassILoop_cons_stop (x : String) (rest : List String) (s : PassIState)
    (hx : isEndLine x = true) : PassILoop (x :: rest) s = (PassIBody x s).2 := by
  simp [PassILoop, PassIBody_continues, hx]

/-- Lines after the first `END` line do not reach the loop of Pass I. -/
theorem PassILoop_stops_at_END (pre : List String) (l : String) (post : List String)
    (hpre : ∀ x ∈ pre, isEndLine x = false) (hl : isEndLine l = true) :
    ∀ s, PassILoop (pre ++ l :: post) s = PassILoop (pre ++ [l]) s := by
  induction pre with
  | nil =>
    intro s
    simp [PassILoop, PassIBody_continues, hl]
  | cons x pre ih =>
    intro s
    have hx : isEndLine x = false := hpre x (List.mem_cons_self _ _)
    rw [List.cons_append, List.cons_append, PassILoop_cons_continue _ _ _ hx,
      PassILoop_cons_continue _ _ _ hx]
    exact ih (fun y hy => hpre y (List.mem_cons_of_mem _ hy)) _

/-- Up to the first `END` line every line leaves one record, in order. -/
theorem PassILoop_records_to_END (pre : List String) (l : String)
    (hpre : ∀ x ∈ pre, isEndLine x = false) (hl : isEndLine l = true) :
    ∀ s, (PassILoop (pre ++ [l]) s).asm.m_intermediate.map (fun r => r.originalLine)
      = s.asm.m_intermediate.map (fun r => r.originalLine) ++ (pre ++ [l]) := by
  induction pre with
  | nil =>
    intro s
    simp [PassILoop, PassIBody_continues, hl, PassIBody_intermediate, PassIRecord_originalLine]
  | cons x pre ih =>
    intro s
    have hx : isEndLine x = false := hpre x (List.mem_cons_self _ _)
    rw [List.cons_append, PassILoop_cons_continue _ _ _ hx,
      ih (fun y hy => hpre y (List.mem_cons_of_mem _ hy)), PassIBody_intermediate]
    simp [PassIRecord_originalLine]

theorem append_ne_of_not_initial (p x m : String) (h : ¬ p.data <+: m.data) : p ++ x ≠ m := by
  intro heq
  apply h
  rw [← heq, String.data_append]
  exact List.prefix_append _ _

theorem RecordError_count (e : Errors) (m M : String) (h : m ≠ M) :
    (e.RecordError m).m_ErrorMsgs.count M = e.m_ErrorMsgs.count M := by
  simp [Errors.RecordError, List.count_append, List.count_cons, h]

theorem ParseInstruction_count_END (line : String) (e : Errors) :
    (ParseInstruction line e).2.m_ErrorMsgs.count "Missing END directive."
      = e.m_ErrorMsgs.count "Missing END directive." := by
  unfold ParseInstruction
  simp only []
  split_ifs <;> first
    | rfl
    | exact RecordError_count _ _ _ (append_ne_of_not_initial _ _ _ (by decide))

theorem AddSymbol_count_END (t : SymbolTable) (n : String) (l : Int) (e : Errors) :
    (t.AddSymbol n l e).2.m_ErrorMsgs.count "Missing END directive."
      = e.m_ErrorMsgs.count "Missing END directive." := by
  unfold SymbolTable.AddSymbol
  split_ifs
  · apply RecordError_count
    rw [String.append_assoc]
    exact append_ne_of_not_initial _ _ _ (by decide)
  · rfl

theorem LocationNextInstruction_count_END (i : Instruction) (l : Int) (e : Errors) :
    (i.LocationNextInstruction l e).2.m_ErrorMsgs.count "Missing END directive."
      = e.m_ErrorMsgs.count "Missing END directive." := by
  unfold Instruction.LocationNextInstruction
  split_ifs <;> first
    | rfl
    | (split <;> first
        | rfl
        | exact RecordError_count _ _ _ (append_ne_of_not_initial _ _ _ (by decide)))

/-- The body of the loop never records the missing `END`. -/
theorem PassIBody_count_END (line : String) (s : PassIState) :
    (PassIBody line s).2.errs.m_ErrorMsgs.count "Missing END directive."
      = s.errs.m_ErrorMsgs.count "Missing END directive." := by
  rw [← ParseInstruction_count_END line s.errs]
  unfold PassIBody
  simp only [Instruction.isLabel, Instruction.GetLabel, Instruction.GetOpCode,
    Instruction.GetOperand]
  cases ht : (ParseInstruction line s.errs).1.m_type
  · simp
  · by_cases hlab : (ParseInstruction line s.errs).1.m_Label = ""
    · simp [hlab, LocationNextInstruction_count_END]
    · simp [hlab, LocationNextInstruction_count_END, AddSymbol_count_END]
  · by_cases hlab : (ParseInstruction line s.errs).1.m_Label = ""
    · by_cases h1 : (ParseInstruction line s.errs).1.m_OpCode = "ORG"
      · cases h2 : stoi (ParseInstruction line s.errs).1.m_Operand <;> simp [hlab, h1, h2]
        exact RecordError_count _ _ _ (by decide)
      · by_cases h3 : (ParseInstruction line s.errs).1.m_OpCode = "DC" ∨
            (ParseInstruction line s.errs).1.m_OpCode = "DS"
        · simp [hlab, h1, h3, LocationNextInstruction_count_END]
        · simp [hlab, h1, h3]
          exact RecordError_count _ _ _ (append_ne_of_not_initial _ _ _ (by decide))
    · by_cases h1 : (ParseInstruction line s.errs).1.m_OpCode = "ORG"
      · cases h2 : stoi (ParseInstruction line s.errs).1.m_Operand <;> simp [hlab, h1, h2]
        · rw [RecordError_count _ _ _ (by decide), AddSymbol_count_END]
        · rw [AddSymbol_count_END]
      · by_cases h3 : (ParseInstruction line s.errs).1.m_OpCode = "DC" ∨
            (ParseInstruction line s.errs).1.m_OpCode = "DS"
        · simp [hlab, h1, h3, LocationNextInstruction_count_END, AddSymbol_count_END]
        · simp [hlab, h1, h3]
          rw [RecordError_count _ _ _ (append_ne_of_not_initial _ _ _ (by decide)),
            AddSymbol_count_END]
  · simp
  · simp

/-- Without an `END` line the loop records the missing `END` once. -/
theorem PassILoop_count_no_END (lines : List String)
    (h : ∀ x ∈ lines, isEndLine x = false) :
    ∀ s, (PassILoop lines s).errs.m_ErrorMsgs.count "Missing END directive."
      = s.errs.m_ErrorMsgs.count "Missing END directive." + 1 := by
  induction lines with
  | nil =>
    intro s
    simp [PassILoop, Errors.RecordError, List.count_append]
  | cons x lines ih =>
    intro s
    have hx : isEndLine x = false := h x (List.mem_cons_self _ _)
    rw [PassILoop_cons_continue _ _ _ hx,
      ih (fun y hy => h y (List.mem_cons_of_mem _ hy)), PassIBody_count_END]

/-- With an `END` line the loop does not record the missing `END`. -/
theorem PassILoop_count_END (pre : List String) (l : String)
    (hpre : ∀ x ∈ pre, isEndLine x = false) (hl : isEndLine l = true) :
    ∀ s, (PassILoop (pre ++ [l]) s).errs.m_ErrorMsgs.count "Missing END directive."
      = s.errs.m_ErrorMsgs.count "Missing END directive." := by
  induction pre with
  | nil =>
    intro s
    simp [PassILoop, PassIBody_continues, hl, PassIBody_count_END]
  | cons x pre ih =>
    intro s
    have hx : isEndLine x = false := hpre x (List.mem_cons_self _ _)
    rw [List.cons_append, PassILoop_cons_continue _ _ _ hx,
      ih (fun y hy => hpre y (List.mem_cons_of_mem _ hy)), PassIBody_count_END]

/-- A list with an `END` line splits at the first one. -/
theorem split_at_first_END (lines : List String) (h : ∃ x ∈ lines, isEndLine x = true) :
    ∃ pre l post, lines = pre ++ l :: post ∧ (∀ x ∈ pre, isEndLine x = false) ∧
      isEndLine l = true := by
  induction lines with
  | nil => obtain ⟨x, hx, _⟩ := h; simp at hx
  | cons y lines ih =>
    by_cases hy : isEndLine y = true
    · exact ⟨[], y, lines, rfl, by simp, hy⟩
    · obtain ⟨x, hx, hxe⟩ := h
      have hx2 : x ∈ lines := by
        rcases List.mem_cons.1 hx with hxy | hxl
        · rw [hxy] at hxe; exact absurd hxe hy
        · exact hxl
      obtain ⟨pre, l, post, hl, hpre, hle⟩ := ih ⟨x, hx2, hxe⟩
      refine ⟨y :: pre, l, post, by rw [hl]; rfl, ?_, hle⟩
      intro z hz
      rcases List.mem_cons.1 hz with hzy | hzp
      · rw [hzy]; simpa using hy
      · exact hpre z hzp

/-- C12: Pass I records "Missing END directive." exactly when no line is classified as
`ST_End`: on a fresh log the message is in the log afterwards if and only if there is no
such line, and on any log it is added once or not at all.  When the first such line is `l`,
after the lines `pre`, the records of Pass I are those of `pre` and `l`, one per line and in
source order, and Pass I ends as it does on `pre` and `l` alone: the lines after `l` have no
effect on the records, the symbol table, the location counter or the error log. -/
theorem PassI_missing_END (lines : List String) (a : Assembler) (e : Errors) :
    ("Missing END directive." ∈
        (PassI lines Assembler.ctor Errors.InitErrorReporting).2.m_ErrorMsgs
      ↔ ∀ x ∈ lines, isEndLine x = false) ∧
    ((∀ x ∈ lines, isEndLine x = false) →
      (PassI lines a e).2.m_ErrorMsgs.count "Missing END directive."
        = e.m_ErrorMsgs.count "Missing END directive." + 1) ∧
    ((∃ x ∈ lines, isEndLine x = true) →
      (PassI lines a e).2.m_ErrorMsgs.count "Missing END directive."
        = e.m_ErrorMsgs.count "Missing END directive.") ∧
    (∀ (pre : List String) (l : String) (post : List String),
      lines = pre ++ l :: post → (∀ x ∈ pre, isEndLine x = false) → isEndLine l = true →
        (PassI lines a e).1.m_intermediate.map (fun r => r.originalLine)
          = a.m_intermediate.map (fun r => r.originalLine) ++ (pre ++ [l]) ∧
        PassILoop lines { loc := 0, asm := a, errs := e }
          = PassILoop (pre ++ [l]) { loc := 0, asm := a, errs := e } ∧
        PassI lines a e = PassI (pre ++ [l]) a e) := by
  have hno : ∀ (a : Assembler) (e : Errors), (∀ x ∈ lines, isEndLine x = false) →
      (PassI lines a e).2.m_ErrorMsgs.count "Missing END directive."
        = e.m_ErrorMsgs.count "Missing END directive." + 1 := by
    intro a e h
    exact PassILoop_count_no_END lines h _
  have hyes : ∀ (a : Assembler) (e : Errors), (∃ x ∈ lines, isEndLine x = true) →
      (PassI lines a e).2.m_ErrorMsgs.count "Missing END directive."
        = e.m_ErrorMsgs.count "Missing END directive." := by
    intro a e h
    obtain ⟨pre, l, post, hsplit, hpre, hl⟩ := split_at_first_END lines h
    simp only [PassI]
    rw [hsplit, PassILoop_stops_at_END pre l post hpre hl]
    exact PassILoop_count_END pre l hpre hl _
  refine ⟨?_, hno a e, hyes a e, ?_⟩
  · constructor
    · intro hmem
      by_contra hcon
      push_neg at hcon
      obtain ⟨x, hx, hxe⟩ := hcon
      have hxe2 : isEndLine x = true := by simpa using hxe
      have hc := hyes Assembler.ctor Errors.InitErrorReporting ⟨x, hx, hxe2⟩
      have hz : (PassI lines Assembler.ctor Errors.InitErrorReporting).2.m_ErrorMsgs.count
          "Missing END directive." = 0 := by
        rw [hc]; rfl
      exact (List.count_eq_zero.1 hz) hmem
    · intro h
      have hc := hno Assembler.ctor Errors.InitErrorReporting h
      apply List.count_pos_iff.1
      rw [hc]
      exact Nat.succ_pos _
  · intro pre l post hsplit hpre hl
    have hloop : PassILoop lines { loc := 0, asm := a, errs := e }
        = PassILoop (pre ++ [l]) { loc := 0, asm := a, errs := e } := by
      rw [hsplit]; exact PassILoop_stops_at_END pre l post hpre hl _
    refine ⟨?_, hloop, ?_⟩
    · simp only [PassI]
      rw [hloop]
      exact PassILoop_records_to_END pre l hpre hl _
    · simp only [PassI]
      rw [hloop]

/-- An instance of C12: the line after `END` leaves no record, and without the `END` line
the missing `END` is recorded. -/
theorem PassI_missing_END_witness :
    (PassI ["A DC 1", "x END", "B DC 2"] Assembler.ctor
        Errors.InitErrorReporting).1.m_intermediate.map (fun r => r.originalLine)
      = Assembler.ctor.m_intermediate.map (fun r => r.originalLine) ++ (["A DC 1"] ++ ["x END"]) ∧
    ("Missing END directive." ∈
        (PassI ["A DC 1", "B DC 2"] Assembler.ctor Errors.InitErrorReporting).2.m_ErrorMsgs) :=
  ⟨((PassI_missing_END ["A DC 1", "x END", "B DC 2"] Assembler.ctor
      Errors.InitErrorReporting).2.2.2 ["A DC 1"] "x END" ["B DC 2"] rfl
      (by decide) (by decide)).1,
   (PassI_missing_END ["A DC 1", "B DC 2"] Assembler.ctor Errors.InitErrorReporting).1.2
     (by decide)⟩

/-! ## Writes of Pass II outside the memory -/

/-- C15 does not hold of the code: in `ORG 10000`, `DC 5`, `HALT`, `END` the `DC` record
is at 10000 and the `HALT` record at 10001, outside `[0, 10000)`.  `insertMemory` rejects
both writes (memory stays zeroed), but Pass II drops its return value: the error log
is empty afterwards, `WasThereErrors()` is `false`, and `RunProgramInEmulator` runs the
emulator, which returns `false` at the empty entry address. -/
theorem PassII_rejected_write_not_recorded :
    ((assemble ["ORG 10000", "DC 5", "HALT", "END"]).1.m_intermediate.map
        (fun r => (r.opcode, r.operand, r.location)))
      = [("ORG", "10000", 0), ("DC", "5", 10000), ("HALT", "", 10001), ("END", "", 10002)] ∧
    (emulator.ctor.insertMemory 10000 5).1 = false ∧
    (emulator.ctor.insertMemory 10001 130000).1 = false ∧
    (assemble ["ORG 10000", "DC 5", "HALT", "END"]).1.m_emul.m_memory 10000 = 0 ∧
    (assemble ["ORG 10000", "DC 5", "HALT", "END"]).1.m_emul.m_memory 10001 = 0 ∧
    (assemble ["ORG 10000", "DC 5", "HALT", "END"]).2
      = { m_ErrorMsgs := [], m_WasErrorMessages := false } ∧
    (assemble ["ORG 10000", "DC 5", "HALT", "END"]).2.WasThereErrors = false ∧
    ((assemble ["ORG 10000", "DC 5", "HALT", "END"]).1.RunProgramInEmulator 1
        (assemble ["ORG 10000", "DC 5", "HALT", "END"]).2
        { rest := [], failed := false }).map (fun r => r.ran) = some (some false) := by
  decide

/-- The body of the loop of Pass II on a record whose location is outside `[0, 10000)`: the
emulator is unchanged and the error log is the one the same record leaves at location 0, so
the rejected write records nothing. -/
theorem PassIIBody_out_of_range (symtab : SymbolTable) (r : IntermediateInstruction)
    (s : emulator × Errors) (hloc : ¬ (0 ≤ r.location ∧ r.location < 10000)) :
    (PassIIBody symtab r s).1 = s.1 ∧
    (PassIIBody symtab r s).2 = (PassIIBody symtab { r with location := 0 } s).2 := by
  have hins : ∀ v, (s.1.insertMemory r.location v).2 = s.1 := by
    intro v
    simp [emulator.insertMemory, emulator.MEMSZ, hloc]
  unfold PassIIBody
  simp only []
  refine ⟨?_, ?_⟩
  · split_ifs <;> first
      | rfl
      | (split <;> first | rfl | exact hins _)
  · split_ifs <;> first
      | rfl
      | (split <;> rfl)

/-- An instance of C14: with an error recorded the emulator is not run, whatever is in
memory. -/
theorem RunProgramInEmulator_gate_witness :
    (Errors.InitErrorReporting.RecordError "Unknown opcode: FOO").WasThereErrors = true ∧
    Assembler.ctor.RunProgramInEmulator 5
        (Errors.InitErrorReporting.RecordError "Unknown opcode: FOO")
        { rest := [], failed := false }
      = some { ran := none, asm := Assembler.ctor, input := { rest := [], failed := false },
               output := [] } :=
  ⟨rfl,
   (RunProgramInEmulator_gate 5 Assembler.ctor
      (Errors.InitErrorReporting.RecordError "Unknown opcode: FOO")
      { rest := [], failed := false }).1 rfl⟩

/-! ## Tokens and stream extraction -/

theorem splitOnP_concat_sep (s : List Char) (x : Char) (hx : isspace x = true) :
    (s ++ [x]).splitOnP isspace = s.splitOnP isspace ++ [[]] := by
  induction s with
  | nil => simp [List.splitOnP_cons, hx]
  | cons y s ih =>
    rw [List.cons_append, List.splitOnP_cons, List.splitOnP_cons, ih]
    by_cases hy : isspace y = true
    · simp [hy]
    · simp only [hy, Bool.false_eq_true, if_false]
      cases hs : s.splitOnP isspace with
      | nil => exact absurd hs (List.splitOnP_ne_nil _ _)
      | cons a as => rfl

theorem tokens_nil : tokens [] = [] := by
  simp [tokens]

theorem tokens_cons_space (x : Char) (xs : List Char) (hx : isspace x = true) :
    tokens (x :: xs) = tokens xs := by
  simp [tokens, List.splitOnP_cons, hx]

theorem tokens_concat_space (s : List Char) (x : Char) (hx : isspace x = true) :
    tokens (s ++ [x]) = tokens s := by
  simp [tokens, splitOnP_concat_sep s x hx]

theorem tokens_dropWhile (q : Char → Bool) (hq : ∀ c, q c = true → isspace c = true)
    (s : List Char) : tokens (s.dropWhile q) = tokens s := by
  induction s with
  | nil => rfl
  | cons x s ih =>
    by_cases hx : q x = true
    · rw [List.dropWhile_cons_of_pos hx, ih, tokens_cons_space x s (hq x hx)]
    · rw [List.dropWhile_cons_of_neg hx]

theorem tokens_rdropWhile (q : Char → Bool) (hq : ∀ c, q c = true → isspace c = true)
    (s : List Char) : tokens (s.rdropWhile q) = tokens s := by
  induction s using List.reverseRecOn with
  | nil => rfl
  | append_singleton s x ih =>
    by_cases hx : q x = true
    · rw [List.rdropWhile_concat_pos _ _ _ hx, ih, tokens_concat_space s x (hq x hx)]
    · rw [List.rdropWhile_concat_neg _ _ _ hx]

theorem isTrimChar_isspace (c : Char) (h : isTrimChar c = true) : isspace c = true := by
  simp only [isTrimChar, Bool.or_eq_true, beq_iff_eq] at h
  simp only [isspace, Bool.or_eq_true, beq_iff_eq]
  tauto

theorem trim_eq (s : List Char) : trim s = (s.dropWhile isTrimChar).rdropWhile isTrimChar := rfl

theorem tokens_trim (s : List Char) : tokens (trim s) = tokens s := by
  rw [trim_eq, tokens_rdropWhile _ isTrimChar_isspace, tokens_dropWhile _ isTrimChar_isspace]

theorem trim_eq_nil_iff (s : List Char) : trim s = [] ↔ ∀ c ∈ s, isTrimChar c = true := by
  rw [trim_eq, List.rdropWhile_eq_nil_iff]
  constructor
  · intro h
    have hnil : s.dropWhile isTrimChar = [] := by
      cases hd : s.dropWhile isTrimChar with
      | nil => rfl
      | cons y ys =>
        have h1 : isTrimChar y = true := h y (by rw [hd]; exact List.mem_cons_self _ _)
        have h2 := List.head_dropWhile_not isTrimChar s (by rw [hd]; simp)
        simp only [hd, List.head_cons] at h2
        rw [h1] at h2
        exact absurd h2 (by simp)
    exact List.dropWhile_eq_nil_iff.1 hnil
  · intro h x hx
    exact h x ((List.dropWhile_sublist _).subset hx)

/-- A text that starts with a character other than white space: its first token is its
longest initial run of such characters. -/
theorem splitOnP_takeWhile (xs : List Char) :
    xs.splitOnP isspace
      = xs.takeWhile (fun c => !isspace c) ::
          (match xs.dropWhile (fun c => !isspace c) with
           | [] => []
           | _ :: rest => rest.splitOnP isspace) := by
  induction xs with
  | nil => rfl
  | cons x xs ih =>
    rw [List.splitOnP_cons]
    by_cases hx : isspace x = true
    · simp [hx]
    · have hx2 : isspace x = false := by simpa using hx
      rw [ih]
      simp [hx2]

theorem tokens_of_head (x : Char) (xs : List Char) (hx : isspace x = false) :
    tokens (x :: xs)
      = String.mk ((x :: xs).takeWhile (fun c => !isspace c)) ::
          tokens ((x :: xs).dropWhile (fun c => !isspace c)) := by
  have htw : (x :: xs).takeWhile (fun c => !isspace c)
      = x :: xs.takeWhile (fun c => !isspace c) := by
    simp [List.takeWhile_cons, hx]
  unfold tokens
  rw [splitOnP_takeWhile (x :: xs)]
  cases hd : (x :: xs).dropWhile (fun c => !isspace c) with
  | nil => simp [htw]
  | cons y ys =>
    have hy := List.head_dropWhile_not (fun c => !isspace c) (x :: xs) (by rw [hd]; simp)
    have hy2 : isspace y = true := by
      simpa [hd] using hy
    simp [htw, List.splitOnP_cons, hy2]

/-- The extraction `iss >> tok` delivers the first token the stream holds and leaves the
other tokens; with no token left it fails and leaves none. -/
theorem IStream.extract_tokens (st : IStream) :
    (st.tokens = [] →
      st.extract.1 = false ∧ st.extract.2.1 = "" ∧ st.extract.2.2.tokens = []) ∧
    (∀ t ts, st.tokens = t :: ts →
      st.extract.1 = true ∧ st.extract.2.1 = t ∧ st.extract.2.2.tokens = ts) := by
  unfold IStream.tokens IStream.extract
  by_cases hf : st.failed = true
  · simp [hf]
  · have hf2 : st.failed = false := by simpa using hf
    simp only [hf2, Bool.false_eq_true, if_false]
    have hdw := tokens_dropWhile isspace (fun _ h => h) st.rest
    cases hr : st.rest.dropWhile isspace with
    | nil =>
      rw [hr, tokens_nil] at hdw
      simp [← hdw]
    | cons y ys =>
      have hy := List.head_dropWhile_not isspace st.rest (by rw [hr]; simp)
      simp only [hr, List.head_cons, Bool.not_eq_true] at hy
      rw [hr, tokens_of_head y ys hy] at hdw
      rw [← hdw]
      simp

/-! ## `ParseInstruction` by tokens -/

theorem numericOperand_empty : numericOperand "" = (false, 0) := by decide

theorem toUpperStr_empty_not_opcode : toUpperStr "" ∉ opcodes := by decide

/-- The stream that `ParseInstruction` reads holds the tokens of the text before the
first `;`. -/
theorem parse_stream_tokens (a_buff : String) :
    IStream.tokens { rest := trim (a_buff.data.takeWhile (fun c => c != ';')), failed := false }
      = tokens (stripComment a_buff) := by
  simp [IStream.tokens, tokens_trim, stripComment]

theorem trim_ne_nil_of_tokens (a_buff : String) (t : String) (ts : List String)
    (h : tokens (stripComment a_buff) = t :: ts) :
    (trim (a_buff.data.takeWhile (fun c => c != ';'))).isEmpty = false := by
  cases htr : trim (a_buff.data.takeWhile (fun c => c != ';')) with
  | nil =>
    have h2 := tokens_trim (a_buff.data.takeWhile (fun c => c != ';'))
    rw [htr, tokens_nil] at h2
    unfold stripComment at h
    rw [← h2] at h
    exact absurd h (by simp)
  | cons y ys => rfl

/-- A line whose text before the first `;` trims to nothing. -/
theorem ParseInstruction_comment (a_buff : String) (e : Errors)
    (h : trim (stripComment a_buff) = []) :
    ParseInstruction a_buff e
      = ({ Instruction.ctor with m_instruction := a_buff, m_type := ST_Comment }, e) := by
  unfold stripComment at h
  unfold ParseInstruction
  simp [h]

/-- A line whose first token is a reserved opcode. -/
theorem ParseInstruction_opcode_first (a_buff : String) (e : Errors) (t1 : String)
    (rest : List String) (htok : tokens (stripComment a_buff) = t1 :: rest)
    (hop : toUpperStr t1 ∈ opcodes) :
    ParseInstruction a_buff e
      = ({ m_Label := "", m_OpCode := toUpperStr t1, m_Operand := rest.head?.getD "",
           m_instruction := a_buff, m_NumOpCode := 0, m_type := opcodeType (toUpperStr t1),
           m_IsNumericOperand := (numericOperand (rest.head?.getD "")).1,
           m_OperandNumValue := (numericOperand (rest.head?.getD "")).2 }, e) := by
  have hne := trim_ne_nil_of_tokens a_buff t1 rest htok
  have hst := parse_stream_tokens a_buff
  rw [htok] at hst
  obtain ⟨h1a, h1b, h1c⟩ := (IStream.extract_tokens _).2 t1 rest hst
  unfold ParseInstruction
  simp only [hne, Bool.false_eq_true, if_false, h1b, hop, if_true]
  cases rest with
  | nil =>
    obtain ⟨h2a, _, _⟩ := (IStream.extract_tokens _).1 h1c
    simp [h2a, numericOperand_empty]
  | cons t2 rest2 =>
    obtain ⟨h2a, h2b, _⟩ := (IStream.extract_tokens _).2 t2 rest2 h1c
    simp [h2a, h2b]

/-- A line whose first token is no reserved opcode and which has a second token. -/
theorem ParseInstruction_label_first (a_buff : String) (e : Errors) (t1 t2 : String)
    (rest : List String) (htok : tokens (stripComment a_buff) = t1 :: t2 :: rest)
    (hop : toUpperStr t1 ∉ opcodes) :
    ParseInstruction a_buff e
      = ({ m_Label := t1, m_OpCode := toUpperStr t2, m_Operand := rest.head?.getD "",
           m_instruction := a_buff, m_NumOpCode := 0, m_type := opcodeType (toUpperStr t2),
           m_IsNumericOperand := (numericOperand (rest.head?.getD "")).1,
           m_OperandNumValue := (numericOperand (rest.head?.getD "")).2 }, e) := by
  have hne := trim_ne_nil_of_tokens a_buff t1 (t2 :: rest) htok
  have hst := parse_stream_tokens a_buff
  rw [htok] at hst
  obtain ⟨h1a, h1b, h1c⟩ := (IStream.extract_tokens _).2 t1 (t2 :: rest) hst
  obtain ⟨h2a, h2b, h2c⟩ := (IStream.extract_tokens _).2 t2 rest h1c
  unfold ParseInstruction
  simp only [hne, Bool.false_eq_true, if_false, h1b, hop, h2a, h2b, Bool.not_true]
  cases rest with
  | nil =>
    obtain ⟨h3a, _, _⟩ := (IStream.extract_tokens _).1 h2c
    simp [h3a, numericOperand_empty]
  | cons t3 rest3 =>
    obtain ⟨h3a, h3b, _⟩ := (IStream.extract_tokens _).2 t3 rest3 h2c
    simp [h3a, h3b]

/-- A line with one token that is no reserved opcode. -/
theorem ParseInstruction_label_only (a_buff : String) (e : Errors) (t1 : String)
    (htok : tokens (stripComment a_buff) = [t1]) (hop : toUpperStr t1 ∉ opcodes) :
    ParseInstruction a_buff e
      = ({ m_Label := t1, m_OpCode := "", m_Operand := "", m_instruction := a_buff,
           m_NumOpCode := 0, m_type := ST_Invalid, m_IsNumericOperand := false,
           m_OperandNumValue := 0 },
         e.RecordError ("Missing opcode after label: " ++ t1)) := by
  have hne := trim_ne_nil_of_tokens a_buff t1 [] htok
  have hst := parse_stream_tokens a_buff
  rw [htok] at hst
  obtain ⟨h1a, h1b, h1c⟩ := (IStream.extract_tokens _).2 t1 [] hst
  obtain ⟨h2a, _, _⟩ := (IStream.extract_tokens _).1 h1c
  unfold ParseInstruction
  simp [hne, h1b, hop, h2a]

/-- A line whose text before the first `;` does not trim to nothing and yet holds no
token. -/
theorem ParseInstruction_no_token (a_buff : String) (e : Errors)
    (htrim : trim (stripComment a_buff) ≠ []) (htok : tokens (stripComment a_buff) = []) :
    ParseInstruction a_buff e
      = ({ m_Label := "", m_OpCode := "", m_Operand := "", m_instruction := a_buff,
           m_NumOpCode := 0, m_type := ST_Invalid, m_IsNumericOperand := false,
           m_OperandNumValue := 0 },
         e.RecordError ("Missing opcode after label: " ++ "")) := by
  have hne : (trim (a_buff.data.takeWhile (fun c => c != ';'))).isEmpty = false := by
    unfold stripComment at htrim
    cases htr : trim (a_buff.data.takeWhile (fun c => c != ';')) with
    | nil => exact absurd htr htrim
    | cons y ys => rfl
  have hst := parse_stream_tokens a_buff
  rw [htok] at hst
  obtain ⟨h1a, h1b, h1c⟩ := (IStream.extract_tokens _).1 hst
  obtain ⟨h2a, _, _⟩ := (IStream.extract_tokens _).1 h1c
  unfold ParseInstruction
  simp [hne, h1b, toUpperStr_empty_not_opcode, h2a]

theorem opcodeType_ne_comment (op : String) : opcodeType op ≠ ST_Comment := by
  unfold opcodeType
  split_ifs <;> decide

theorem opcodeType_ne_invalid (op : String) : opcodeType op ≠ ST_Invalid := by
  unfold opcodeType
  split_ifs <;> decide

theorem token_ne_empty (text : List Char) (t : String) (h : t ∈ tokens text) : t ≠ "" := by
  unfold tokens at h
  obtain ⟨l, hl, rfl⟩ := List.mem_map.1 h
  have hl2 := (List.mem_filter.1 hl).2
  intro hmk
  have hdata : l = [] := congrArg String.data hmk
  rw [hdata] at hl2
  simp at hl2

theorem toUpperStr_ne_empty (t : String) (h : t ≠ "") : toUpperStr t ≠ "" := by
  intro hu
  apply h
  have hdata : t.data.map Char.toUpper = [] := congrArg String.data hu
  have hnil : t.data = [] := List.map_eq_nil_iff.1 hdata
  exact String.ext hnil

/-- The text before the first `;` of a line is the text before a `;` appended to it. -/
theorem stripComment_append (text suffix : List Char) (h : ';' ∉ text) :
    stripComment (String.mk (text ++ ';' :: suffix)) = text := by
  unfold stripComment
  simp only []
  induction text with
  | nil => simp
  | cons c cs ih =>
    have hc : c ≠ ';' := fun hc => h (by rw [hc]; exact List.mem_cons_self _ _)
    have hcs : ';' ∉ cs := fun hm => h (List.mem_cons_of_mem _ hm)
    simp [List.takeWhile_cons, hc, ih hcs]

/-- Two lines with the same text before the first `;` are parsed alike. -/
theorem ParseInstruction_congr (b1 b2 : String) (e : Errors)
    (h : stripComment b1 = stripComment b2) :
    ParseInstruction b1 e
      = ({ (ParseInstruction b2 e).1 with m_instruction := b1 }, (ParseInstruction b2 e).2) := by
  unfold stripComment at h
  unfold ParseInstruction
  simp only [h]
  split_ifs <;> rfl

/-- C16 fails for a line that holds white space other than spaces, tabs, carriage returns
and line feeds: the line made of one form feed is white space only, and `ParseInstruction`
returns `ST_Invalid` for it and records "Missing opcode after label: " with an empty
label. -/
theorem ParseInstruction_form_feed_line :
    (∀ c ∈ stripComment "\x0c", isspace c = true) ∧
    ParseInstruction "\x0c" Errors.InitErrorReporting
      = ({ m_Label := "", m_OpCode := "", m_Operand := "", m_instruction := "\x0c",
           m_NumOpCode := 0, m_type := ST_Invalid, m_IsNumericOperand := false,
           m_OperandNumValue := 0 },
         { m_ErrorMsgs := ["Missing opcode after label: "], m_WasErrorMessages := true }) := by
  decide

/-- C16, amended: `ParseInstruction` returns `ST_Comment` exactly when the text before the
first `;` (the whole line without one) consists only of spaces, tabs, carriage returns and
line feeds; label, opcode and operand are then empty and no error is recorded.  Lines with
the same text before the first `;` get the same label, opcode, operand and type and record
the same errors, so what follows the first `;` never matters. -/
theorem ParseInstruction_comment_iff (a_buff : String) (e : Errors) :
    ((ParseInstruction a_buff e).1.m_type = ST_Comment ↔
      ∀ c ∈ stripComment a_buff, c = ' ' ∨ c = '\t' ∨ c = '\r' ∨ c = '\n') ∧
    ((ParseInstruction a_buff e).1.m_type = ST_Comment →
      (ParseInstruction a_buff e).1.m_Label = "" ∧ (ParseInstruction a_buff e).1.m_OpCode = "" ∧
      (ParseInstruction a_buff e).1.m_Operand = "" ∧ (ParseInstruction a_buff e).2 = e) ∧
    (∀ b2 : String, stripComment b2 = stripComment a_buff →
      (ParseInstruction b2 e).1.m_Label = (ParseInstruction a_buff e).1.m_Label ∧
      (ParseInstruction b2 e).1.m_OpCode = (ParseInstruction a_buff e).1.m_OpCode ∧
      (ParseInstruction b2 e).1.m_Operand = (ParseInstruction a_buff e).1.m_Operand ∧
      (ParseInstruction b2 e).1.m_type = (ParseInstruction a_buff e).1.m_type ∧
      (ParseInstruction b2 e).2 = (ParseInstruction a_buff e).2) ∧
    (∀ text suffix : List Char, ';' ∉ text →
      stripComment (String.mk (text ++ ';' :: suffix)) = text) := by
  have hiff : (ParseInstruction a_buff e).1.m_type = ST_Comment ↔
      trim (stripComment a_buff) = [] := by
    constructor
    · intro hc
      by_contra htrim
      cases htok : tokens (stripComment a_buff) with
      | nil =>
        rw [ParseInstruction_no_token a_buff e htrim htok] at hc
        simp at hc
      | cons t1 rest =>
        by_cases hop : toUpperStr t1 ∈ opcodes
        · rw [ParseInstruction_opcode_first a_buff e t1 rest htok hop] at hc
          exact opcodeType_ne_comment _ hc
        · cases rest with
          | nil =>
            rw [ParseInstruction_label_only a_buff e t1 htok hop] at hc
            simp at hc
          | cons t2 rest2 =>
            rw [ParseInstruction_label_first a_buff e t1 t2 rest2 htok hop] at hc
            exact opcodeType_ne_comment _ hc
    · intro htrim
      rw [ParseInstruction_comment a_buff e htrim]
  refine ⟨?_, ?_, ?_, stripComment_append⟩
  · rw [hiff, trim_eq_nil_iff]
    constructor
    · intro h c hc
      have := h c hc
      simp only [isTrimChar, Bool.or_eq_true, beq_iff_eq] at this
      tauto
    · intro h c hc
      have := h c hc
      simp only [isTrimChar, Bool.or_eq_true, beq_iff_eq]
      tauto
  · intro hc
    rw [ParseInstruction_comment a_buff e (hiff.1 hc)]
    exact ⟨rfl, rfl, rfl, rfl⟩
  · intro b2 h
    rw [ParseInstruction_congr b2 a_buff e h]
    exact ⟨rfl, rfl, rfl, rfl, rfl⟩

/-- An instance of the amended C16: a blank line with a comment. -/
theorem ParseInstruction_comment_iff_witness :
    (∀ c ∈ stripComment " \t ; LOAD X", c = ' ' ∨ c = '\t' ∨ c = '\r' ∨ c = '\n') ∧
    (ParseInstruction " \t ; LOAD X" Errors.InitErrorReporting).1.m_type = ST_Comment :=
  ⟨by decide,
   (ParseInstruction_comment_iff " \t ; LOAD X" Errors.InitErrorReporting).1.2 (by decide)⟩

/-- C17: for a line whose first token `t1` (of the text before the first `;`) is, in upper
case, one of `READ`, `LOAD`, `STORE`, `WRITE`, `BP`, `HALT`, `ORG`, `DC`, `DS`, `END`,
`ParseInstruction` gives a record without label, with the opcode `t1` in upper case and with
the second token as operand, the empty string when there is none; no error is recorded.
Any line with the same first token and the same second token, or none, gets the same
record apart from the stored source line, whatever further tokens follow. -/
theorem ParseInstruction_opcode_line (a_buff : String) (e : Errors) (t1 : String)
    (rest : List String) (htok : tokens (stripComment a_buff) = t1 :: rest)
    (hop : toUpperStr t1 ∈ opcodes) :
    (ParseInstruction a_buff e).1.m_Label = "" ∧
    (ParseInstruction a_buff e).1.isLabel = false ∧
    (ParseInstruction a_buff e).1.m_OpCode = toUpperStr t1 ∧
    (ParseInstruction a_buff e).1.m_Operand = rest.head?.getD "" ∧
    (ParseInstruction a_buff e).2 = e ∧
    (∀ (b2 : String) (rest2 : List String), tokens (stripComment b2) = t1 :: rest2 →
      rest2.head? = rest.head? →
      (ParseInstruction b2 e).1 = { (ParseInstruction a_buff e).1 with m_instruction := b2 }) := by
  rw [ParseInstruction_opcode_first a_buff e t1 rest htok hop]
  refine ⟨rfl, rfl, rfl, rfl, rfl, ?_⟩
  intro b2 rest2 htok2 hhead
  rw [ParseInstruction_opcode_first b2 e t1 rest2 htok2 hop, hhead]

/-- An instance of C17: `lOaD x y z` with a comment. -/
theorem ParseInstruction_opcode_line_witness :
    tokens (stripComment "lOaD x y z ; c") = "lOaD" :: ["x", "y", "z"] ∧
    toUpperStr "lOaD" ∈ opcodes ∧
    (ParseInstruction "lOaD x y z ; c" Errors.InitErrorReporting).1.m_OpCode = toUpperStr "lOaD" ∧
    (ParseInstruction "lOaD x y z ; c" Errors.InitErrorReporting).1.m_Operand
      = (["x", "y", "z"] : List String).head?.getD "" :=
  ⟨by decide, by decide,
   (ParseInstruction_opcode_line "lOaD x y z ; c" Errors.InitErrorReporting "lOaD"
      ["x", "y", "z"] (by decide) (by decide)).2.2.1,
   (ParseInstruction_opcode_line "lOaD x y z ; c" Errors.InitErrorReporting "lOaD"
      ["x", "y", "z"] (by decide) (by decide)).2.2.2.1⟩

/-- C18: for a line whose first token `t1` (of the text before the first `;`) is no
reserved opcode, `ParseInstruction` stores `t1` unchanged as the label; with a second token
`t2` the opcode is `t2` in upper case, the operand is the third token or empty, the type is
not `ST_Invalid` and no error is recorded; without a second token the type is `ST_Invalid`
and the one error "Missing opcode after label: " with the label is recorded.
`ParseInstruction` returns `ST_Invalid` exactly for the lines that are no comment, do not
start with a reserved opcode and have no second token (a line whose only characters are
vertical tabs or form feeds has no token at all and gets the empty label). -/
theorem ParseInstruction_label_line (a_buff : String) (e : Errors) :
    (∀ (t1 : String) (rest : List String), tokens (stripComment a_buff) = t1 :: rest →
      toUpperStr t1 ∉ opcodes →
        (ParseInstruction a_buff e).1.m_Label = t1 ∧
        (∀ (t2 : String) (rest2 : List String), rest = t2 :: rest2 →
          (ParseInstruction a_buff e).1.m_OpCode = toUpperStr t2 ∧
          (ParseInstruction a_buff e).1.m_Operand = rest2.head?.getD "" ∧
          (ParseInstruction a_buff e).1.m_type ≠ ST_Invalid ∧
          (ParseInstruction a_buff e).2 = e) ∧
        (rest = [] →
          (ParseInstruction a_buff e).1.m_type = ST_Invalid ∧
          (ParseInstruction a_buff e).2
            = e.RecordError ("Missing opcode after label: " ++ t1))) ∧
    ((ParseInstruction a_buff e).1.m_type = ST_Invalid ↔
      (ParseInstruction a_buff e).1.m_type ≠ ST_Comment ∧
      toUpperStr ((tokens (stripComment a_buff)).head?.getD "") ∉ opcodes ∧
      (tokens (stripComment a_buff)).length < 2) := by
  refine ⟨?_, ?_⟩
  · intro t1 rest htok hop
    cases rest with
    | nil =>
      rw [ParseInstruction_label_only a_buff e t1 htok hop]
      refine ⟨rfl, ?_, fun _ => ⟨rfl, rfl⟩⟩
      intro t2 rest2 h
      simp at h
    | cons t2 rest2 =>
      rw [ParseInstruction_label_first a_buff e t1 t2 rest2 htok hop]
      refine ⟨rfl, ?_, ?_⟩
      · intro t3 rest3 h
        simp only [List.cons.injEq] at h
        obtain ⟨h1, h2⟩ := h
        subst h1 h2
        exact ⟨rfl, rfl, opcodeType_ne_invalid _, rfl⟩
      · intro h
        simp at h
  · by_cases htrim : trim (stripComment a_buff) = []
    · rw [ParseInstruction_comment a_buff e htrim]
      simp
    · cases htok : tokens (stripComment a_buff) with
      | nil =>
        rw [ParseInstruction_no_token a_buff e htrim htok]
        simp [toUpperStr_empty_not_opcode]
      | cons t1 rest =>
        by_cases hop : toUpperStr t1 ∈ opcodes
        · rw [ParseInstruction_opcode_first a_buff e t1 rest htok hop]
          simp [hop, opcodeType_ne_invalid]
        · cases rest with
          | nil =>
            rw [ParseInstruction_label_only a_buff e t1 htok hop]
            simp [hop]
          | cons t2 rest2 =>
            rw [ParseInstruction_label_first a_buff e t1 t2 rest2 htok hop]
            simp [opcodeType_ne_invalid]

/-- An instance of C18: `Loop lOaD x` keeps the label `Loop`, and `Loop` alone is invalid. -/
theorem ParseInstruction_label_line_witness :
    (ParseInstruction "Loop lOaD x" Errors.InitErrorReporting).1.m_Label = "Loop" ∧
    (ParseInstruction "Loop lOaD x" Errors.InitErrorReporting).1.m_OpCode = toUpperStr "lOaD" ∧
    (ParseInstruction "Loop" Errors.InitErrorReporting).1.m_type = ST_Invalid :=
  ⟨((ParseInstruction_label_line "Loop lOaD x" Errors.InitErrorReporting).1 "Loop"
      ["lOaD", "x"] (by decide) (by decide)).1,
   (((ParseInstruction_label_line "Loop lOaD x" Errors.InitErrorReporting).1 "Loop"
      ["lOaD", "x"] (by decide) (by decide)).2.1 "lOaD" ["x"] rfl).1,
   (((ParseInstruction_label_line "Loop" Errors.InitErrorReporting).1 "Loop"
      [] (by decide) (by decide)).2.2 rfl).1⟩

theorem opcodeType_spec (op : String) :
    (opcodeType op = ST_End ↔ op = "END") ∧
    (opcodeType op = ST_AssemblerInstr ↔ op = "ORG" ∨ op = "DC" ∨ op = "DS") ∧
    (opcodeType op = ST_MachineLanguage ↔ op ∉ ["END", "ORG", "DC", "DS"]) := by
  unfold opcodeType
  by_cases h1 : op = "END"
  · subst h1; decide
  · by_cases h2 : op = "ORG" ∨ op = "DC" ∨ op = "DS"
    · simp only [h1, h2, if_false, if_true]
      rcases h2 with h | h | h <;> subst h <;> decide
    · simp only [h1, h2, if_false]
      simp only [not_or] at h2
      simp [h1, h2.1, h2.2.1, h2.2.2]

/-- C19 fails for a labelled line whose second token is no reserved opcode: `X FOO Y` gets
the opcode `FOO`, which is none of `READ`, `LOAD`, `STORE`, `WRITE`, `BP`, `HALT`, and the
type `ST_MachineLanguage`, without an error. -/
theorem ParseInstruction_unknown_opcode_is_machine :
    ParseInstruction "X FOO Y" Errors.InitErrorReporting
      = ({ m_Label := "X", m_OpCode := "FOO", m_Operand := "Y", m_instruction := "X FOO Y",
           m_NumOpCode := 0, m_type := ST_MachineLanguage, m_IsNumericOperand := false,
           m_OperandNumValue := 0 }, Errors.InitErrorReporting) ∧
    "FOO" ∉ ["READ", "LOAD", "STORE", "WRITE", "BP", "HALT"] := by
  decide

/-- C19, amended: the type `ParseInstruction` returns is `ST_End` exactly when the opcode
of the record is `END`, `ST_AssemblerInstr` exactly when it is `ORG`, `DC` or `DS`, and
`ST_MachineLanguage` exactly when it is any other non-empty opcode: one of `READ`, `LOAD`,
`STORE`, `WRITE`, `BP`, `HALT` always is, and on a line without label nothing else is, but
after a label every second token other than `END`, `ORG`, `DC`, `DS` is. -/
theorem ParseInstruction_type_by_opcode (a_buff : String) (e : Errors) :
    ((ParseInstruction a_buff e).1.m_type = ST_End ↔
      (ParseInstruction a_buff e).1.m_OpCode = "END") ∧
    ((ParseInstruction a_buff e).1.m_type = ST_AssemblerInstr ↔
      (ParseInstruction a_buff e).1.m_OpCode = "ORG" ∨
      (ParseInstruction a_buff e).1.m_OpCode = "DC" ∨
      (ParseInstruction a_buff e).1.m_OpCode = "DS") ∧
    ((ParseInstruction a_buff e).1.m_type = ST_MachineLanguage ↔
      (ParseInstruction a_buff e).1.m_OpCode ≠ "" ∧
      (ParseInstruction a_buff e).1.m_OpCode ∉ ["END", "ORG", "DC", "DS"]) ∧
    ((ParseInstruction a_buff e).1.m_OpCode ∈ ["READ", "LOAD", "STORE", "WRITE", "BP", "HALT"] →
      (ParseInstruction a_buff e).1.m_type = ST_MachineLanguage) ∧
    ((ParseInstruction a_buff e).1.m_type = ST_MachineLanguage →
      (ParseInstruction a_buff e).1.m_Label = "" →
      (ParseInstruction a_buff e).1.m_OpCode ∈ ["READ", "LOAD", "STORE", "WRITE", "BP", "HALT"]) := by
  have hempty : ∀ i : Instruction, i.m_OpCode = "" →
      (i.m_type = ST_Comment ∨ i.m_type = ST_Invalid) →
      (i.m_type = ST_End ↔ i.m_OpCode = "END") ∧
      (i.m_type = ST_AssemblerInstr ↔
        i.m_OpCode = "ORG" ∨ i.m_OpCode = "DC" ∨ i.m_OpCode = "DS") ∧
      (i.m_type = ST_MachineLanguage ↔
        i.m_OpCode ≠ "" ∧ i.m_OpCode ∉ ["END", "ORG", "DC", "DS"]) ∧
      (i.m_OpCode ∈ ["READ", "LOAD", "STORE", "WRITE", "BP", "HALT"] →
        i.m_type = ST_MachineLanguage) ∧
      (i.m_type = ST_MachineLanguage → i.m_Label = "" →
        i.m_OpCode ∈ ["READ", "LOAD", "STORE", "WRITE", "BP", "HALT"]) := by
    intro i hop ht
    rw [hop]
    rcases ht with ht | ht <;> rw [ht] <;>
      exact ⟨by decide, by decide, by decide, by decide, fun h => absurd h (by decide)⟩
  have hfull : ∀ i : Instruction, i.m_OpCode ≠ "" → i.m_type = opcodeType i.m_OpCode →
      (i.m_Label = "" → i.m_OpCode ∈ opcodes) →
      (i.m_type = ST_End ↔ i.m_OpCode = "END") ∧
      (i.m_type = ST_AssemblerInstr ↔
        i.m_OpCode = "ORG" ∨ i.m_OpCode = "DC" ∨ i.m_OpCode = "DS") ∧
      (i.m_type = ST_MachineLanguage ↔
        i.m_OpCode ≠ "" ∧ i.m_OpCode ∉ ["END", "ORG", "DC", "DS"]) ∧
      (i.m_OpCode ∈ ["READ", "LOAD", "STORE", "WRITE", "BP", "HALT"] →
        i.m_type = ST_MachineLanguage) ∧
      (i.m_type = ST_MachineLanguage → i.m_Label = "" →
        i.m_OpCode ∈ ["READ", "LOAD", "STORE", "WRITE", "BP", "HALT"]) := by
    intro i hne ht hlab
    obtain ⟨s1, s2, s3⟩ := opcodeType_spec i.m_OpCode
    rw [ht]
    refine ⟨s1, s2, ?_, ?_, ?_⟩
    · rw [s3]
      exact ⟨fun h => ⟨hne, h⟩, fun h => h.2⟩
    · intro hmem
      rw [s3]
      intro hmem2
      simp only [List.mem_cons, List.mem_singleton, List.not_mem_nil, or_false] at hmem hmem2
      rcases hmem with h | h | h | h | h | h <;> rw [h] at hmem2 <;> revert hmem2 <;> decide
    · intro hm hl
      have hin := hlab hl
      rw [s3] at hm
      simp only [opcodes, List.mem_cons, List.mem_singleton, List.not_mem_nil, or_false,
        not_or] at hin hm ⊢
      tauto
  by_cases htrim : trim (stripComment a_buff) = []
  · rw [ParseInstruction_comment a_buff e htrim]
    exact hempty _ rfl (Or.inl rfl)
  · cases htok : tokens (stripComment a_buff) with
    | nil =>
      rw [ParseInstruction_no_token a_buff e htrim htok]
      exact hempty _ rfl (Or.inr rfl)
    | cons t1 rest =>
      have ht1 : t1 ≠ "" := token_ne_empty _ t1 (by rw [htok]; exact List.mem_cons_self _ _)
      by_cases hop : toUpperStr t1 ∈ opcodes
      · rw [ParseInstruction_opcode_first a_buff e t1 rest htok hop]
        exact hfull _ (toUpperStr_ne_empty t1 ht1) rfl (fun _ => hop)
      · cases rest with
        | nil =>
          rw [ParseInstruction_label_only a_buff e t1 htok hop]
          exact hempty _ rfl (Or.inr rfl)
        | cons t2 rest2 =>
          have ht2 : t2 ≠ "" := token_ne_empty _ t2 (by rw [htok]; simp)
          rw [ParseInstruction_label_first a_buff e t1 t2 rest2 htok hop]
          exact hfull _ (toUpperStr_ne_empty t2 ht2) rfl (fun h => absurd h ht1)

/-- An instance of the amended C19: `X FOO Y` has a non-empty opcode other than `END`,
`ORG`, `DC`, `DS` and is a machine instruction. -/
theorem ParseInstruction_type_by_opcode_witness :
    (ParseInstruction "X FOO Y" Errors.InitErrorReporting).1.m_type = ST_MachineLanguage ∧
    ((ParseInstruction "x end" Errors.InitErrorReporting).1.m_type = ST_End) :=
  ⟨(ParseInstruction_type_by_opcode "X FOO Y" Errors.InitErrorReporting).2.2.1.2 (by decide),
   (ParseInstruction_type_by_opcode "x end" Errors.InitErrorReporting).1.2 (by decide)⟩

/-! ## Branch, halt and the running loop -/

/-- C21: one iteration of `runProgram` at a location in `[0, 10000)` whose word decodes to
opcode 12 (`BP`): the location becomes `address` (`word % 10000`) when the accumulator is
greater than 0 and grows by 1 otherwise, that is for 0 and for every negative accumulator;
memory, accumulator, input and output stay as they are. -/
theorem runStep_BP (s : RunState) (hloc : 0 ≤ s.loc ∧ s.loc < 10000)
    (hop : (s.em.m_memory s.loc).tdiv 10000 = 12) :
    (0 < s.em.m_accum →
      runStep s = StepResult.running
        { loc := (s.em.m_memory s.loc).tmod 10000, em := s.em, input := s.input,
          output := s.output }) ∧
    (s.em.m_accum ≤ 0 →
      runStep s = StepResult.running
        { loc := s.loc + 1, em := s.em, input := s.input, output := s.output }) := by
  have hb : ¬ (s.loc < 0 ∨ s.loc ≥ emulator.MEMSZ) := by
    unfold emulator.MEMSZ; omega
  refine ⟨?_, ?_⟩
  · intro h
    simp [runStep, hb, hop, h]
  · intro h
    have h2 : ¬ (0 < s.em.m_accum) := by omega
    simp [runStep, hb, hop, h2]

/-- An instance of C21: `BP 7` at location 100 with the accumulator at 0 goes on to 101. -/
theorem runStep_BP_witness :
    (0 ≤ (100 : Int) ∧ (100 : Int) < 10000) ∧
    runStep { loc := 100, em := { m_memory := fun i => if i = 100 then 120007 else 0,
                                  m_accum := 0 },
              input := { rest := [], failed := false }, output := [] }
      = StepResult.running
        { loc := 100 + 1, em := { m_memory := fun i => if i = 100 then 120007 else 0,
                                  m_accum := 0 },
          input := { rest := [], failed := false }, output := [] } :=
  ⟨by decide,
   (runStep_BP
      { loc := 100, em := { m_memory := fun i => if i = 100 then 120007 else 0, m_accum := 0 },
        input := { rest := [], failed := false }, output := [] }
      (by decide) (by decide)).2 (by decide)⟩

/-- An iteration that returns `true` is one at a location in `[0, 10000)` whose word decodes
to opcode 13, and it changes nothing. -/
theorem runStep_returned_true (s s2 : RunState)
    (h : runStep s = StepResult.returned true s2) :
    s2 = s ∧ (0 ≤ s.loc ∧ s.loc < 10000) ∧ (s.em.m_memory s.loc).tdiv 10000 = 13 := by
  unfold runStep at h
  simp only [emulator.MEMSZ] at h
  split_ifs at h with h1 h2 h3 h4 h5 h6 h7 h8
  · simp at h
  · simp at h
    exact ⟨h.symm, by omega, h8⟩
  · simp at h

/-- The loop started in `s` with `n + m` iterations allowed goes on from the state in which
iteration `n` begins with `m` iterations allowed. -/
theorem runLoop_of_stateAt : ∀ (n : Nat) (s t : RunState), stateAt n s = some t →
    ∀ m, runLoop (n + m) s = runLoop m t := by
  intro n
  induction n with
  | zero =>
    intro s t h m
    simp only [stateAt, Option.some.injEq] at h
    rw [h, Nat.zero_add]
  | succ n ih =>
    intro s t h m
    unfold stateAt at h
    have hfuel : n + 1 + m = (n + m) + 1 := by omega
    cases hr : runStep s with
    | running s2 =>
      rw [hr] at h
      rw [hfuel, runLoop, hr]
      exact ih s2 t h m
    | returned b s2 =>
      rw [hr] at h
      simp at h

/-- A loop that returns does so in an iteration it begins within the fuel. -/
theorem stateAt_of_runLoop : ∀ (fuel : Nat) (s : RunState) (b : Bool) (s2 : RunState),
    runLoop fuel s = some (b, s2) →
    ∃ n t, n < fuel ∧ stateAt n s = some t ∧ runStep t = StepResult.returned b s2 := by
  intro fuel
  induction fuel with
  | zero => intro s b s2 h; simp [runLoop] at h
  | succ k ih =>
    intro s b s2 h
    unfold runLoop at h
    cases hr : runStep s with
    | running t2 =>
      rw [hr] at h
      obtain ⟨n, t, hn, hst, hret⟩ := ih t2 b s2 h
      refine ⟨n + 1, t, by omega, ?_, hret⟩
      unfold stateAt
      rw [hr]
      exact hst
    | returned b2 t2 =>
      rw [hr] at h
      simp only [Option.some.injEq, Prod.mk.injEq] at h
      obtain ⟨hb, ht⟩ := h
      subst hb ht
      exact ⟨0, s, by omega, rfl, hr⟩

/-- C22: let the loop of `runProgram`, started at location 100 on the memory `em` and the
input `input`, begin its iteration number `n` in a state `s` whose location is in
`[0, 10000)` and whose word decodes to opcode 13 (`HALT`), whatever the address part.  Then
that iteration returns `true` and `runProgram` returns `true` with the state `s` itself
(memory, accumulator, input and output as they were when the iteration began) as soon as
more than `n` iterations are allowed.  Conversely, when `runProgram` returns `true`, the
state it returns is one in which an iteration began, at a location in `[0, 10000)` whose
word decodes to opcode 13: success comes from a `HALT` only. -/
theorem runProgram_HALT (em : emulator) (input : InputStream) :
    (∀ (n : Nat) (s : RunState),
      stateAt n { loc := 100, em := em, input := input, output := [] } = some s →
      (0 ≤ s.loc ∧ s.loc < 10000) → (s.em.m_memory s.loc).tdiv 10000 = 13 →
      runStep s = StepResult.returned true s ∧
      ∀ fuel, n < fuel → em.runProgram fuel input = some (true, s)) ∧
    (∀ (fuel : Nat) (s2 : RunState), em.runProgram fuel input = some (true, s2) →
      ∃ n, n < fuel ∧
        stateAt n { loc := 100, em := em, input := input, output := [] } = some s2 ∧
        (0 ≤ s2.loc ∧ s2.loc < 10000) ∧ (s2.em.m_memory s2.loc).tdiv 10000 = 13 ∧
        runStep s2 = StepResult.returned true s2) := by
  have hstep : ∀ t : RunState, (0 ≤ t.loc ∧ t.loc < 10000) →
      (t.em.m_memory t.loc).tdiv 10000 = 13 → runStep t = StepResult.returned true t := by
    intro t hloc hop
    have hb : ¬ (t.loc < 0 ∨ t.loc ≥ emulator.MEMSZ) := by
      unfold emulator.MEMSZ; omega
    simp [runStep, hb, hop]
  refine ⟨?_, ?_⟩
  · intro n s hs hloc hop
    refine ⟨hstep s hloc hop, ?_⟩
    intro fuel hfuel
    obtain ⟨m, hm⟩ : ∃ m, fuel = n + (m + 1) := ⟨fuel - n - 1, by omega⟩
    unfold emulator.runProgram
    rw [hm, runLoop_of_stateAt n _ s hs (m + 1)]
    simp [runLoop, hstep s hloc hop]
  · intro fuel s2 h
    unfold emulator.runProgram at h
    obtain ⟨n, t, hn, hst, hret⟩ := stateAt_of_runLoop fuel _ true s2 h
    obtain ⟨h1, h2, h3⟩ := runStep_returned_true t s2 hret
    subst h1
    exact ⟨n, hn, hst, h2, h3, hret⟩

/-- An instance of C22: `LOAD 0` at 100 and `HALT` with the address part 77 at 101; the
second iteration begins at 101 and `runProgram` returns `true` there. -/
theorem runProgram_HALT_witness :
    stateAt 1
        { loc := 100,
          em := { m_memory := fun i => if i = 100 then 50000 else if i = 101 then 130077 else 0,
                  m_accum := 5 },
          input := { rest := [], failed := false }, output := [] }
      = some { loc := 101,
               em := { m_memory := fun i => if i = 100 then 50000
                                            else if i = 101 then 130077 else 0,
                       m_accum := 0 },
               input := { rest := [], failed := false }, output := [] } ∧
    emulator.runProgram 2
        { m_memory := fun i => if i = 100 then 50000 else if i = 101 then 130077 else 0,
          m_accum := 5 }
        { rest := [], failed := false }
      = some (true,
        { loc := 101,
          em := { m_memory := fun i => if i = 100 then 50000
                                       else if i = 101 then 130077 else 0,
                  m_accum := 0 },
          input := { rest := [], failed := false }, output := [] }) :=
  ⟨rfl,
   ((runProgram_HALT
      { m_memory := fun i => if i = 100 then 50000 else if i = 101 then 130077 else 0,
        m_accum := 5 }
      { rest := [], failed := false }).1 1
      { loc := 101,
        em := { m_memory := fun i => if i = 100 then 50000
                                     else if i = 101 then 130077 else 0,
                m_accum := 0 },
        input := { rest := [], failed := false }, output := [] }
      rfl (by decide) (by decide)).2 2 (by decide)⟩

/-- C29: `runProgram` has no bound on the number of iterations.  On the memory with 1 in
cell 0, `LOAD 0` (50000) at 100 and `BP 100` (120100) at 101, the loop is still running
after `n` iterations for every `n`, whatever the accumulator and the input are at the
start: it has returned neither `true` nor `false`. -/
theorem runProgram_never_returns (n : Nat) (accum : Int) (input : InputStream) :
    emulator.runProgram n { m_memory := loopMemory, m_accum := accum } input = none := by
  have hload : ∀ (a : Int) (i : InputStream) (o : List Int),
      runStep { loc := 100, em := { m_memory := loopMemory, m_accum := a }, input := i,
                output := o }
        = StepResult.running
            { loc := 101, em := { m_memory := loopMemory, m_accum := 1 }, input := i,
              output := o } := by
    intro a i o
    have h1 : loopMemory 100 = 50000 := by decide
    have h2 : (50000 : Int).tdiv 10000 = 5 := by decide
    have h3 : (50000 : Int).tmod 10000 = 0 := by decide
    have h4 : loopMemory 0 = 1 := by decide
    simp [runStep, emulator.MEMSZ, h1, h2, h3, h4]
  have hbp : ∀ (i : InputStream) (o : List Int),
      runStep { loc := 101, em := { m_memory := loopMemory, m_accum := 1 }, input := i,
                output := o }
        = StepResult.running
            { loc := 100, em := { m_memory := loopMemory, m_accum := 1 }, input := i,
              output := o } := by
    intro i o
    have h1 : loopMemory 101 = 120100 := by decide
    have h2 : (120100 : Int).tdiv 10000 = 12 := by decide
    have h3 : (120100 : Int).tmod 10000 = 100 := by decide
    simp [runStep, emulator.MEMSZ, h1, h2, h3]
  have key : ∀ (k : Nat) (a : Int) (i : InputStream) (o : List Int),
      runLoop k { loc := 100, em := { m_memory := loopMemory, m_accum := a }, input := i,
                  output := o } = none ∧
      runLoop k { loc := 101, em := { m_memory := loopMemory, m_accum := 1 }, input := i,
                  output := o } = none := by
    intro k
    induction k with
    | zero => intro a i o; exact ⟨rfl, rfl⟩
    | succ k ih =>
      intro a i o
      refine ⟨?_, ?_⟩
      · simp only [runLoop, hload]
        exact (ih a i o).2
      · simp only [runLoop, hbp]
        exact (ih 1 i o).1
  exact (key n accum input []).1

theorem tdiv_pos_nonneg (w : Int) (h : 0 < w.tdiv 10000) : 0 ≤ w := by
  by_contra hneg
  have hw : 0 ≤ -w := by omega
  have h1 : 0 ≤ (-w).tdiv 10000 := Int.tdiv_nonneg hw (by decide)
  rw [Int.neg_tdiv] at h1
  omega

/-- C30: the addresses `runProgram` uses are inside the memory, whatever the memory holds.
For every word `w`, negative ones included, whose truncating quotient `w / 10000` is one of
5, 6, 7, 8, 12, the address `w % 10000` lies in `[0, MEMSZ)`; so in an iteration at a
location in `[0, MEMSZ)` the cell that `LOAD`, `STORE`, `READ` or `WRITE` indexes exists,
and a `BP` that is taken leaves the location in `[0, MEMSZ)`. -/
theorem runStep_address_in_bounds (w : Int)
    (hop : w.tdiv 10000 ∈ [5, 6, 7, 8, 12]) :
    (0 ≤ w.tmod 10000 ∧ w.tmod 10000 < emulator.MEMSZ) ∧
    (∀ s : RunState, s.em.m_memory s.loc = w → (0 ≤ s.loc ∧ s.loc < emulator.MEMSZ) →
      w.tdiv 10000 = 12 → 0 < s.em.m_accum →
      ∃ s2, runStep s = StepResult.running s2 ∧ 0 ≤ s2.loc ∧ s2.loc < emulator.MEMSZ) := by
  have hpos : 0 < w.tdiv 10000 := by
    simp only [List.mem_cons, List.mem_singleton, List.not_mem_nil, or_false] at hop
    omega
  have hw : 0 ≤ w := tdiv_pos_nonneg w hpos
  have hrange : 0 ≤ w.tmod 10000 ∧ w.tmod 10000 < emulator.MEMSZ :=
    ⟨Int.tmod_nonneg _ hw, Int.tmod_lt_of_pos w (by decide)⟩
  refine ⟨hrange, ?_⟩
  intro s hs hloc h12 hacc
  have hb : ¬ (s.loc < 0 ∨ s.loc ≥ emulator.MEMSZ) := by omega
  refine ⟨{ s with loc := w.tmod 10000 }, ?_, hrange.1, hrange.2⟩
  simp [runStep, hb, hs, h12, hacc]

/-- An instance of C30: the word 129999 has the address 9999. -/
theorem runStep_address_in_bounds_witness :
    (129999 : Int).tdiv 10000 ∈ [5, 6, 7, 8, 12] ∧
    (0 ≤ (129999 : Int).tmod 10000 ∧ (129999 : Int).tmod 10000 < emulator.MEMSZ) :=
  ⟨by decide, (runStep_address_in_bounds 129999 (by decide)).1⟩

/-! ## The two structures of the symbol table -/

theorem mapFind_none_iff (l : List (String × Int)) (n : String) :
    mapFind l n = none ↔ n ∉ l.map Prod.fst := by
  induction l with
  | nil => simp [mapFind]
  | cons x l ih =>
    obtain ⟨k, v⟩ := x
    simp only [mapFind] at ih
    by_cases h : n = k
    · subst h
      simp [mapFind, List.lookup]
    · have h2 : (n == k) = false := by simpa using h
      simp [mapFind, List.lookup, h2, ih, h]

theorem mapSet_absent (l : List (String × Int)) (n : String) (v : Int)
    (h : n ∉ l.map Prod.fst) : mapSet l n v = l ++ [(n, v)] := by
  induction l with
  | nil => rfl
  | cons x l ih =>
    obtain ⟨k, w⟩ := x
    simp only [List.map_cons, List.mem_cons, not_or] at h
    have hk : ¬ k = n := fun hk => h.1 hk.symm
    simp [mapSet, hk, ih h.2]

theorem mapSet_present (l : List (String × Int)) (n : String) (v : Int)
    (h : n ∈ l.map Prod.fst) : mapSet l n v = markOrdered l n v := by
  induction l with
  | nil => simp at h
  | cons x l ih =>
    obtain ⟨k, w⟩ := x
    by_cases hk : k = n
    · simp [mapSet, markOrdered, hk]
    · simp only [List.map_cons, List.mem_cons] at h
      have h2 : n ∈ l.map Prod.fst := by
        rcases h with h | h
        · exact absurd h.symm hk
        · exact h
      simp [mapSet, markOrdered, hk, ih h2]

theorem markOrdered_names (l : List (String × Int)) (n : String) (v : Int) :
    (markOrdered l n v).map Prod.fst = l.map Prod.fst := by
  induction l with
  | nil => rfl
  | cons x l ih =>
    obtain ⟨k, w⟩ := x
    by_cases hk : k = n
    · simp [markOrdered, hk]
    · simp [markOrdered, hk, ih]

theorem AddSymbol_names (t : SymbolTable) (n : String) (l : Int) (e : Errors)
    (h : tablesAgree t) :
    (t.AddSymbol n l e).1.m_orderedSymbols.map Prod.fst
      = (if n ∈ t.m_orderedSymbols.map Prod.fst then t.m_orderedSymbols.map Prod.fst
         else t.m_orderedSymbols.map Prod.fst ++ [n]) := by
  unfold SymbolTable.AddSymbol
  by_cases hn : n ∈ t.m_orderedSymbols.map Prod.fst
  · have hs : (mapFind t.m_symbolTable n).isSome = true := by
      rw [h.1]
      cases hf : mapFind t.m_orderedSymbols n with
      | none => exact absurd hn ((mapFind_none_iff _ _).1 hf)
      | some v => rfl
    simp only [hs, if_true, hn, markOrdered_names]
  · have hs : mapFind t.m_symbolTable n = none := by
      rw [h.1]; exact (mapFind_none_iff _ _).2 hn
    simp [hs, hn]

theorem AddSymbol_tablesAgree (t : SymbolTable) (n : String) (l : Int) (e : Errors)
    (h : tablesAgree t) : tablesAgree (t.AddSymbol n l e).1 := by
  have hnames := AddSymbol_names t n l e h
  refine ⟨?_, ?_⟩
  · unfold SymbolTable.AddSymbol
    by_cases hn : n ∈ t.m_orderedSymbols.map Prod.fst
    · have hs : (mapFind t.m_symbolTable n).isSome = true := by
        rw [h.1]
        cases hf : mapFind t.m_orderedSymbols n with
        | none => exact absurd hn ((mapFind_none_iff _ _).1 hf)
        | some v => rfl
      simp only [hs, if_true]
      rw [h.1]
      exact mapSet_present _ _ _ hn
    · have hs : mapFind t.m_symbolTable n = none := by
        rw [h.1]; exact (mapFind_none_iff _ _).2 hn
      simp only [hs, Option.isSome_none, Bool.false_eq_true, if_false]
      rw [h.1]
      exact mapSet_absent _ _ _ hn
  · rw [hnames]
    by_cases hn : n ∈ t.m_orderedSymbols.map Prod.fst
    · simp only [hn, if_true]; exact h.2
    · simp only [hn, if_false]
      exact List.Nodup.append h.2 (List.nodup_singleton n) (by simpa using hn)

theorem addSymbols_tablesAgree (calls : List (String × Int)) :
    ∀ (t : SymbolTable) (e : Errors), tablesAgree t →
      tablesAgree (addSymbols calls (t, e)).1 := by
  induction calls with
  | nil => intro t e h; exact h
  | cons x calls ih =>
    intro t e h
    rw [addSymbols_cons]
    exact ih _ _ (AddSymbol_tablesAgree t x.1 x.2 e h)

theorem addSymbols_names (calls : List (String × Int)) :
    ∀ (t : SymbolTable) (e : Errors), tablesAgree t →
      (addSymbols calls (t, e)).1.m_orderedSymbols.map Prod.fst
        = calls.foldl (fun acc c => if c.1 ∈ acc then acc else acc ++ [c.1])
            (t.m_orderedSymbols.map Prod.fst) := by
  induction calls with
  | nil => intro t e _; rfl
  | cons x calls ih =>
    intro t e h
    rw [addSymbols_cons, List.foldl_cons, ← AddSymbol_names t x.1 x.2 e h]
    exact ih _ _ (AddSymbol_tablesAgree t x.1 x.2 e h)

theorem tablesAgree_empty : tablesAgree SymbolTable.empty :=
  ⟨rfl, List.nodup_nil⟩

theorem mem_iff_mapFind (l : List (String × Int)) (hnd : (l.map Prod.fst).Nodup) (n : String)
    (v : Int) : (n, v) ∈ l ↔ mapFind l n = some v := by
  induction l with
  | nil => simp [mapFind]
  | cons x l ih =>
    obtain ⟨k, w⟩ := x
    simp only [List.map_cons, List.nodup_cons] at hnd
    have ih2 := ih hnd.2
    simp only [mapFind] at ih2
    by_cases hk : n = k
    · subst hk
      have hno : ∀ u, (n, u) ∉ l := fun u hu => hnd.1 (List.mem_map.2 ⟨(n, u), hu, rfl⟩)
      simp [mapFind, List.lookup, hno]
      exact eq_comm
    · have h2 : (n == k) = false := by simpa using hk
      simp [mapFind, List.lookup, h2, hk, ih2]

/-- C24: after any sequence of `AddSymbol` calls on the empty table the lookup structure
and the ordered list agree: a name is in the one exactly when it is in the other, no name
is twice in the ordered list, an entry `(n, v)` is in the ordered list exactly when the
lookup structure holds `v` (a location or the value -999 for multiply defined) for `n`,
and `GetSymbolTable` returns the names in the order of their first `AddSymbol` call. -/
theorem symbol_structures_agree (calls : List (String × Int)) (e : Errors) :
    (∀ n, (mapFind (addSymbols calls (SymbolTable.empty, e)).1.m_symbolTable n).isSome = true ↔
      n ∈ (addSymbols calls (SymbolTable.empty, e)).1.m_orderedSymbols.map Prod.fst) ∧
    ((addSymbols calls (SymbolTable.empty, e)).1.m_orderedSymbols.map Prod.fst).Nodup ∧
    (∀ n v, (n, v) ∈ (addSymbols calls (SymbolTable.empty, e)).1.m_orderedSymbols ↔
      mapFind (addSymbols calls (SymbolTable.empty, e)).1.m_symbolTable n = some v) ∧
    (addSymbols calls (SymbolTable.empty, e)).1.GetSymbolTable.map Prod.fst
      = firstNames calls := by
  have hagree := addSymbols_tablesAgree calls SymbolTable.empty e tablesAgree_empty
  have hval : ∀ n v, (n, v) ∈ (addSymbols calls (SymbolTable.empty, e)).1.m_orderedSymbols ↔
      mapFind (addSymbols calls (SymbolTable.empty, e)).1.m_symbolTable n = some v := by
    intro n v
    rw [hagree.1]
    exact mem_iff_mapFind _ hagree.2 n v
  refine ⟨?_, hagree.2, hval, ?_⟩
  · intro n
    constructor
    · intro h
      cases hf : mapFind (addSymbols calls (SymbolTable.empty, e)).1.m_symbolTable n with
      | none => rw [hf] at h; simp at h
      | some v => exact List.mem_map.2 ⟨(n, v), (hval n v).2 hf, rfl⟩
    · intro h
      obtain ⟨p, hp, hpn⟩ := List.mem_map.1 h
      obtain ⟨k, v⟩ := p
      simp only at hpn
      subst hpn
      rw [(hval k v).1 hp]
      rfl
  · exact addSymbols_names calls SymbolTable.empty e tablesAgree_empty

/-- An instance of C24: `b`, `a`, `c` and `a` again. -/
theorem symbol_structures_agree_witness :
    (addSymbols [("b", 1), ("a", 2), ("c", 3), ("a", 4)]
        (SymbolTable.empty, Errors.InitErrorReporting)).1.GetSymbolTable.map Prod.fst
      = ["b", "a", "c"] ∧
    ((addSymbols [("b", 1), ("a", 2), ("c", 3), ("a", 4)]
        (SymbolTable.empty, Errors.InitErrorReporting)).1.m_orderedSymbols.map Prod.fst).Nodup :=
  ⟨(symbol_structures_agree [("b", 1), ("a", 2), ("c", 3), ("a", 4)]
      Errors.InitErrorReporting).2.2.2,
   (symbol_structures_agree [("b", 1), ("a", 2), ("c", 3), ("a", 4)]
      Errors.InitErrorReporting).2.1⟩

/-! ## The sorted display of the symbol table -/

theorem stringGreater_iff_lt : ∀ (x y : List Char), stringGreater x y = true ↔ y < x
  | [], y => by
    simp [stringGreater]
  | a :: as, [] => by
    simp [stringGreater]
    exact List.nil_lt_cons _ _
  | a :: as, b :: bs => by
    have ih := stringGreater_iff_lt as bs
    unfold stringGreater
    by_cases h1 : b < a
    · simp only [h1, if_true, true_iff]
      exact List.Lex.rel h1
    · by_cases h2 : a < b
      · simp only [h1, h2, if_false, if_true, Bool.false_eq_true, false_iff]
        intro h
        cases h with
        | cons h3 => exact lt_irrefl _ h2
        | rel h3 => exact h1 h3
      · have hab : a = b := le_antisymm (not_lt.1 h1) (not_lt.1 h2)
        subst hab
        simp only [h1, if_false, ih]
        exact List.Lex.cons_iff.symm

/-- The comparison of `std::string` is the order of `String`. -/
theorem stringGreater_iff (x y : String) : stringGreater x.data y.data = true ↔ y < x := by
  rw [stringGreater_iff_lt, String.lt_iff_toList_lt]
  rfl

theorem displayInner_done (rest : List (String × Int)) :
    ∀ (x : String × Int) (done : List (String × Int)),
      displayInner x done rest
        = ((displayInner x [] rest).1, done ++ (displayInner x [] rest).2) := by
  induction rest with
  | nil => intro x done; simp [displayInner]
  | cons y rest ih =>
    intro x done
    unfold displayInner
    split_ifs
    · rw [ih y (done ++ [x]), ih y ([] ++ [x])]
      simp
    · rw [ih x (done ++ [y]), ih x ([] ++ [y])]
      simp

theorem displayInner_perm (rest : List (String × Int)) :
    ∀ x : String × Int,
      ((displayInner x [] rest).1 :: (displayInner x [] rest).2).Perm (x :: rest) := by
  induction rest with
  | nil => intro x; simp [displayInner]
  | cons y rest ih =>
    intro x
    unfold displayInner
    split_ifs
    · rw [displayInner_done rest y ([] ++ [x])]
      simp only [List.nil_append, List.singleton_append]
      exact (List.Perm.swap _ _ _).trans (List.Perm.cons x (ih y))
    · rw [displayInner_done rest x ([] ++ [y])]
      simp only [List.nil_append, List.singleton_append]
      exact (List.Perm.swap _ _ _).trans
        ((List.Perm.cons y (ih x)).trans (List.Perm.swap _ _ _))

theorem displayInner_least (rest : List (String × Int)) :
    ∀ x : String × Int, ∀ z ∈ x :: rest, (displayInner x [] rest).1.1 ≤ z.1 := by
  induction rest with
  | nil =>
    intro x z hz
    simp only [List.mem_singleton] at hz
    subst hz
    simp [displayInner]
  | cons y rest ih =>
    intro x z hz
    unfold displayInner
    by_cases hg : stringGreater x.1.data y.1.data = true
    · have hlt : y.1 < x.1 := (stringGreater_iff _ _).1 hg
      simp only [hg, if_true]
      rw [displayInner_done rest y ([] ++ [x])]
      try simp only []
      rcases List.mem_cons.1 hz with hzx | hz2
      · rw [hzx]
        exact le_trans (ih y y (List.mem_cons_self _ _)) (le_of_lt hlt)
      · exact ih y z hz2
    · have hle : x.1 ≤ y.1 := not_lt.1 (fun h => hg ((stringGreater_iff _ _).2 h))
      simp only [hg, if_false]
      rw [displayInner_done rest x ([] ++ [y])]
      try simp only []
      rcases List.mem_cons.1 hz with hzx | hz2
      · rw [hzx]
        exact ih x x (List.mem_cons_self _ _)
      · rcases List.mem_cons.1 hz2 with hzy | hz3
        · rw [hzy]
          exact le_trans (ih x x (List.mem_cons_self _ _)) hle
        · exact ih x z (List.mem_cons_of_mem _ hz3)

theorem displayInner_length (rest : List (String × Int)) (x : String × Int) :
    (displayInner x [] rest).2.length = rest.length := by
  have h := (displayInner_perm rest x).length_eq
  simpa using h

theorem displayOuter_perm (n : Nat) : ∀ l : List (String × Int), (displayOuter n l).Perm l := by
  induction n with
  | zero => intro l; simp [displayOuter]
  | succ n ih =>
    intro l
    cases l with
    | nil => simp [displayOuter]
    | cons x rest =>
      simp only [displayOuter]
      exact (List.Perm.cons _ (ih _)).trans (displayInner_perm rest x)

theorem displayOuter_sorted (n : Nat) :
    ∀ l : List (String × Int), l.length ≤ n →
      ((displayOuter n l).map Prod.fst).Sorted (fun a b => a ≤ b) := by
  induction n with
  | zero =>
    intro l hl
    have : l = [] := List.length_eq_zero.1 (Nat.le_zero.1 hl)
    subst this
    simp [displayOuter]
  | succ n ih =>
    intro l hl
    cases l with
    | nil => simp [displayOuter]
    | cons x rest =>
      simp only [displayOuter, List.map_cons, List.sorted_cons]
      refine ⟨?_, ih _ ?_⟩
      · intro b hb
        obtain ⟨z, hz, hzb⟩ := List.mem_map.1 hb
        have hz2 : z ∈ (displayInner x [] rest).2 := (displayOuter_perm n _).subset hz
        have hz3 : z ∈ x :: rest :=
          (displayInner_perm rest x).subset (List.mem_cons_of_mem _ hz2)
        rw [← hzb]
        exact displayInner_least rest x z hz3
      · rw [displayInner_length]
        simp only [List.length_cons] at hl
        omega

theorem displayRows_entries (l : List (String × Int)) :
    ∀ i, (displayRows i l).map (fun r => (r.2.1, r.2.2.1)) = l := by
  induction l with
  | nil => intro i; rfl
  | cons x l ih => intro i; simp [displayRows, ih]

theorem displayRows_index (l : List (String × Int)) :
    ∀ i, (displayRows i l).map (fun r => r.1) = List.range' i l.length := by
  induction l with
  | nil => intro i; rfl
  | cons x l ih => intro i; simp [displayRows, ih, List.range']

theorem displayRows_flag (l : List (String × Int)) :
    ∀ i, ∀ r ∈ displayRows i l,
      (r.2.2.2 = true ↔ r.2.2.1 = SymbolTable.multiplyDefinedSymbol) ∧ (r.2.1, r.2.2.1) ∈ l := by
  induction l with
  | nil => intro i r hr; simp [displayRows] at hr
  | cons x l ih =>
    intro i r hr
    simp only [displayRows, List.mem_cons] at hr
    rcases hr with hr | hr
    · subst hr
      simp
    · obtain ⟨h1, h2⟩ := ih (i + 1) r hr
      exact ⟨h1, List.mem_cons_of_mem _ h2⟩

theorem count_names_eq_filter (calls : List (String × Int)) (n : String) :
    (calls.map Prod.fst).count n = (calls.filter (fun c => decide (c.1 = n))).length := by
  induction calls with
  | nil => rfl
  | cons x calls ih =>
    by_cases h : x.1 = n
    · simp [List.count_cons, List.filter_cons, h, ih]
    · simp [List.count_cons, List.filter_cons, h, ih]

/-- After calls on the empty table none of which gives the location -999, the value -999
marks the names that were added more than once. -/
theorem marked_iff_added_twice (calls : List (String × Int)) (e : Errors)
    (hloc : ∀ c ∈ calls, c.2 ≠ SymbolTable.multiplyDefinedSymbol) (n : String) (v : Int)
    (hv : mapFind (addSymbols calls (SymbolTable.empty, e)).1.m_symbolTable n = some v) :
    v = SymbolTable.multiplyDefinedSymbol ↔ 2 ≤ (calls.map Prod.fst).count n := by
  constructor
  · intro hmark
    by_contra hlt
    have hmem : n ∈ calls.map Prod.fst := by
      by_contra hnm
      rw [find_addSymbols_not_mem calls n _ hnm] at hv
      simp [SymbolTable.empty, mapFind] at hv
    have hpos : 0 < (calls.map Prod.fst).count n := List.count_pos_iff.2 hmem
    have hone : (calls.filter (fun c => decide (c.1 = n))).length = 1 := by
      rw [← count_names_eq_filter]; omega
    obtain ⟨c, hc⟩ := List.length_eq_one.1 hone
    have hcm : c ∈ calls := by
      have : c ∈ calls.filter (fun c => decide (c.1 = n)) := by rw [hc]; simp
      exact (List.mem_filter.1 this).1
    have hfind := find_addSymbols_once calls n c.2 (SymbolTable.empty, e) rfl
      (by rw [hc]; rfl)
    rw [hfind] at hv
    have : c.2 = v := Option.some.inj hv
    exact hloc c hcm (this.trans hmark)
  · intro htwice
    have h := find_addSymbols_twice calls n (SymbolTable.empty, e) htwice
    rw [h] at hv
    exact (Option.some.inj hv).symm

/-- C23 fails for a symbol whose location is -999: after the single call
`AddSymbol("X", -999)` the one line `DisplaySymbolTable` prints is annotated
"(Multiply Defined)" although `X` was added once. -/
theorem display_annotates_sentinel_location :
    (addSymbols [("X", -999)]
        (SymbolTable.empty, Errors.InitErrorReporting)).1.DisplaySymbolTable
      = [(0, "X", -999, true)] ∧
    ([("X", (-999 : Int))].map Prod.fst).count "X" = 1 := by
  decide

/-- C23, amended: for every symbol table the lines of `DisplaySymbolTable` hold a
permutation of the entries of the ordered list (names with their locations), in ascending
order of the names, numbered 0, 1, 2 and so on, and a line is annotated "(Multiply
Defined)" exactly when its location is -999.  For a table built by `AddSymbol` calls none of
which gives the location -999, that is exactly when the name was added more than once. -/
theorem DisplaySymbolTable_sorted (t : SymbolTable) :
    (t.DisplaySymbolTable.map (fun r => (r.2.1, r.2.2.1))).Perm t.m_orderedSymbols ∧
    (t.DisplaySymbolTable.map (fun r => r.2.1)).Sorted (fun a b => a ≤ b) ∧
    t.DisplaySymbolTable.map (fun r => r.1) = List.range t.m_orderedSymbols.length ∧
    (∀ r ∈ t.DisplaySymbolTable,
      r.2.2.2 = true ↔ r.2.2.1 = SymbolTable.multiplyDefinedSymbol) ∧
    (∀ (calls : List (String × Int)) (e : Errors),
      t = (addSymbols calls (SymbolTable.empty, e)).1 →
      (∀ c ∈ calls, c.2 ≠ SymbolTable.multiplyDefinedSymbol) →
      ∀ r ∈ t.DisplaySymbolTable, r.2.2.2 = true ↔ 2 ≤ (calls.map Prod.fst).count r.2.1) := by
  have hperm : (t.DisplaySymbolTable.map (fun r => (r.2.1, r.2.2.1))).Perm t.m_orderedSymbols := by
    unfold SymbolTable.DisplaySymbolTable
    rw [displayRows_entries]
    exact displayOuter_perm _ _
  refine ⟨hperm, ?_, ?_, ?_, ?_⟩
  · have h := displayOuter_sorted t.m_orderedSymbols.length t.m_orderedSymbols (le_refl _)
    have hmap : t.DisplaySymbolTable.map (fun r => r.2.1)
        = (t.DisplaySymbolTable.map (fun r => (r.2.1, r.2.2.1))).map Prod.fst := by
      simp [List.map_map, Function.comp]
    rw [hmap]
    unfold SymbolTable.DisplaySymbolTable
    rw [displayRows_entries]
    exact h
  · unfold SymbolTable.DisplaySymbolTable
    rw [displayRows_index, (displayOuter_perm _ _).length_eq, List.range_eq_range']
  · intro r hr
    exact (displayRows_flag _ 0 r hr).1
  · intro calls e ht hloc r hr
    obtain ⟨hflag, hmem⟩ := displayRows_flag _ 0 r hr
    have hmem2 : (r.2.1, r.2.2.1) ∈ t.m_orderedSymbols := (displayOuter_perm _ _).subset hmem
    have hagree := addSymbols_tablesAgree calls SymbolTable.empty e tablesAgree_empty
    rw [← ht] at hagree
    have hfind : mapFind t.m_symbolTable r.2.1 = some r.2.2.1 := by
      rw [hagree.1]
      exact (mem_iff_mapFind _ hagree.2 _ _).1 hmem2
    rw [hflag]
    rw [ht] at hfind
    exact marked_iff_added_twice calls e hloc r.2.1 r.2.2.1 hfind

/-- An instance of the amended C23: `b`, `a`, `c` and `a` again are shown as `a`
(multiply defined), `b`, `c`. -/
theorem DisplaySymbolTable_sorted_witness :
    (addSymbols [("b", 1), ("a", 2), ("c", 3), ("a", 4)]
        (SymbolTable.empty, Errors.InitErrorReporting)).1.DisplaySymbolTable
      = [(0, "a", -999, true), (1, "b", 1, false), (2, "c", 3, false)] ∧
    ((addSymbols [("b", 1), ("a", 2), ("c", 3), ("a", 4)]
        (SymbolTable.empty, Errors.InitErrorReporting)).1.DisplaySymbolTable.map
        (fun r => r.2.1)).Sorted (fun a b => a ≤ b) :=
  ⟨by decide,
   (DisplaySymbolTable_sorted (addSymbols [("b", 1), ("a", 2), ("c", 3), ("a", 4)]
      (SymbolTable.empty, Errors.InitErrorReporting)).1).2.1⟩

/-! ## Labels registered by Pass I -/

theorem find_isSome_AddSymbol (t : SymbolTable) (n n2 : String) (l : Int) (e : Errors) :
    (mapFind (t.AddSymbol n l e).1.m_symbolTable n2).isSome = true ↔
      n2 = n ∨ (mapFind t.m_symbolTable n2).isSome = true := by
  by_cases h : n2 = n
  · subst h
    obtain ⟨v, hv⟩ := find_AddSymbol_isSome t n2 l e
    simp [hv]
  · rw [find_AddSymbol_ne t n n2 l e h]
    simp [h]

theorem find_isSome_addSymbols (calls : List (String × Int)) (n : String) :
    ∀ s : SymbolTable × Errors,
      (mapFind (addSymbols calls s).1.m_symbolTable n).isSome = true ↔
        (mapFind s.1.m_symbolTable n).isSome = true ∨ n ∈ calls.map Prod.fst := by
  induction calls with
  | nil => intro s; simp [addSymbols]
  | cons x calls ih =>
    intro s
    rw [addSymbols_cons, ih, find_isSome_AddSymbol]
    simp only [List.map_cons, List.mem_cons]
    tauto

theorem registersLabel_iff (r : IntermediateInstruction) :
    registersLabel r = true ↔
      (r.type = ST_AssemblerInstr ∨ r.type = ST_MachineLanguage) ∧ r.label ≠ "" := by
  simp [registersLabel]

/-- An assembler instruction that `ParseInstruction` returns has the opcode `ORG`, `DC` or
`DS`. -/
theorem ParseInstruction_directive_opcode (a_buff : String) (e : Errors)
    (h : (ParseInstruction a_buff e).1.m_type = ST_AssemblerInstr) :
    (ParseInstruction a_buff e).1.m_OpCode = "ORG" ∨ (ParseInstruction a_buff e).1.m_OpCode = "DC" ∨
      (ParseInstruction a_buff e).1.m_OpCode = "DS" := by
  by_cases htrim : trim (stripComment a_buff) = []
  · rw [ParseInstruction_comment a_buff e htrim] at h
    simp at h
  · cases htok : tokens (stripComment a_buff) with
    | nil =>
      rw [ParseInstruction_no_token a_buff e htrim htok] at h
      simp at h
    | cons t1 rest =>
      by_cases hop : toUpperStr t1 ∈ opcodes
      · rw [ParseInstruction_opcode_first a_buff e t1 rest htok hop] at h ⊢
        exact (opcodeType_spec _).2.1.1 h
      · cases rest with
        | nil =>
          rw [ParseInstruction_label_only a_buff e t1 htok hop] at h
          simp at h
        | cons t2 rest2 =>
          rw [ParseInstruction_label_first a_buff e t1 t2 rest2 htok hop] at h ⊢
          exact (opcodeType_spec _).2.1.1 h

/-- C25: after Pass I the symbol table is the result of one `AddSymbol(label, location)`
call for every record that is an assembler instruction (`ORG`, `DC` or `DS`) or a machine
instruction and carries a label, in source order and with the location of the record,
which is the value of the counter before the line takes effect.  So the names in the table
are the labels of these records, and comments, invalid lines and `END` lines add none. -/
theorem PassI_registers_labels (lines : List String) (e : Errors) :
    (PassI lines Assembler.ctor e).1.m_symtab
      = (addSymbols
          (((PassI lines Assembler.ctor e).1.m_intermediate.filter
              (fun r => decide ((r.type = ST_AssemblerInstr ∨ r.type = ST_MachineLanguage) ∧
                r.label ≠ ""))).map (fun r => (r.label, r.location)))
          (SymbolTable.empty, Errors.InitErrorReporting)).1 ∧
    (∀ n, (mapFind (PassI lines Assembler.ctor e).1.m_symtab.m_symbolTable n).isSome = true ↔
      ∃ r ∈ (PassI lines Assembler.ctor e).1.m_intermediate,
        (r.type = ST_AssemblerInstr ∨ r.type = ST_MachineLanguage) ∧ r.label ≠ "" ∧
        r.label = n) ∧
    (∀ r ∈ (PassI lines Assembler.ctor e).1.m_intermediate, r.type = ST_AssemblerInstr →
      r.opcode = "ORG" ∨ r.opcode = "DC" ∨ r.opcode = "DS") ∧
    (∀ (line : String) (s : PassIState),
      (PassIBody line s).2.asm.m_intermediate = s.asm.m_intermediate ++ [PassIRecord line s] ∧
      (PassIRecord line s).location = s.loc) := by
  have hfilter : (fun r : IntermediateInstruction =>
      decide ((r.type = ST_AssemblerInstr ∨ r.type = ST_MachineLanguage) ∧ r.label ≠ ""))
      = registersLabel := by
    funext r
    by_cases h : registersLabel r = true
    · rw [h]; simpa using (registersLabel_iff r).1 h
    · have h2 : registersLabel r = false := by simpa using h
      rw [h2]
      simpa using fun hc => h ((registersLabel_iff r).2 hc)
  have htab : (PassI lines Assembler.ctor e).1.m_symtab
      = (addSymbols (labelCalls (PassI lines Assembler.ctor e).1.m_intermediate)
          (SymbolTable.empty, Errors.InitErrorReporting)).1 := PassI_symtab lines e
  refine ⟨?_, ?_, ?_, ?_⟩
  · rw [hfilter]
    exact htab
  · intro n
    rw [htab, find_isSome_addSymbols]
    simp only [SymbolTable.empty, mapFind, List.lookup, Option.isSome_none, Bool.false_eq_true,
      false_or, labelCalls, List.map_map, List.mem_map, List.mem_filter, Function.comp]
    constructor
    · rintro ⟨r, ⟨hr, hreg⟩, hn⟩
      exact ⟨r, hr, ((registersLabel_iff r).1 hreg).1, ((registersLabel_iff r).1 hreg).2, hn⟩
    · rintro ⟨r, hr, h1, h2, hn⟩
      exact ⟨r, ⟨hr, (registersLabel_iff r).2 ⟨h1, h2⟩⟩, hn⟩
  · have key := PassILoop_induct
      (fun s => ∀ r ∈ s.asm.m_intermediate, r.type = ST_AssemblerInstr →
        r.opcode = "ORG" ∨ r.opcode = "DC" ∨ r.opcode = "DS")
      (by
        intro line s hs r hr ht
        rw [PassIBody_intermediate, List.mem_append, List.mem_singleton] at hr
        rcases hr with hr | hr
        · exact hs r hr ht
        · subst hr
          exact ParseInstruction_directive_opcode line s.errs ht)
      (by intro s hs; exact hs)
      lines { loc := 0, asm := Assembler.ctor, errs := e }
      (by simp [Assembler.ctor])
    exact key
  · intro line s
    exact ⟨PassIBody_intermediate line s, rfl⟩

/-- An instance of C25: `X ORG 500` binds `X` to 0, the counter before the `ORG`, and the
label of `Z END` is not registered. -/
theorem PassI_registers_labels_witness :
    (PassI ["X ORG 500", "Y DC 1", "Z END"] Assembler.ctor
        Errors.InitErrorReporting).1.m_symtab
      = (addSymbols [("X", 0), ("Y", 500)]
          (SymbolTable.empty, Errors.InitErrorReporting)).1 ∧
    (mapFind (PassI ["X ORG 500", "Y DC 1", "Z END"] Assembler.ctor
        Errors.InitErrorReporting).1.m_symtab.m_symbolTable "Z").isSome = false :=
  ⟨(PassI_registers_labels ["X ORG 500", "Y DC 1", "Z END"] Errors.InitErrorReporting).1,
   by decide⟩

/-! ## What Pass II writes -/

/-- The body of the loop of Pass II leaves the emulator as it is at a record that is neither
a `DC` with an operand `stoi` converts nor a machine instruction with a table opcode. -/
theorem PassIIBody_no_write (symtab : SymbolTable) (r : IntermediateInstruction)
    (s : emulator × Errors) (h : ¬ writesMemory r) : (PassIIBody symtab r s).1 = s.1 := by
  unfold writesMemory at h
  unfold PassIIBody
  cases ht : r.type with
  | ST_Invalid => simp
  | ST_Comment => simp
  | ST_End => simp
  | ST_MachineLanguage =>
    cases hc : opcodeMap.lookup r.opcode with
    | none => simp [hc]
    | some c => exact absurd (Or.inr ⟨ht, by simp [hc]⟩) h
  | ST_AssemblerInstr =>
    by_cases h1 : r.opcode = "ORG"
    · simp [h1]
    · by_cases h2 : r.opcode = "DC"
      · cases hv : stoi r.operand with
        | none => simp [h2]
        | some v => exact absurd (Or.inl ⟨ht, h2, by simp [hv]⟩) h
      · simp [h1, h2]

theorem PassIILoop_untouched (symtab : SymbolTable) (j : Int) :
    ∀ (recs : List IntermediateInstruction) (s : emulator × Errors),
      (∀ r ∈ recs, r.location = j → ¬ writesMemory r) →
      (PassIILoop symtab recs s).1.m_memory j = s.1.m_memory j := by
  intro recs
  induction recs with
  | nil => intro s _; rfl
  | cons r recs ih =>
    intro s h
    have hstep : PassIILoop symtab (r :: recs) s
        = PassIILoop symtab recs (PassIIBody symtab r s) := rfl
    rw [hstep, ih _ (fun r2 hr2 => h r2 (List.mem_cons_of_mem _ hr2))]
    by_cases hj : r.location = j
    · rw [PassIIBody_no_write symtab r s (h r (List.mem_cons_self _ _) hj)]
    · exact PassIIBody_frame symtab r s j (fun hc => hj hc.symm)

/-- C26 fails for the location of a comment: in the program `; c`, `HALT`, `END` the
comment record is at location 0, the `END` record at 1, and the cell 0 holds 130000 after
Pass II, because the `HALT` after the comment is at location 0 as well. -/
theorem PassII_writes_at_comment_location :
    ((assemble ["; c", "HALT", "END"]).1.m_intermediate.map (fun r => (r.type, r.location)))
      = [(ST_Comment, 0), (ST_MachineLanguage, 0), (ST_End, 1)] ∧
    (assemble ["; c", "HALT", "END"]).1.m_emul.m_memory 0 = 130000 := by
  decide

/-- C26, amended: Pass II started on a freshly constructed emulator leaves 0 in every cell
that is not the location of a record that is a `DC` with an operand `stoi` converts or a
machine instruction with an opcode of the code table; a machine instruction whose opcode is
not in the table records an "Unknown opcode" error and leaves the emulator as it is, and
comment, invalid, `END`, `ORG` and `DS` records change neither the emulator nor the error
log themselves.  The location of such a record, or a cell reserved by a `DS`, holds 0
afterwards only when no writing record has the same location. -/
theorem PassII_writes_only (symtab : SymbolTable) (recs : List IntermediateInstruction)
    (e : Errors) :
    (∀ j : Int,
      (∀ r ∈ recs, r.location = j →
        ¬ ((r.type = ST_AssemblerInstr ∧ r.opcode = "DC" ∧ (stoi r.operand).isSome = true) ∨
           (r.type = ST_MachineLanguage ∧ (opcodeMap.lookup r.opcode).isSome = true))) →
      (PassIILoop symtab recs (emulator.ctor, e)).1.m_memory j = 0) ∧
    (∀ (r : IntermediateInstruction) (s : emulator × Errors),
      r.type = ST_MachineLanguage → opcodeMap.lookup r.opcode = none →
      PassIIBody symtab r s = (s.1, s.2.RecordError ("Unknown opcode: " ++ r.opcode))) ∧
    (∀ (r : IntermediateInstruction) (s : emulator × Errors),
      (r.type = ST_Comment ∨ r.type = ST_Invalid ∨ r.type = ST_End ∨
        (r.type = ST_AssemblerInstr ∧ (r.opcode = "ORG" ∨ r.opcode = "DS"))) →
      PassIIBody symtab r s = s) := by
  refine ⟨?_, ?_, ?_⟩
  · intro j h
    rw [PassIILoop_untouched symtab j recs (emulator.ctor, e) h]
    rfl
  · intro r s ht hc
    unfold PassIIBody
    simp [ht, hc]
  · intro r s h
    unfold PassIIBody
    rcases h with h | h | h | ⟨h, h2 | h2⟩ <;> simp [h]
    · simp [h2]
    · simp [h2]

/-- An instance of the amended C26: the program reserves three words with `DS`; after both passes the
reserved cell 2 and the cell 5 of the line with the unknown opcode `FOO` hold 0, and the
cells of the `DC` and of the `LOAD` hold their words. -/
theorem PassII_writes_only_witness :
    (assemble ["X DC 7", "Y DS 3", "LOAD X", "Z FOO X", "END"]).1.m_emul.m_memory 2 = 0 ∧
    (assemble ["X DC 7", "Y DS 3", "LOAD X", "Z FOO X", "END"]).1.m_emul.m_memory 5 = 0 ∧
    (assemble ["X DC 7", "Y DS 3", "LOAD X", "Z FOO X", "END"]).1.m_emul.m_memory 0 = 7 ∧
    (assemble ["X DC 7", "Y DS 3", "LOAD X", "Z FOO X", "END"]).1.m_emul.m_memory 4 = 50000 ∧
    (assemble ["X DC 7", "Y DS 3", "LOAD X", "Z FOO X", "END"]).2.m_ErrorMsgs
      = ["Unknown opcode: FOO"] :=
  ⟨(PassII_writes_only
      (PassI ["X DC 7", "Y DS 3", "LOAD X", "Z FOO X", "END"] Assembler.ctor
        Errors.InitErrorReporting).1.m_symtab
      (PassI ["X DC 7", "Y DS 3", "LOAD X", "Z FOO X", "END"] Assembler.ctor
        Errors.InitErrorReporting).1.m_intermediate
      (PassI ["X DC 7", "Y DS 3", "LOAD X", "Z FOO X", "END"] Assembler.ctor
        Errors.InitErrorReporting).2).1 2 (by decide),
   (PassII_writes_only
      (PassI ["X DC 7", "Y DS 3", "LOAD X", "Z FOO X", "END"] Assembler.ctor
        Errors.InitErrorReporting).1.m_symtab
      (PassI ["X DC 7", "Y DS 3", "LOAD X", "Z FOO X", "END"] Assembler.ctor
        Errors.InitErrorReporting).1.m_intermediate
      (PassI ["X DC 7", "Y DS 3", "LOAD X", "Z FOO X", "END"] Assembler.ctor
        Errors.InitErrorReporting).2).1 5 (by decide),
   by decide, by decide, by decide⟩

/-! ## The `DC` directive in Pass II -/

/-- C27, counterexample: the operand `5abc` is not a number, yet Pass II writes 5 at the
location of the `DC` and records no error. -/
theorem PassII_DC_reads_leading_digits :
    (assemble ["DC 5abc", "END"]).1.m_emul.m_memory 0 = 5 ∧
    (assemble ["DC 5abc", "END"]).2.m_ErrorMsgs = [] := by
  decide

/-- C27, amended: in Pass II a `DC` record whose operand `stoi` converts to `v` (optional
white space, an optional sign and leading digits, whatever follows them) stores `v` itself
at the location of the record when the location is in `[0, 10000)`, and records nothing; a
`DC` record whose operand `stoi` rejects (no leading digit, as for a missing operand, or a
value outside `int`) records "Invalid operand for DC directive." and leaves the emulator
as it is. -/
theorem PassII_DC (symtab : SymbolTable) (r : IntermediateInstruction)
    (s : emulator × Errors) (ht : r.type = ST_AssemblerInstr) (hop : r.opcode = "DC") :
    (∀ v, stoi r.operand = some v →
      PassIIBody symtab r s = ((s.1.insertMemory r.location v).2, s.2) ∧
      (0 ≤ r.location ∧ r.location < 10000 →
        (PassIIBody symtab r s).1.m_memory r.location = v ∧
        (∀ j, j ≠ r.location → (PassIIBody symtab r s).1.m_memory j = s.1.m_memory j))) ∧
    (stoi r.operand = none →
      PassIIBody symtab r s = (s.1, s.2.RecordError "Invalid operand for DC directive.")) ∧
    stoi "" = none ∧ stoi "abc" = none ∧ stoi "-3" = some (-3) ∧
    stoi "12345" = some 12345 ∧ stoi "5abc" = some 5 := by
  have hbody : ∀ v, stoi r.operand = some v →
      PassIIBody symtab r s = ((s.1.insertMemory r.location v).2, s.2) := by
    intro v hv
    unfold PassIIBody
    simp [ht, hop, hv]
  refine ⟨?_, ?_, by decide, by decide, by decide, by decide, by decide⟩
  · intro v hv
    refine ⟨hbody v hv, ?_⟩
    intro hloc
    rw [hbody v hv]
    exact ⟨insertMemory_same _ _ _ hloc, fun j hj => insertMemory_other _ _ _ _ hj⟩
  · intro hv
    unfold PassIIBody
    simp [ht, hop, hv]

/-- An instance of C27 (amended): a `DC -3` record at location 7. -/
theorem PassII_DC_witness :
    PassIIBody SymbolTable.empty
        { location := 7, label := "", opcode := "DC", operand := "-3",
          type := ST_AssemblerInstr, originalLine := "DC -3" }
        (emulator.ctor, Errors.InitErrorReporting)
      = ((emulator.ctor.insertMemory 7 (-3)).2, Errors.InitErrorReporting) ∧
    (PassIIBody SymbolTable.empty
        { location := 7, label := "", opcode := "DC", operand := "-3",
          type := ST_AssemblerInstr, originalLine := "DC -3" }
        (emulator.ctor, Errors.InitErrorReporting)).1.m_memory 7 = -3 :=
  ⟨((PassII_DC SymbolTable.empty
        { location := 7, label := "", opcode := "DC", operand := "-3",
          type := ST_AssemblerInstr, originalLine := "DC -3" }
        (emulator.ctor, Errors.InitErrorReporting) rfl rfl).1 (-3) (by decide)).1,
   (((PassII_DC SymbolTable.empty
        { location := 7, label := "", opcode := "DC", operand := "-3",
          type := ST_AssemblerInstr, originalLine := "DC -3" }
        (emulator.ctor, Errors.InitErrorReporting) rfl rfl).1 (-3) (by decide)).2
      (by decide)).1⟩

/-! ## Operands that do not resolve -/

/-- The word `c * 10000 + a` with `c` positive and `a` in `[0, 10000)` has the truncating
quotient `c` and the remainder `a`. -/
theorem decode_encoded (c a : Int) (hc : 0 < c) (ha : 0 ≤ a ∧ a < 10000) :
    (c * 10000 + a).tdiv 10000 = c ∧ (c * 10000 + a).tmod 10000 = a := by
  have hw : 0 ≤ c * 10000 + a := by omega
  rw [Int.tdiv_eq_ediv hw (by decide), Int.tmod_eq_emod hw (by decide)]
  omega

/-- C31: for every code `c` of the opcode table and every address `a` in `[0, 10000)`, the
word `c * 10000 + a` decodes to `c` and `a` under the truncating `/` and `%` of
`runProgram`.  So Pass II stores this word for a machine instruction with the code `c`
whose operand resolves to `a` (or is absent, with `a = 0`), and one iteration of
`runProgram` at a location holding this word does what the opcode `c` says with the
address `a`. -/
theorem decode_undoes_encode (c a : Int) (hc : c ∈ opcodeMap.map Prod.snd)
    (ha : 0 ≤ a ∧ a < 10000) :
    (c * 10000 + a).tdiv 10000 = c ∧ (c * 10000 + a).tmod 10000 = a ∧
    (∀ (symtab : SymbolTable) (r : IntermediateInstruction) (s : emulator × Errors),
      r.type = ST_MachineLanguage → opcodeMap.lookup r.opcode = some c →
      ((r.operand = "" ∧ a = 0) ∨
        (r.operand ≠ "" ∧ symtab.LookupSymbol r.operand 0 s.2 = (true, a, s.2))) →
      (0 ≤ r.location ∧ r.location < 10000) →
      (PassIIBody symtab r s).1.m_memory r.location = c * 10000 + a) ∧
    (∀ s : RunState, (0 ≤ s.loc ∧ s.loc < emulator.MEMSZ) →
      s.em.m_memory s.loc = c * 10000 + a →
      (c = 5 → runStep s = StepResult.running
        { s with em := { s.em with m_accum := s.em.m_memory a }, loc := s.loc + 1 }) ∧
      (c = 6 → runStep s = StepResult.running
        { s with em := { s.em with m_memory :=
                           fun i => if i = a then s.em.m_accum else s.em.m_memory i },
                 loc := s.loc + 1 }) ∧
      (c = 7 → runStep s = StepResult.running
        { s with em := { s.em with m_memory :=
                           fun i => if i = a then (s.input.extractInt (s.em.m_memory a)).1
                                    else s.em.m_memory i },
                 input := (s.input.extractInt (s.em.m_memory a)).2,
                 loc := s.loc + 1 }) ∧
      (c = 8 → runStep s = StepResult.running
        { s with output := s.output ++ [s.em.m_memory a], loc := s.loc + 1 }) ∧
      (c = 12 → runStep s = StepResult.running
        { s with loc := if s.em.m_accum > 0 then a else s.loc + 1 }) ∧
      (c = 13 → runStep s = StepResult.returned true s)) := by
  have hpos : 0 < c := by
    rcases opcodeMap_codes c hc with h | h | h | h | h | h <;> omega
  obtain ⟨hdiv, hmod⟩ := decode_encoded c a hpos ha
  refine ⟨hdiv, hmod, ?_, ?_⟩
  · intro symtab r s ht hcode hres hloc
    rcases hres with ⟨hop, h0⟩ | ⟨hop, hlook⟩
    · rw [PassIIBody_machine_no_operand symtab r s c ht hcode hop, h0]
      exact insertMemory_same _ _ _ hloc
    · rw [PassIIBody_machine_resolved_fits symtab r s c a ht hcode hop hlook
        (by have := opcodeMap_lookup_pos _ _ hcode; omega)]
      exact insertMemory_same _ _ _ hloc
  · intro s hloc hs
    have hb : ¬ (s.loc < 0 ∨ s.loc ≥ emulator.MEMSZ) := by omega
    have hstep : ∀ c2 : Int, c = c2 →
        runStep s =
          (if c2 = 5 then
            StepResult.running
              { s with em := { s.em with m_accum := s.em.m_memory a }, loc := s.loc + 1 }
          else if c2 = 6 then
            StepResult.running
              { s with em := { s.em with m_memory :=
                                 fun i => if i = a then s.em.m_accum else s.em.m_memory i },
                       loc := s.loc + 1 }
          else if c2 = 7 then
            StepResult.running
              { s with em := { s.em with m_memory :=
                                 fun i => if i = a
                                          then (s.input.extractInt (s.em.m_memory a)).1
                                          else s.em.m_memory i },
                       input := (s.input.extractInt (s.em.m_memory a)).2,
                       loc := s.loc + 1 }
          else if c2 = 8 then
            StepResult.running
              { s with output := s.output ++ [s.em.m_memory a], loc := s.loc + 1 }
          else if c2 = 12 then
            if s.em.m_accum > 0 then StepResult.running { s with loc := a }
            else StepResult.running { s with loc := s.loc + 1 }
          else if c2 = 13 then StepResult.returned true s
          else StepResult.returned false s) := by
      intro c2 hc2
      subst hc2
      unfold runStep
      simp only [if_neg hb, hs, hdiv, hmod]
    refine ⟨?_, ?_, ?_, ?_, ?_, ?_⟩ <;> intro h
    · rw [hstep 5 h]; rfl
    · rw [hstep 6 h]; rfl
    · rw [hstep 7 h]; rfl
    · rw [hstep 8 h]; rfl
    · rw [hstep 12 h]
      by_cases hacc : s.em.m_accum > 0
      · simp [hacc]
      · simp [hacc]
    · rw [hstep 13 h]; rfl

/-- An instance of C31: the word of `BP` with the address 9999. -/
theorem decode_undoes_encode_witness :
    (12 : Int) ∈ opcodeMap.map Prod.snd ∧
    ((12 : Int) * 10000 + 9999).tdiv 10000 = 12 ∧
    ((12 : Int) * 10000 + 9999).tmod 10000 = 9999 :=
  ⟨by decide, (decode_undoes_encode 12 9999 (by decide) (by decide)).1,
   (decode_undoes_encode 12 9999 (by decide) (by decide)).2.1⟩

/-! ## Addresses outside the four digits of a word -/

end VC1401
